import Mathlib

/-!
Insert path of the xorm session (`pkg/util/xorm/session_insert.go`).

A shallow embedding of the insert execution path and of the snowflake
identifier generator, followed by the properties established about them.

Conventions of the embedding:

* Go `int64` values are mathematical integers; every operation that can leave
  the 64-bit range (`+`, `<<`) is followed by an explicit two-complement wrap
  (`wrap64`).  The bitwise `|` and `&` are `Int.lor` and `Int.land`, which act
  on the infinite two-complement representation and therefore agree with the
  machine operations on values that are in range.
* Successive results of `time.Since(s.epoch).Milliseconds()` are supplied as a
  list of readings (the future of the clock); a call consumes the readings it
  performs and returns `none` only when the supplied future is exhausted while
  the busy-wait loop is still polling.
-/

namespace Xorm

/-! ## Snowflake generator -/

/-- Two-complement wrap of an integer into the `int64` range. -/
def wrap64 (x : Int) : Int := (x + 2 ^ 63) % 2 ^ 64 - 2 ^ 63

/-- Go `x << k` on `int64`. -/
def shl64 (x : Int) (k : Nat) : Int := wrap64 (x * 2 ^ k)

/-- The fields of `type snowflake struct` that `Generate` reads and writes.
The mutex only serialises calls; `epoch` enters only through
`time.Since(s.epoch)`, whose results are the clock readings. -/
structure snowflake where
  nodeID : Int
  sequence : Int
  lastTime : Int
deriving DecidableEq, Repr

/-- Go `newSnowflake(nodeID)`: node id masked to ten bits, the other fields at
their Go zero value. -/
def newSnowflake (nodeID : Int) : snowflake :=
  { nodeID := Int.land nodeID 0x3ff, sequence := 0, lastTime := 0 }

/-- The busy-wait loop of `Generate`:
`for currentTime <= s.lastTime { currentTime = time.Since(s.epoch).Milliseconds() }`.
Returns the first reading that is later than `lastTime` together with the
unread rest of the clock, or `none` when the supplied readings run out. -/
def waitNext (lastTime : Int) : Int → List Int → Option (Int × List Int)
  | currentTime, [] => if currentTime ≤ lastTime then none else some (currentTime, [])
  | currentTime, r :: rest =>
    if currentTime ≤ lastTime then waitNext lastTime r rest
    else some (currentTime, r :: rest)

/-- The identifier expression
`(currentTime << 22) | (s.nodeID << 12) | s.sequence`. -/
def mkID (currentTime nodeID sequence : Int) : Int :=
  Int.lor (Int.lor (shl64 currentTime 22) (shl64 nodeID 12)) sequence

/-- Go `(*snowflake).Generate`.  The argument `clock` lists the upcoming clock
readings; the result is the identifier, the updated generator and the unread
readings. -/
def Generate (s : snowflake) (clock : List Int) : Option (Int × snowflake × List Int) :=
  match clock with
  | [] => none
  | currentTime :: clock =>
    if currentTime = s.lastTime then
      let sequence := Int.land (wrap64 (s.sequence + 1)) 0xfff
      if sequence = 0 then
        match waitNext s.lastTime currentTime clock with
        | none => none
        | some (currentTime, clock) =>
          some (mkID currentTime s.nodeID sequence,
            { s with sequence := sequence, lastTime := currentTime }, clock)
      else
        some (mkID currentTime s.nodeID sequence,
          { s with sequence := sequence, lastTime := currentTime }, clock)
    else
      some (mkID currentTime s.nodeID 0,
        { s with sequence := 0, lastTime := currentTime }, clock)

/-- A run of `k` sequential calls of `Generate` on one generator, collecting the
returned identifiers in call order. -/
def generateN : Nat → snowflake → List Int → Option (List Int × snowflake × List Int)
  | 0, s, clock => some ([], s, clock)
  | k + 1, s, clock =>
    match Generate s clock with
    | none => none
    | some (id, s', clock') =>
      match generateN k s' clock' with
      | none => none
      | some (ids, s'', clock'') => some (id :: ids, s'', clock'')

/-! ## Insert path: data model

Conventions of this part:

* A Go function returning `(int64, error)` returns `Outcome.ret cnt err`; a
  run-time panic (nil dereference, slice bounds) is `Outcome.panic`.
* Collaborators whose code lives in other files of the package (statement
  helpers, column metadata, dialect, store) are fields of `Engine`; the store
  and the wall clock are deterministic functions of an abstract store state `σ`.
* `State.log` records, in order, every call issued to the store and to the
  identifier sources.  It is written only by the wrappers below.
* `len(x) > 0` on a string is written `x ≠ ""`.
-/

deriving instance DecidableEq for Except

/-- Error values returned on the insert path. -/
inductive Error
  | ErrNoElementsOnSlice
  | ErrParamsType
  | ErrTableNotFound
  | msg (text : String)
  | wrap (text : String) (cause : Error)
  | other (code : Nat)
deriving DecidableEq, Repr

/-- A Go value as seen through `reflect`, grouped by the kinds the insert path
distinguishes; also used for bound arguments (`any`). -/
inductive GoValue
  | int (v : Int)
  | uint (v : Nat)
  | str (v : String)
  | ptr (elem : String) (addr : Nat)
  | other (kind : String) (repr : String)
  | nil
deriving DecidableEq, Repr

/-- Result of a function returning `(int64, error)`, or a panic. -/
inductive Outcome
  | ret (affected : Int) (err : Option Error)
  | panic (what : String)
deriving DecidableEq, Repr

/-- The flags of `core.Column` read by the insert path. -/
structure Column where
  Name : String
  IsAutoIncrement : Bool := false
  IsRandomID : Bool := false
  IsDeleted : Bool := false
  IsCreated : Bool := false
  IsUpdated : Bool := false
  IsVersion : Bool := false
  Nullable : Bool := false
deriving DecidableEq, Repr

/-- The fields of `core.Table` read by the insert path; `columns` is what
`Columns()` returns, in declaration order. -/
structure Table where
  Name : String
  columns : List Column
  AutoIncrement : String := ""
  RandomID : String := ""
  Version : String := ""
deriving DecidableEq, Repr

/-- Modelled from the spec: Bean, "an opaque record instance supplied by the
caller; mutated in place when identifiers/timestamps are written back", with
the "value accessor capability (get/set against a bean instance)" of a column
(`core.Column.ValueOf` is not part of the sources at hand).  `fields` maps
column names to current field values, `canSet` tells whether the fields are
settable (the record was handed over by pointer), `addr` is its identity. -/
structure Bean where
  addr : Nat
  fields : List (String × GoValue)
  canSet : Bool := true
deriving DecidableEq, Repr

/-- Modelled from the spec: the "get" half of the value accessor,
`col.ValueOf(bean)`; a missing field is a field-access error. -/
def valueOf (col : Column) (bean : Bean) : Except Error GoValue :=
  match bean.fields.lookup col.Name with
  | some v => .ok v
  | none => .error (Error.msg ("field " ++ col.Name ++ " is not valid"))

/-- Modelled from the spec: the "set" half of the value accessor,
`reflect.Value.Set` on the field of column `name`. -/
def setField (name : String) (v : GoValue) (bean : Bean) : Bean :=
  { bean with fields := bean.fields.map (fun p => if p.1 = name then (p.1, v) else p) }

/-- Go `exprParams`: the fields `colNames` and `args` the insert path reads. -/
structure exprParams where
  colNames : List String := []
  args : List GoValue := []
deriving DecidableEq, Repr

/-- Go `builder.Cond` as used here: `IsValid()` and what `WriteTo` emits. -/
structure Cond where
  valid : Bool := false
  sql : String := ""
  args : List GoValue := []
  err : Option Error := none
deriving DecidableEq, Repr

/-- The per-call options of `Statement` read by the insert path. -/
structure Statement where
  RefTable : Table
  omitColumnMap : List String := []
  columnMap : List String := []
  incrColumns : exprParams := {}
  decrColumns : exprParams := {}
  exprColumns : exprParams := {}
  nullableMap : List (String × Bool) := []
  UseAutoTime : Bool := false
  checkVersion : Bool := false
  cond : Cond := {}
deriving DecidableEq, Repr

/-- A hook closure (`func(any)`).  The two closures created by the insert path
itself are kept symbolic; `user k` is a closure registered by the caller. -/
inductive Closure
  | setColumnTime (table : Table) (colName : String) (t : Int)
  | setColumnInt (table : Table) (colName : String) (v : Int)
  | user (k : Nat)
deriving DecidableEq, Repr

/-- The fields of `Session` read or written by the insert path.
`afterInsertBeans` is keyed by bean identity; `none` is a nil entry. -/
structure Session where
  statement : Statement
  isAutoClose : Bool := false
  isAutoCommit : Bool := true
  autoResetStatement : Bool := true
  beforeClosures : List Closure := []
  afterClosures : List Closure := []
  afterInsertBeans : List (Nat × Option (List Closure)) := []
deriving DecidableEq, Repr

/-- Go `sql.Result`: what `RowsAffected()` and `LastInsertId()` return. -/
structure Result where
  RowsAffected : Int × Option Error
  LastInsertId : Int × Option Error
deriving DecidableEq, Repr

/-- A call issued to the store or to an identifier source. -/
inductive Event
  | exec (sql : String) (args : List GoValue)
  | queryBytes (sql : String) (args : List GoValue)
  | sequenceNext (table column : String)
  | randomID (id : Int)
deriving DecidableEq, Repr

/-- The session together with the store it talks to and the call record. -/
structure State (σ : Type) where
  session : Session
  db : σ
  log : List Event := []
deriving DecidableEq, Repr

/-- Go `core.DbType` values the insert path compares against. -/
inductive DBType
  | MYSQL
  | POSTGRES
  | ORACLE
  | spanner
  | SQLITE
  | MSSQL
deriving DecidableEq, Repr

/-- Go `builder.BytesWriter`: the SQL text written so far and the collected
arguments. -/
structure Writer where
  str : String := ""
  args : List GoValue := []
deriving DecidableEq, Repr

/-- Go `builder.NewWriter()`. -/
def NewWriter : Writer := {}

/-- Go `(*BytesWriter).WriteString`. -/
def Writer.WriteString (w : Writer) (s : String) : Writer := { w with str := w.str ++ s }

/-- Go `(*BytesWriter).Append`. -/
def Writer.Append (w : Writer) (args : List GoValue) : Writer :=
  { w with args := w.args ++ args }

/-- Go `cond.WriteTo(w)`. -/
def Cond.WriteTo (c : Cond) (w : Writer) : Except Error Writer :=
  match c.err with
  | some e => .error e
  | none => .ok ((w.WriteString c.sql).Append c.args)
/-- The engine of a session: dialect, pluggable identifier sources, the store,
and the helpers of the package that the insert path calls but that are
defined in other files.  Each field is named after the Go function it stands
for. -/
structure Engine (σ : Type) where
  /-- Go `engine.dialect.DBType()` -/
  DBType : DBType
  /-- Go `engine.SupportInsertMany()` -/
  SupportInsertMany : Bool
  /-- Go `engine.sequenceGenerator` (`none` is nil) with its `Next(ctx, table, column)` -/
  sequenceGenerator : Option (σ → String → String → Except Error Int × σ)
  /-- Go `engine.randomIDGen()` -/
  randomIDGen : σ → Int × σ
  /-- Go `engine.nowTime(col)`: the value to bind and the time to write back -/
  nowTime : σ → Column → (GoValue × Int) × σ
  /-- Go `session.exec(sql, args...)` -/
  exec : σ → String → List GoValue → Except Error Result × σ
  /-- Go `session.queryBytes(sql, args...)`: rows as column-name/bytes pairs -/
  queryBytes : σ → String → List GoValue → Except Error (List (List (String × String))) × σ
  /-- Go `engine.Quote` -/
  Quote : String → String
  /-- Go `quoteColumns(colNames, engine.Quote, ",")` -/
  quoteColumns : List String → String
  /-- Go `statement.setRefBean(bean)` -/
  setRefBean : Statement → Bean → Except Error Statement
  /-- Go `statement.TableName()` -/
  TableName : Statement → String
  /-- Go `table.GetColumn(name)`, also behind `AutoIncrColumn()` and `VersionColumn()` -/
  GetColumn : Table → String → Option Column
  /-- Go `columnMap.contain(name)` -/
  contain : List String → String → Bool
  /-- Go `exprParams.isColExist(name)` -/
  isColExist : exprParams → String → Bool
  /-- Go `exprParams.Len()` -/
  exprLen : exprParams → Nat
  /-- Go `getFlagForColumn(nullableMap, col)`: the flag, when the map has the column -/
  getFlagForColumn : List (String × Bool) → Column → Option Bool
  /-- Go `isZero(v.Interface())` -/
  isZero : GoValue → Bool
  /-- Go `isZeroValue(v)` -/
  isZeroValue : GoValue → Bool
  /-- Go `session.value2Interface(col, fieldValue)` -/
  value2Interface : Column → GoValue → Except Error GoValue
  /-- Go `int64ToIntValue(id, fieldType)`; the field type is given by the old value -/
  int64ToIntValue : Int → GoValue → GoValue
  /-- Go `session.incrVersionFieldValue(v)`: the new value of the version field -/
  incrVersionFieldValue : GoValue → GoValue
  /-- Go `writeStrings(w, cols, "`", "`")` -/
  writeStrings : Writer → List String → Except Error Writer
  /-- Go `statement.writeArgs(w, args)` -/
  writeArgs : Statement → Writer → List GoValue → Except Error Writer
  /-- Go `exprParams.writeArgs(w)` -/
  exprWriteArgs : exprParams → Writer → Except Error Writer
  /-- Effect of calling a hook closure on a bean -/
  applyClosure : Closure → Bean → Bean
  /-- Go `bean.(BeforeInsertProcessor)` and the effect of `BeforeInsert()` -/
  BeforeInsert : Bean → Option Bean
  /-- Go `bean.(AfterInsertProcessor)` and the effect of `AfterInsert()` -/
  AfterInsert : Bean → Option Bean
  /-- Go `session.resetStatement()` -/
  resetStatement : Session → Session
  /-- Go `session.Close()` -/
  Close : Session → σ → Session × σ

/-- Modelled from the spec: `cleanupProcessorsClosures`, "clear the
before-closure queue" / "clear the after-closure queue" (the helper is defined
in another file of the package). -/
def cleanupProcessorsClosures (_closures : List Closure) : List Closure := []

/-- Go `strings.Repeat(s, count)`. -/
def Repeat (s : String) (count : Nat) : String := String.join (List.replicate count s)

/-- Go `strconv.ParseInt(s, 10, 64)`. -/
def ParseInt (s : String) : Except Error Int :=
  let neg := s.startsWith "-"
  let body := if neg || s.startsWith "+" then s.drop 1 else s
  if body.isEmpty || !body.all Char.isDigit then
    .error (Error.msg "strconv.ParseInt: invalid syntax")
  else
    let n : Int := (body.foldl (fun acc c => acc * 10 + (c.toNat - 48)) 0 : Nat)
    let v := if neg then -n else n
    if v < -2 ^ 63 || 2 ^ 63 ≤ v then .error (Error.msg "strconv.ParseInt: value out of range")
    else .ok v

section Store
variable {σ : Type}

/-- Go `session.exec`, recorded. -/
def State.exec (E : Engine σ) (st : State σ) (sql : String) (args : List GoValue) :
    Except Error Result × State σ :=
  let r := E.exec st.db sql args
  (r.1, { st with db := r.2, log := st.log ++ [Event.exec sql args] })

/-- Go `session.queryBytes`, recorded. -/
def State.queryBytes (E : Engine σ) (st : State σ) (sql : String) (args : List GoValue) :
    Except Error (List (List (String × String))) × State σ :=
  let r := E.queryBytes st.db sql args
  (r.1, { st with db := r.2, log := st.log ++ [Event.queryBytes sql args] })

/-- Go `for _, closure := range closures { closure(bean) }`. -/
def runClosures (E : Engine σ) (closures : List Closure) (bean : Bean) : Bean :=
  closures.foldl (fun b c => E.applyClosure c b) bean

/-- Go `if processor, ok := bean.(BeforeInsertProcessor); ok { processor.BeforeInsert() }`. -/
def callBeforeInsert (E : Engine σ) (bean : Bean) : Bean :=
  match E.BeforeInsert bean with
  | some b => b
  | none => bean

/-- Go `if processor, ok := bean.(AfterInsertProcessor); ok { processor.AfterInsert() }`. -/
def callAfterInsert (E : Engine σ) (bean : Bean) : Bean :=
  match E.AfterInsert bean with
  | some b => b
  | none => bean

/-- Assignment `m[key] = v` on `afterInsertBeans`. -/
def mapSet (m : List (Nat × Option (List Closure))) (key : Nat) (v : Option (List Closure)) :
    List (Nat × Option (List Closure)) :=
  (key, v) :: m.filter (fun p => p.1 ≠ key)

/-- The non-autocommit branch of after-insert handling: remember the pending
closures of the bean for replay at commit. -/
def recordAfterInsert (E : Engine σ) (session : Session) (bean : Bean) : Session :=
  let lenAfterClosures := session.afterClosures.length
  if lenAfterClosures > 0 then
    match session.afterInsertBeans.lookup bean.addr with
    | some (some value) =>
      let pending := mapSet session.afterInsertBeans bean.addr (some (value ++ session.afterClosures))
      { session with afterInsertBeans := pending }
    | _ =>
      let pending := mapSet session.afterInsertBeans bean.addr (some session.afterClosures)
      { session with afterInsertBeans := pending }
  else if (E.AfterInsert bean).isSome then
    { session with afterInsertBeans := mapSet session.afterInsertBeans bean.addr none }
  else session

/-- The closure `handleAfterInsertProcessorFunc` of `innerInsert`. -/
def handleAfterInsertProcessorFunc (E : Engine σ) (st : State σ) (bean : Bean) :
    State σ × Bean :=
  let r : Session × Bean :=
    if st.session.isAutoCommit then
      (st.session, callAfterInsert E (runClosures E st.session.afterClosures bean))
    else
      (recordAfterInsert E st.session bean, bean)
  let session := r.1
  let session := { session with afterClosures := cleanupProcessorsClosures session.afterClosures }
  ({ st with session := session }, r.2)

end Store
section Plan
variable {σ : Type}

/-- The zero test of `genInsertColumns` for auto-increment and random-ID
columns: the `switch fieldValue.Type().Kind()` with its four groups of kinds;
any other kind is never skipped. -/
def isZeroOfKind : GoValue → Bool
  | .int v => v == 0
  | .uint v => v == 0
  | .str v => v.utf8ByteSize == 0
  | .ptr _ addr => addr == 0
  | _ => false

/-- The value `reflect.ValueOf(nilValue)` with `var nilValue *int`. -/
def nilValue : GoValue := .ptr "int" 0

/-- The three `continue` tests on the statement's column sets that open the
loop body of `genInsertColumns`, after the `IsDeleted` test. -/
def excludedByStatement (E : Engine σ) (s : Statement) (col : Column) : Bool :=
  E.contain s.omitColumnMap col.Name
    || (decide (s.columnMap.length > 0) && !E.contain s.columnMap col.Name)
    || E.isColExist s.incrColumns col.Name
    || E.isColExist s.decrColumns col.Name
    || E.isColExist s.exprColumns col.Name

/-- The nullable substitution of `genInsertColumns`. -/
def nullableSubst (E : Engine σ) (s : Statement) (col : Column) (fieldValue : GoValue) :
    GoValue :=
  match E.getFlagForColumn s.nullableMap col with
  | some _ => if col.Nullable && E.isZeroValue fieldValue then nilValue else fieldValue
  | none => fieldValue

/-- The loop of `genInsertColumns` over `table.Columns()`, with the column
names and arguments collected so far. -/
def genInsertColumnsLoop (E : Engine σ) (bean : Bean) :
    List Column → List String → List GoValue → State σ →
      (List String × List GoValue × Option Error) × State σ
  | [], colNames, args, st => ((colNames, args, none), st)
  | col :: cols, colNames, args, st =>
    if col.IsDeleted then genInsertColumnsLoop E bean cols colNames args st
    else if excludedByStatement E st.session.statement col then
      genInsertColumnsLoop E bean cols colNames args st
    else
      match valueOf col bean with
      | .error err => (([], [], some err), st)
      | .ok fieldValue =>
        if (col.IsAutoIncrement || col.IsRandomID) && isZeroOfKind fieldValue then
          genInsertColumnsLoop E bean cols colNames args st
        else
          let fieldValue := nullableSubst E st.session.statement col fieldValue
          if (col.IsCreated || col.IsUpdated) && st.session.statement.UseAutoTime then
            let r := E.nowTime st.db col
            let closure := Closure.setColumnTime st.session.statement.RefTable col.Name r.1.2
            let session := st.session
            let session := { session with afterClosures := session.afterClosures ++ [closure] }
            genInsertColumnsLoop E bean cols (colNames ++ [col.Name]) (args ++ [r.1.1])
              { st with session := session, db := r.2 }
          else if col.IsVersion && st.session.statement.checkVersion then
            genInsertColumnsLoop E bean cols (colNames ++ [col.Name]) (args ++ [GoValue.int 1]) st
          else
            match E.value2Interface col fieldValue with
            | .error err => ((colNames, args, some err), st)
            | .ok arg =>
              genInsertColumnsLoop E bean cols (colNames ++ [col.Name]) (args ++ [arg]) st

/-- Go `session.genInsertColumns(bean)`: column names, arguments, error. -/
def genInsertColumns (E : Engine σ) (st : State σ) (bean : Bean) :
    (List String × List GoValue × Option Error) × State σ :=
  genInsertColumnsLoop E bean st.session.statement.RefTable.columns [] [] st

/-- What the identifier-assignment step of `innerInsert` hands on. -/
structure Plan where
  colNames : List String
  args : List GoValue
  bean : Bean
deriving DecidableEq, Repr

/-- The identifier-assignment step of `innerInsert` ("If engine has a sequence
number generator ..." up to the end of the random-ID branch): either an early
return or the extended plan. -/
def assignID (E : Engine σ) (st : State σ) (table : Table) (bean : Bean)
    (colNames : List String) (args : List GoValue) : (Outcome ⊕ Plan) × State σ :=
  match (if table.AutoIncrement ≠ "" then E.sequenceGenerator else none) with
  | some next =>
    let found := colNames.contains table.AutoIncrement
    if !found then
      let r := next st.db table.Name table.AutoIncrement
      let st := { st with db := r.2,
                          log := st.log ++ [Event.sequenceNext table.Name table.AutoIncrement] }
      match r.1 with
      | .error err =>
        (.inl (.ret 0 (some (Error.wrap
          "failed to generate next value for auto_increment columns: " err))), st)
      | .ok seq =>
        (.inr ⟨colNames ++ [table.AutoIncrement], args ++ [GoValue.int seq], bean⟩, st)
    else (.inr ⟨colNames, args, bean⟩, st)
  | none =>
    if table.RandomID ≠ "" then
      let found := colNames.contains table.RandomID
      if !found then
        let r := E.randomIDGen st.db
        let id := r.1
        let st := { st with db := r.2, log := st.log ++ [Event.randomID id] }
        match E.GetColumn table table.RandomID with
        | none =>
          (.inl (.ret 0 (some (Error.msg
            ("column " ++ table.RandomID ++ " not found in table " ++ table.Name)))), st)
        | some col =>
          match valueOf col bean with
          | .error err =>
            (.inl (.ret 0 (some (Error.wrap "failed to set snowflake ID to bean: " err))), st)
          | .ok idValue =>
            if !bean.canSet then
              (.inl (.ret 0 (some (Error.msg "failed to set snowflake ID to bean: <nil>"))), st)
            else
              (.inr ⟨colNames ++ [table.RandomID], args ++ [GoValue.int id],
                setField col.Name (E.int64ToIntValue id idValue) bean⟩, st)
      else (.inr ⟨colNames, args, bean⟩, st)
    else (.inr ⟨colNames, args, bean⟩, st)

end Plan
section Single
variable {σ : Type}

/-- The placeholder text of `innerInsert`:
`colPlaces := strings.Repeat("?, ", len(colNames))`, trimmed by two bytes when
there are no expression columns and it is not empty. -/
def colPlacesOf (E : Engine σ) (exprs : exprParams) (colNames : List String) : String :=
  let colPlaces := Repeat "?, " colNames.length
  if E.exprLen exprs ≤ 0 ∧ colPlaces.length > 0 then colPlaces.dropRight 2 else colPlaces

/-- The generated-key return clauses appended by `innerInsert` for Postgres and
Spanner. -/
def writeReturning (E : Engine σ) (table : Table) (buf : Writer) : Writer :=
  let buf :=
    if table.AutoIncrement ≠ "" ∧ E.DBType = DBType.POSTGRES then
      buf.WriteString (" RETURNING " ++ E.Quote table.AutoIncrement)
    else buf
  if table.AutoIncrement ≠ "" ∧ E.DBType = DBType.spanner then
    buf.WriteString (" THEN RETURN " ++ E.Quote table.AutoIncrement)
  else buf

/-- The statement-building part of `innerInsert` (from `exprs :=
session.statement.exprColumns` to `args = buf.Args()`): the SQL text and the
final arguments, or the error of a writer helper. -/
def buildInsert (E : Engine σ) (s : Statement) (table : Table) (colNames : List String)
    (args : List GoValue) : Except Error (String × List GoValue) :=
  let exprs := s.exprColumns
  let colPlaces := colPlacesOf E exprs colNames
  let tableName := E.TableName s
  let output := ""
  let buf := NewWriter.WriteString ("INSERT INTO " ++ E.Quote tableName)
  let body : Except Error Writer :=
    if colPlaces.length ≤ 0 then
      if E.DBType = DBType.MYSQL then .ok (buf.WriteString " VALUES ()")
      else .ok (buf.WriteString (output ++ " DEFAULT VALUES"))
    else
      let buf := buf.WriteString " ("
      match E.writeStrings buf (colNames ++ exprs.colNames) with
      | .error err => .error err
      | .ok buf =>
        if s.cond.valid then
          let buf := buf.WriteString (")" ++ output ++ " SELECT ")
          match E.writeArgs s buf args with
          | .error err => .error err
          | .ok buf =>
            let buf := if exprs.args.length > 0 then buf.WriteString "," else buf
            match E.exprWriteArgs exprs buf with
            | .error err => .error err
            | .ok buf =>
              let buf := buf.WriteString (" FROM " ++ E.Quote tableName ++ " WHERE ")
              s.cond.WriteTo buf
        else
          let buf := buf.Append args
          let buf := buf.WriteString (")" ++ output ++ " VALUES (" ++ colPlaces)
          match E.exprWriteArgs exprs buf with
          | .error err => .error err
          | .ok buf => .ok (buf.WriteString ")")
  match body with
  | .error err => .error err
  | .ok buf =>
    let buf := writeReturning E table buf
    .ok (buf.str, buf.args)

/-- The version block that follows every successful execution in `innerInsert`
(`if table.Version != "" && session.statement.checkVersion ...`); `none` is the
nil dereference of a missing version column. -/
def incrVersion (E : Engine σ) (s : Statement) (table : Table) (bean : Bean) : Option Bean :=
  if table.Version ≠ "" ∧ s.checkVersion = true then
    match E.GetColumn table table.Version with
    | none => none
    | some col =>
      match valueOf col bean with
      | .error _ => some bean
      | .ok verValue =>
        if bean.canSet then some (setField col.Name (E.incrVersionFieldValue verValue) bean)
        else some bean
  else some bean

/-- The tail of `innerInsert` ("Set insertID back to the bean"). -/
def writeBackID (E : Engine σ) (table : Table) (bean : Bean) (insertID rowsAffected : Int) :
    Outcome × Bean :=
  match E.GetColumn table table.AutoIncrement with
  | none => (.panic "nil pointer dereference: AutoIncrColumn", bean)
  | some col =>
    match valueOf col bean with
    | .error _ => (.ret rowsAffected none, bean)
    | .ok aiValue =>
      if !bean.canSet then (.ret rowsAffected none, bean)
      else (.ret rowsAffected none, setField col.Name (E.int64ToIntValue insertID aiValue) bean)

/-- Runs the deferred `handleAfterInsertProcessorFunc(bean)` on the way out. -/
def deferred (E : Engine σ) (st : State σ) (r : Outcome × Bean) : Outcome × State σ × Bean :=
  let h := handleAfterInsertProcessorFunc E st r.2
  (r.1, h.1, h.2)

/-- The common continuation of the Oracle and Postgres branches of
`innerInsert` after `queryBytes` has succeeded; `noRows` is the message of the
branch for an empty result. -/
def afterQuery (E : Engine σ) (st : State σ) (table : Table) (bean : Bean)
    (res : List (List (String × String))) (noRows : String) : Outcome × State σ × Bean :=
  match incrVersion E st.session.statement table bean with
  | none => deferred E st (.panic "nil pointer dereference: VersionColumn", bean)
  | some bean =>
    match res with
    | [] => deferred E st (.ret 0 (some (Error.msg noRows)), bean)
    | row :: _ =>
      let idByte := (row.lookup table.AutoIncrement).getD ""
      match ParseInt idByte with
      | .error err => deferred E st (.ret 1 (some err), bean)
      | .ok insertID =>
        if insertID ≤ 0 then deferred E st (.ret 1 none, bean)
        else deferred E st (writeBackID E table bean insertID 1)

/-- The continuation of the last branch of `innerInsert` after `session.exec`
has succeeded. -/
def afterExec (E : Engine σ) (st : State σ) (table : Table) (bean : Bean) (res : Result) :
    Outcome × State σ × Bean :=
  match incrVersion E st.session.statement table bean with
  | none => deferred E st (.panic "nil pointer dereference: VersionColumn", bean)
  | some bean =>
    if table.AutoIncrement = "" then
      deferred E st (.ret res.RowsAffected.1 res.RowsAffected.2, bean)
    else
      match res.LastInsertId with
      | (_, some _) => deferred E st (.ret res.RowsAffected.1 res.RowsAffected.2, bean)
      | (insertID, none) =>
        if insertID ≤ 0 then deferred E st (.ret res.RowsAffected.1 res.RowsAffected.2, bean)
        else
          match res.RowsAffected with
          | (_, some err) => deferred E st (.ret 0 (some err), bean)
          | (rowsAffected, none) => deferred E st (writeBackID E table bean insertID rowsAffected)

/-- The execution part of `innerInsert` (from `var insertID, rowsAffected
int64` to the end). -/
def execInsert (E : Engine σ) (st : State σ) (table : Table) (bean : Bean) (sqlStr : String)
    (args : List GoValue) : Outcome × State σ × Bean :=
  if E.DBType = DBType.ORACLE ∧ table.AutoIncrement ≠ "" then
    let r := st.queryBytes E "select seq_atable.currval from dual" args
    match r.1 with
    | .error err => (.ret 0 (some err), r.2, bean)
    | .ok res => afterQuery E r.2 table bean res "insert no error but not returned id"
  else if table.AutoIncrement ≠ "" ∧ E.DBType = DBType.POSTGRES then
    let r := st.queryBytes E sqlStr args
    match r.1 with
    | .error err => (.ret 0 (some err), r.2, bean)
    | .ok res => afterQuery E r.2 table bean res "insert successfully but not returned id"
  else
    let r := st.exec E sqlStr args
    match r.1 with
    | .error err => (.ret 0 (some err), r.2, bean)
    | .ok res => afterExec E r.2 table bean res

/-- Go `session.innerInsert(bean)`: the outcome, the state afterwards and the
bean as the caller finds it. -/
def innerInsert (E : Engine σ) (st : State σ) (bean : Bean) : Outcome × State σ × Bean :=
  match E.setRefBean st.session.statement bean with
  | .error err => (.ret 0 (some err), st, bean)
  | .ok statement =>
    let session := st.session
    let st := { st with session := { session with statement := statement } }
    if E.TableName st.session.statement = "" then (.ret 0 (some Error.ErrTableNotFound), st, bean)
    else
      let table := st.session.statement.RefTable
      let bean := runClosures E st.session.beforeClosures bean
      let session := st.session
      let session := { session with
        beforeClosures := cleanupProcessorsClosures session.beforeClosures }
      let st := { st with session := session }
      let bean := callBeforeInsert E bean
      match genInsertColumns E st bean with
      | ((_, _, some err), st) => (.ret 0 (some err), st, bean)
      | ((colNames, args, none), st) =>
        match assignID E st table bean colNames args with
        | (.inl out, st) => (out, st, bean)
        | (.inr plan, st) =>
          match buildInsert E st.session.statement table plan.colNames plan.args with
          | .error err => (.ret 0 (some err), st, plan.bean)
          | .ok (sqlStr, args) => execInsert E st table plan.bean sqlStr args

/-- Go `session.InsertOne(bean)`. -/
def InsertOne (E : Engine σ) (st : State σ) (bean : Bean) : Outcome × State σ × Bean :=
  let r := innerInsert E st bean
  if st.session.isAutoClose then
    let c := E.Close r.2.1.session r.2.1.db
    let st' := r.2.1
    (r.1, { st' with session := c.1, db := c.2 }, r.2.2)
  else r

end Single
section Planned
variable {σ : Type}

/-- What `innerInsert` has in hand when it reaches the store: the table, the
plan after identifier assignment, the state, and the statement text and
arguments it built. -/
structure Prepared (σ : Type) where
  table : Table
  plan : Plan
  st : State σ
  sqlStr : String
  args : List GoValue
deriving DecidableEq

/-- The part of `innerInsert` before the store is called (from
`session.statement.setRefBean(bean)` to `args = buf.Args()`): `none` when
`innerInsert` returns before that point. -/
def prepareInsert (E : Engine σ) (st : State σ) (bean : Bean) : Option (Prepared σ) :=
  match E.setRefBean st.session.statement bean with
  | .error _ => none
  | .ok statement =>
    let session := st.session
    let st := { st with session := { session with statement := statement } }
    if E.TableName st.session.statement = "" then none
    else
      let table := st.session.statement.RefTable
      let bean := runClosures E st.session.beforeClosures bean
      let session := st.session
      let session := { session with
        beforeClosures := cleanupProcessorsClosures session.beforeClosures }
      let st := { st with session := session }
      let bean := callBeforeInsert E bean
      match genInsertColumns E st bean with
      | ((_, _, some _), _) => none
      | ((colNames, args, none), st) =>
        match assignID E st table bean colNames args with
        | (.inl _, _) => none
        | (.inr plan, st) =>
          match buildInsert E st.session.statement table plan.colNames plan.args with
          | .error _ => none
          | .ok (sqlStr, args) => some ⟨table, plan, st, sqlStr, args⟩

end Planned
section Multi
variable {σ : Type}

/-- The first loop of `innerInsertMulti` ("Find columns that will be in the
INSERT statement"), run against the first element of the slice. -/
def multiColumns (E : Engine σ) (s : Statement) (firstValue : Bean) :
    List Column → List Column → Except Error (List Column)
  | [], cols => .ok cols
  | col :: rest, cols =>
    match valueOf col firstValue with
    | .error err => .error err
    | .ok fieldValue =>
      if col.IsAutoIncrement && E.isZero fieldValue then multiColumns E s firstValue rest cols
      else if col.IsDeleted then multiColumns E s firstValue rest cols
      else if E.contain s.omitColumnMap col.Name then multiColumns E s firstValue rest cols
      else if decide (s.columnMap.length > 0) && !E.contain s.columnMap col.Name then
        multiColumns E s firstValue rest cols
      else multiColumns E s firstValue rest (cols ++ [col])

/-- The loop `for _, col := range cols` of `innerInsertMulti` for one element:
the arguments appended for that row (and the `?` placeholders), or the error
that makes `innerInsertMulti` return. -/
def multiRowArgs (E : Engine σ) (vv : Bean) :
    List Column → List GoValue → List String → State σ →
      Except Error (List GoValue × List String) × State σ
  | [], args, colPlaces, st => (.ok (args, colPlaces), st)
  | col :: cols, args, colPlaces, st =>
    match valueOf col vv with
    | .error err => (.error err, st)
    | .ok fieldValue =>
      if (col.IsCreated || col.IsUpdated) && st.session.statement.UseAutoTime then
        let r := E.nowTime st.db col
        let closure := Closure.setColumnTime st.session.statement.RefTable col.Name r.1.2
        let session := st.session
        let session := { session with afterClosures := session.afterClosures ++ [closure] }
        multiRowArgs E vv cols (args ++ [r.1.1]) (colPlaces ++ ["?"])
          { st with session := session, db := r.2 }
      else if col.IsVersion && st.session.statement.checkVersion then
        let closure := Closure.setColumnInt st.session.statement.RefTable col.Name 1
        let session := st.session
        let session := { session with afterClosures := session.afterClosures ++ [closure] }
        multiRowArgs E vv cols (args ++ [GoValue.int 1]) (colPlaces ++ ["?"])
          { st with session := session }
      else
        match E.value2Interface col fieldValue with
        | .error err => (.error err, st)
        | .ok arg => multiRowArgs E vv cols (args ++ [arg]) (colPlaces ++ ["?"]) st

/-- The loop `for i := 0; i < size; i++` of `innerInsertMulti` that runs the
before-insert hooks of each element and collects its arguments; returns the
elements as the hooks left them.  The elements are rendered as separate
values (a slice holding the same record twice is outside this rendering). -/
def multiRows (E : Engine σ) (cols : List Column) :
    List Bean → List GoValue → List String → State σ →
      Except Error (List GoValue × List String) × State σ × List Bean
  | [], args, colMultiPlaces, st => (.ok (args, colMultiPlaces), st, [])
  | elemValue :: rest, args, colMultiPlaces, st =>
    let elemValue := runClosures E st.session.beforeClosures elemValue
    let elemValue := callBeforeInsert E elemValue
    match multiRowArgs E elemValue cols args [] st with
    | (.error err, st) => (.error err, st, elemValue :: rest)
    | (.ok (args, colPlaces), st) =>
      let r := multiRows E cols rest args (colMultiPlaces ++ [", ".intercalate colPlaces]) st
      (r.1, r.2.1, elemValue :: r.2.2)

/-- The last loop of `innerInsertMulti`: after-insert handling of each element
with the closures collected for the whole batch. -/
def multiAfter (E : Engine σ) : List Bean → Session → Session × List Bean
  | [], session => (session, [])
  | elemValue :: rest, session =>
    if session.isAutoCommit then
      let elemValue := callAfterInsert E (runClosures E session.afterClosures elemValue)
      let r := multiAfter E rest session
      (r.1, elemValue :: r.2)
    else
      let r := multiAfter E rest (recordAfterInsert E session elemValue)
      (r.1, elemValue :: r.2)

/-- The statement text of `innerInsertMulti`. -/
def multiSQL (E : Engine σ) (tableName : String) (colNames : List String)
    (colMultiPlaces : List String) : String :=
  if E.DBType = DBType.ORACLE then
    let temp := ") INTO " ++ E.Quote tableName ++ " (" ++ E.quoteColumns colNames ++ ") VALUES ("
    "INSERT ALL INTO " ++ E.Quote tableName ++ " (" ++ E.quoteColumns colNames ++ ") VALUES ("
      ++ temp.intercalate colMultiPlaces ++ ") SELECT 1 FROM DUAL"
  else
    "INSERT INTO " ++ E.Quote tableName ++ " (" ++ E.quoteColumns colNames ++ ") VALUES ("
      ++ "),(".intercalate colMultiPlaces ++ ")"

/-- Go `session.innerInsertMulti(rowsSlicePtr)`, on the elements of the slice
(the `Kind() != reflect.Slice` test is decided by the argument type). -/
def innerInsertMulti (E : Engine σ) (st : State σ) (rows : List Bean) :
    Outcome × State σ × List Bean :=
  match rows with
  | [] => (.ret 0 (some (Error.msg "could not insert a empty slice")), st, rows)
  | first :: _ =>
    match E.setRefBean st.session.statement first with
    | .error err => (.ret 0 (some err), st, rows)
    | .ok statement =>
      let session := st.session
      let st := { st with session := { session with statement := statement } }
      let tableName := E.TableName st.session.statement
      if tableName = "" then (.ret 0 (some Error.ErrTableNotFound), st, rows)
      else
        let table := st.session.statement.RefTable
        match multiColumns E st.session.statement first table.columns [] with
        | .error err => (.ret 0 (some err), st, rows)
        | .ok cols =>
          let colNames := cols.map (fun col => col.Name)
          match multiRows E cols rows [] [] st with
          | (.error err, st, rows) => (.ret 0 (some err), st, rows)
          | (.ok (args, colMultiPlaces), st, rows) =>
            let session := st.session
            let session := { session with
              beforeClosures := cleanupProcessorsClosures session.beforeClosures }
            let st := { st with session := session }
            let r := st.exec E (multiSQL E tableName colNames colMultiPlaces) args
            match r.1 with
            | .error err => (.ret 0 (some err), r.2, rows)
            | .ok res =>
              let st := r.2
              let a := multiAfter E rows st.session
              let session := a.1
              let session := { session with
                afterClosures := cleanupProcessorsClosures session.afterClosures }
              (.ret res.RowsAffected.1 res.RowsAffected.2, { st with session := session }, a.2)

/-- Go `session.InsertMulti(rowsSlicePtr)`, on the elements of the slice. -/
def InsertMulti (E : Engine σ) (st : State σ) (rows : List Bean) :
    Outcome × State σ × List Bean :=
  let r : Outcome × State σ × List Bean :=
    if rows.length ≤ 0 then (.ret 0 none, st, rows)
    else innerInsertMulti E st rows
  if st.session.isAutoClose then
    let c := E.Close r.2.1.session r.2.1.db
    let st' := r.2.1
    (r.1, { st' with session := c.1, db := c.2 }, r.2.2)
  else r

end Multi
section Top
variable {σ : Type}

/-- Go `session.insertMap(columns, args)`. -/
def insertMap (E : Engine σ) (st : State σ) (columns : List String) (args : List GoValue) :
    Outcome × State σ :=
  let s := st.session.statement
  let tableName := E.TableName s
  if tableName = "" then (.ret 0 (some Error.ErrTableNotFound), st)
  else
    let exprs := s.exprColumns
    let w := NewWriter
    let built : Option (Except Error Writer) :=
      if s.cond.valid then
        let w := w.WriteString ("INSERT INTO " ++ E.Quote tableName ++ " (")
        match E.writeStrings w (columns ++ exprs.colNames) with
        | .error err => some (.error err)
        | .ok w =>
          let w := w.WriteString ") SELECT "
          match E.writeArgs s w args with
          | .error err => some (.error err)
          | .ok w =>
            let tail : Except Error Writer :=
              if exprs.args.length > 0 then E.exprWriteArgs exprs (w.WriteString ",")
              else .ok w
            match tail with
            | .error err => some (.error err)
            | .ok w =>
              some (s.cond.WriteTo (w.WriteString (" FROM " ++ E.Quote tableName ++ " WHERE ")))
      else
        let qm := Repeat "?," columns.length
        if qm.length = 0 then none
        else
          let qm := qm.dropRight 1
          let w := w.WriteString ("INSERT INTO " ++ E.Quote tableName ++ " (")
          match E.writeStrings w (columns ++ exprs.colNames) with
          | .error err => some (.error err)
          | .ok w =>
            let w := w.WriteString (") VALUES (" ++ qm)
            let w := w.Append args
            let tail : Except Error Writer :=
              if exprs.args.length > 0 then E.exprWriteArgs exprs (w.WriteString ",")
              else .ok w
            match tail with
            | .error err => some (.error err)
            | .ok w => some (.ok (w.WriteString ")"))
    match built with
    | none => (.panic "slice bounds out of range [:-1]", st)
    | some (.error err) => (.ret 0 (some err), st)
    | some (.ok w) =>
      let r := st.exec E w.str w.args
      match r.1 with
      | .error err => (.ret 0 (some err), r.2)
      | .ok res =>
        match res.RowsAffected with
        | (_, some err) => (.ret 0 (some err), r.2)
        | (affected, none) => (.ret affected none, r.2)

/-- The columns `insertMapInterface` and `insertMapString` pass on: the keys of
the map (in the order the `range` loop yields them) that are not expression
columns, after `sort.Strings`. -/
def mapColumns (E : Engine σ) (exprs : exprParams) (keys : List String) : List String :=
  (keys.filter (fun k => !E.isColExist exprs k)).mergeSort (fun a b => decide (a ≤ b))

/-- Go `session.insertMapInterface(m)`; the map is given by its entries in
iteration order. -/
def insertMapInterface (E : Engine σ) (st : State σ) (m : List (String × GoValue)) :
    Outcome × State σ :=
  if m.length = 0 then (.ret 0 (some Error.ErrParamsType), st)
  else if E.TableName st.session.statement = "" then (.ret 0 (some Error.ErrTableNotFound), st)
  else
    let columns := mapColumns E st.session.statement.exprColumns (m.map Prod.fst)
    let args := columns.map (fun colName => (m.lookup colName).getD GoValue.nil)
    insertMap E st columns args

/-- Go `session.insertMapString(m)`; the map is given by its entries in
iteration order. -/
def insertMapString (E : Engine σ) (st : State σ) (m : List (String × String)) :
    Outcome × State σ :=
  if m.length = 0 then (.ret 0 (some Error.ErrParamsType), st)
  else if E.TableName st.session.statement = "" then (.ret 0 (some Error.ErrTableNotFound), st)
  else
    let columns := mapColumns E st.session.statement.exprColumns (m.map Prod.fst)
    let args := columns.map (fun colName => GoValue.str ((m.lookup colName).getD ""))
    insertMap E st columns args

/-- One argument of the variadic `Insert(beans ...any)`, by the case of the
type switch that takes it. -/
inductive InsertArg
  | mapInterface (m : List (String × GoValue))
  | sliceMapInterface (ms : List (List (String × GoValue)))
  | mapString (m : List (String × String))
  | sliceMapString (ms : List (List (String × String)))
  | slice (elems : List Bean)
  | single (bean : Bean)
deriving DecidableEq, Repr

/-- The loop `for i := 0; i < len(bean); i++` over a slice of maps in `Insert`,
for either kind of map (`one` is `insertMapInterface` or `insertMapString`). -/
def insertMaps {μ : Type} (one : State σ → μ → Outcome × State σ) :
    State σ → Int → List μ → Outcome × State σ
  | st, affected, [] => (.ret affected none, st)
  | st, affected, m :: rest =>
    match one st m with
    | (.ret cnt none, st) => insertMaps one st (wrap64 (affected + cnt)) rest
    | (.ret _ (some err), st) => (.ret affected (some err), st)
    | (.panic what, st) => (.panic what, st)

/-- The loop `for i := 0; i < size; i++` of `Insert` that inserts the elements
of a slice one by one through `innerInsert`; `affected` is the running count.
The elements are rendered as separate values: a write to one element is not
seen through another element, so a slice that holds the same record twice
(two elements with one `addr`) is outside this rendering, and the properties
about written-back fields are stated for elements with distinct `addr`. -/
def insertEach (E : Engine σ) : State σ → Int → List Bean → Outcome × State σ × List Bean
  | st, affected, [] => (.ret affected none, st, [])
  | st, affected, bean :: rest =>
    match innerInsert E st bean with
    | (.ret cnt none, st, bean) =>
      let r := insertEach E st (wrap64 (affected + cnt)) rest
      (r.1, r.2.1, bean :: r.2.2)
    | (.ret _ (some err), st, bean) => (.ret affected (some err), st, bean :: rest)
    | (.panic what, st, bean) => (.panic what, st, bean :: rest)

/-- The body of the loop `for _, bean := range beans` of `Insert` for one
argument: the outcome (`ret affected none` when the loop goes on), the state
and the argument as the caller finds it. -/
def insertArg (E : Engine σ) (st : State σ) (affected : Int) :
    InsertArg → Outcome × State σ × InsertArg
  | .mapInterface m =>
    match insertMapInterface E st m with
    | (.ret cnt none, st) => (.ret (wrap64 (affected + cnt)) none, st, .mapInterface m)
    | (.ret _ (some err), st) => (.ret affected (some err), st, .mapInterface m)
    | (.panic what, st) => (.panic what, st, .mapInterface m)
  | .sliceMapInterface ms =>
    let r := insertMaps (insertMapInterface E) st affected ms
    (r.1, r.2, .sliceMapInterface ms)
  | .mapString m =>
    match insertMapString E st m with
    | (.ret cnt none, st) => (.ret (wrap64 (affected + cnt)) none, st, .mapString m)
    | (.ret _ (some err), st) => (.ret affected (some err), st, .mapString m)
    | (.panic what, st) => (.panic what, st, .mapString m)
  | .sliceMapString ms =>
    let r := insertMaps (insertMapString E) st affected ms
    (r.1, r.2, .sliceMapString ms)
  | .slice elems =>
    if elems.length ≤ 0 then (.ret 0 (some Error.ErrNoElementsOnSlice), st, .slice elems)
    else if E.SupportInsertMany then
      match innerInsertMulti E st elems with
      | (.ret cnt none, st, elems) => (.ret (wrap64 (affected + cnt)) none, st, .slice elems)
      | (.ret _ (some err), st, elems) => (.ret affected (some err), st, .slice elems)
      | (.panic what, st, elems) => (.panic what, st, .slice elems)
    else
      let r := insertEach E st affected elems
      (r.1, r.2.1, .slice r.2.2)
  | .single bean =>
    match innerInsert E st bean with
    | (.ret cnt none, st, bean) => (.ret (wrap64 (affected + cnt)) none, st, .single bean)
    | (.ret _ (some err), st, bean) => (.ret affected (some err), st, .single bean)
    | (.panic what, st, bean) => (.panic what, st, .single bean)

/-- The loop `for _, bean := range beans` of `Insert`. -/
def insertArgs (E : Engine σ) : State σ → Int → List InsertArg →
    Outcome × State σ × List InsertArg
  | st, affected, [] => (.ret affected none, st, [])
  | st, affected, arg :: rest =>
    match insertArg E st affected arg with
    | (.ret affected none, st, arg) =>
      let r := insertArgs E st affected rest
      (r.1, r.2.1, arg :: r.2.2)
    | (out, st, arg) => (out, st, arg :: rest)

/-- The first statement of `Insert`: `session.autoResetStatement = false`. -/
def beginInsert (st : State σ) : State σ :=
  let session := st.session
  { st with session := { session with autoResetStatement := false } }

/-- The deferred calls of `Insert`, in the order they run: the statement reset
(`session.autoResetStatement = true; session.resetStatement()`), then
`session.Close()` when the session was auto-closing on entry. -/
def endInsert (E : Engine σ) (isAutoClose : Bool) (st : State σ) : State σ :=
  let session := st.session
  let st := { st with session := E.resetStatement { session with autoResetStatement := true } }
  if isAutoClose then
    let c := E.Close st.session st.db
    { st with session := c.1, db := c.2 }
  else st

/-- Go `session.Insert(beans...)`: the outcome, the state after the deferred
calls, and the arguments as the caller finds them. -/
def Insert (E : Engine σ) (st : State σ) (beans : List InsertArg) :
    Outcome × State σ × List InsertArg :=
  let r := insertArgs E (beginInsert st) 0 beans
  (r.1, endInsert E st.session.isAutoClose r.2.1, r.2.2)

end Top
/-! ### A concrete engine

The properties below are also evaluated on a small concrete engine: a store
that counts the statements it has received and can be told to reject the
statement with a given number, MySQL-style quoting, and the plain readings of
the package helpers (exact name matching, identity conversion of arguments
with a nil pointer converted to the untyped nil). -/

/-- The zero test on values used by the concrete engine for `isZero` and
`isZeroValue`: the zero value of each kind. -/
def sampleIsZero : GoValue → Bool
  | .int v => v == 0
  | .uint v => v == 0
  | .str v => v == ""
  | .ptr _ addr => addr == 0
  | .other _ repr => repr == ""
  | .nil => true

/-- The argument conversion of the concrete engine: a nil pointer becomes the
untyped nil, every other value is bound as it is. -/
def sampleValue2Interface (_col : Column) : GoValue → Except Error GoValue
  | .ptr _ 0 => .ok .nil
  | v => .ok v

/-- Column list rendering of the concrete engine: names in backticks, joined by
commas. -/
def sampleColumns (cols : List String) : String :=
  ",".intercalate (cols.map (fun c => "`" ++ c ++ "`"))

/-- The number of rows the concrete store reports for a statement: one per
parenthesised group after the column list, and one for an empty-row form. -/
def sampleRows (sql : String) : Int :=
  max 1 (((sql.toList.filter (fun c => c == '(')).length : Int) - 1)

/-- The concrete engine.  Its store state is the number of statements received
so far; statement number `failAt` (counting from 1) is rejected, every other
statement affects one row per value group and reports the statement number as
generated key.
The identifier sources hand out `1000 + n` at store state `n`. -/
def sampleEngine (dbType : DBType) (many : Bool) (failAt : Nat) : Engine Nat where
  DBType := dbType
  SupportInsertMany := many
  sequenceGenerator := none
  randomIDGen := fun n => (1000 + (n : Int), n)
  nowTime := fun n _ => ((GoValue.other "time.Time" "now", 42), n)
  exec := fun n sql _ =>
    if n + 1 = failAt then (.error (Error.other 1), n + 1)
    else (.ok ⟨(sampleRows sql, none), ((n : Int) + 1, none)⟩, n + 1)
  queryBytes := fun n _ _ =>
    if n + 1 = failAt then (.error (Error.other 1), n + 1) else (.ok [], n + 1)
  Quote := fun s => "`" ++ s ++ "`"
  quoteColumns := sampleColumns
  setRefBean := fun s _ => .ok s
  TableName := fun s => s.RefTable.Name
  GetColumn := fun t name => t.columns.find? (fun c => c.Name == name)
  contain := fun m name => m.contains name
  isColExist := fun e name => e.colNames.contains name
  exprLen := fun e => e.colNames.length
  getFlagForColumn := fun m col => m.lookup col.Name
  isZero := sampleIsZero
  isZeroValue := sampleIsZero
  value2Interface := sampleValue2Interface
  int64ToIntValue := fun id _ => GoValue.int id
  incrVersionFieldValue := fun v =>
    match v with
    | .int n => .int (n + 1)
    | other => other
  writeStrings := fun w cols => .ok (w.WriteString (sampleColumns cols))
  writeArgs := fun _ w args => .ok (w.Append args)
  exprWriteArgs := fun e w => .ok (w.Append e.args)
  applyClosure := fun _ b => b
  BeforeInsert := fun _ => none
  AfterInsert := fun _ => none
  resetStatement := fun s => s
  Close := fun s n => (s, n)

/-- A table with one ordinary column `name`. -/
def sampleTable : Table := { Name := "t", columns := [{ Name := "name" }] }

/-- A record of `sampleTable`. -/
def sampleBean (addr : Nat) (name : String) : Bean :=
  { addr := addr, fields := [("name", GoValue.str name)] }

/-- A fresh state on `table`: default options, empty store, empty record of
calls. -/
def sampleState (table : Table) : State Nat :=
  { session := { statement := { RefTable := table } }, db := 0 }

/-- A table whose only column `note` is nullable. -/
def nullableTable : Table := { Name := "t", columns := [{ Name := "note", Nullable := true }] }

/-- A table whose only column `v` is tagged both `version` and `created`. -/
def versionTable : Table :=
  { Name := "t", columns := [{ Name := "v", IsVersion := true, IsCreated := true }],
    Version := "v" }

/-- A fresh state on `versionTable` with auto-time and version-check enabled. -/
def versionState : State Nat :=
  { session := { statement :=
      { RefTable := versionTable, UseAutoTime := true, checkVersion := true } },
    db := 0 }

/-- A table with a plain version column `v` next to `name`. -/
def plainVersionTable : Table :=
  { Name := "t", columns := [{ Name := "name" }, { Name := "v", IsVersion := true }],
    Version := "v" }

/-- A fresh state on `plainVersionTable` with version-check enabled. -/
def plainVersionState : State Nat :=
  { session := { statement := { RefTable := plainVersionTable, checkVersion := true } },
    db := 0 }

/-- A fresh state on `nullableTable` whose nullable map has column `note`. -/
def nullableState : State Nat :=
  { session := { statement := { RefTable := nullableTable, nullableMap := [("note", true)] } },
    db := 0 }

/-- The calls recorded after inserting records of `sampleTable` with the given
names one by one. -/
def sampleLog (names : List String) : List Event :=
  names.map (fun n => Event.exec "INSERT INTO `t` (`name`) VALUES (?)" [GoValue.str n])

/-- The state inside `Insert` on `sampleTable` after the single-record inserts
of the records with the given names have been attempted. -/
def sampleRun (names : List String) : State Nat :=
  { session := { statement := { RefTable := sampleTable }, autoResetStatement := false },
    db := names.length, log := sampleLog names }

/-- A table using the random-ID strategy on column `id`, next to `name`. -/
def randomTable : Table :=
  { Name := "t", columns := [{ Name := "id", IsRandomID := true }, { Name := "name" }],
    RandomID := "id" }

/-- A record of `randomTable` whose identifier field holds the zero value. -/
def randomBean (addr : Nat) (name : String) : Bean :=
  { addr := addr, fields := [("id", GoValue.int 0), ("name", GoValue.str name)] }

/-- The state inside `Insert` on `sampleTable` after one multi-row insert of
the records with the given names. -/
def sampleMultiRun (names : List String) : State Nat :=
  { session := { statement := { RefTable := sampleTable }, autoResetStatement := false },
    db := 1,
    log := [Event.exec
      ("INSERT INTO `t` (`name`) VALUES (" ++ "),(".intercalate (names.map (fun _ => "?")) ++ ")")
      (names.map GoValue.str)] }

/-- The state after `Insert` of the two zero-identifier records named a and b
of `randomTable`, one by one. -/
def randomRun : State Nat :=
  { session := { statement := { RefTable := randomTable } },
    db := 2,
    log := [Event.randomID 1000,
      Event.exec "INSERT INTO `t` (`name`,`id`) VALUES (?, ?)" [GoValue.str "a", GoValue.int 1000],
      Event.randomID 1001,
      Event.exec "INSERT INTO `t` (`name`,`id`) VALUES (?, ?)" [GoValue.str "b", GoValue.int 1001]] }

/-- A table with a native auto-increment column `id`, next to `name`. -/
def autoTable : Table :=
  { Name := "t", columns := [{ Name := "id", IsAutoIncrement := true }, { Name := "name" }],
    AutoIncrement := "id" }

/-- The state after `Insert` of the two zero-identifier records named a and b
of `autoTable`, one by one. -/
def autoRun : State Nat :=
  { session := { statement := { RefTable := autoTable } },
    db := 2, log := sampleLog ["a", "b"] }

/-- A concrete engine on a dialect with native key retrieval whose driver
reports no generated key: `LastInsertId` fails with an error. -/
def keylessEngine : Engine Nat :=
  let base := sampleEngine DBType.SQLITE false 0
  { base with exec := fun n sql _ => (.ok ⟨(sampleRows sql, none), (0, some (Error.other 2))⟩, n + 1) }

/-- A two-entry map, yielded with key b before key a. -/
def sampleMap : List (String × GoValue) := [("b", GoValue.int 2), ("a", GoValue.int 1)]

/-- A two-entry string map, yielded with key y before key x. -/
def sampleStringMap : List (String × String) := [("y", "2"), ("x", "1")]

/-- The concrete engine with a conversion that rejects values of kinds it does
not know. -/
def strictEngine : Engine Nat :=
  let base := sampleEngine DBType.MYSQL false 0
  let conv : Column → GoValue → Except Error GoValue := fun _ v =>
    match v with
    | .other _ _ => .error (Error.msg "unsupported type")
    | v => .ok v
  { base with value2Interface := conv }

/-- A table with three ordinary columns. -/
def wideTable : Table :=
  { Name := "t", columns := [{ Name := "name" }, { Name := "blob" }, { Name := "note" }] }

/-- A record of `wideTable` whose `blob` field is of a kind the strict
conversion rejects. -/
def wideBean : Bean :=
  { addr := 1,
    fields := [("name", GoValue.str "a"), ("blob", GoValue.other "chan" "c"),
      ("note", GoValue.str "n")] }

/-- A fresh state whose statement has expression column `a`. -/
def exprState : State Nat :=
  { session := { statement :=
      { RefTable := sampleTable, exprColumns := { colNames := ["a"], args := [GoValue.str "1"] } } },
    db := 0 }

/-- A table whose only column is the native auto-increment column `id`. -/
def idOnlyTable : Table :=
  { Name := "t", columns := [{ Name := "id", IsAutoIncrement := true }], AutoIncrement := "id" }

/-- A record of `idOnlyTable` whose identifier is zero: no column is eligible. -/
def idOnlyBean : Bean := { addr := 1, fields := [("id", GoValue.int 0)] }

/-- A record of `randomTable` handed over by value: its fields cannot be set. -/
def byValueBean : Bean :=
  { addr := 1, fields := [("id", GoValue.int 0), ("name", GoValue.str "a")], canSet := false }

/-- The concrete engine with an external sequence that hands out `500 + n` at
store state `n`. -/
def sequenceEngine : Engine Nat :=
  let base := sampleEngine DBType.MYSQL false 0
  let next : Nat → String → String → Except Error Int × Nat := fun n _ _ => (.ok (500 + (n : Int)), n)
  { base with sequenceGenerator := some next }

/-- The effect of hook closures on the engine `stampEngine`: a closure
registered by the caller writes x into the field `name`, the closures of the
insert path do nothing. -/
def stampClosure : Closure → Bean → Bean
  | .user _, b => setField "name" (GoValue.str "x") b
  | _, b => b

/-- The concrete MySQL engine with multi-row support whose caller-registered
hook closures write x into the field `name`. -/
def stampEngine : Engine Nat :=
  let base := sampleEngine DBType.MYSQL true 0
  { base with applyClosure := stampClosure }

/-- A fresh state on `sampleTable` with one before-closure registered by the
caller. -/
def stampState : State Nat :=
  { session := { statement := { RefTable := sampleTable }, beforeClosures := [Closure.user 0] },
    db := 0 }
/-! ### Specification vocabulary -/

section Spec
variable {σ : Type}

/-- The auto-time test of the binding cascade: the column is a created or
updated column and auto-time is enabled. -/
def bindsTime (s : Statement) (col : Column) : Bool :=
  (col.IsCreated || col.IsUpdated) && s.UseAutoTime

/-- The version test of the binding cascade. -/
def bindsVersion (s : Statement) (col : Column) : Bool :=
  col.IsVersion && s.checkVersion

/-- What `genInsertColumns` binds for a column it selects: the column passed
the skip tests, its field was read, and the argument is the one of the first
branch of the cascade that applies. -/
def Bound (E : Engine σ) (s : Statement) (bean : Bean) (col : Column) (arg : GoValue) : Prop :=
  col.IsDeleted = false ∧ excludedByStatement E s col = false ∧
    ∃ fieldValue, valueOf col bean = .ok fieldValue ∧
      ((col.IsAutoIncrement || col.IsRandomID) && isZeroOfKind fieldValue) = false ∧
      (if bindsTime s col then ∃ db, arg = (E.nowTime db col).1.1
       else if bindsVersion s col then arg = GoValue.int 1
       else E.value2Interface col (nullableSubst E s col fieldValue) = .ok arg)

/-- Whether the two lists of a plan have the same length; an early return has
no plan. -/
def lengthsAgree : Outcome ⊕ Plan → Prop
  | .inr plan => plan.colNames.length = plan.args.length
  | .inl _ => True

end Spec

section Spec2
variable {σ : Type}

/-- What `innerInsertMulti` binds for a column of a row: the field was read
and the argument is the one of the first branch of the cascade that applies. -/
def MultiBound (E : Engine σ) (s : Statement) (vv : Bean) (col : Column) (arg : GoValue) :
    Prop :=
  ∃ fieldValue, valueOf col vv = .ok fieldValue ∧
    (if bindsTime s col then ∃ db, arg = (E.nowTime db col).1.1
     else if bindsVersion s col then arg = GoValue.int 1
     else E.value2Interface col fieldValue = .ok arg)

end Spec2

section Spec3
variable {σ : Type}

/-- The running count `affected += cnt` of `Insert` over a list of counts,
starting from 0, in `int64` arithmetic. -/
def sum64 (counts : List Int) : Int := counts.foldl (fun a c => wrap64 (a + c)) 0

/-- The single-record inserts of `beans`, one after the other from state `st`,
all return without error, with affected counts `counts`; they leave the state
`st'` and the records `beans'`. -/
inductive Inserted (E : Engine σ) : State σ → List Bean → List Int → State σ → List Bean → Prop
  | nil (st : State σ) : Inserted E st [] [] st []
  | cons {st st1 st2 : State σ} {bean bean' : Bean} {cnt : Int} {rest rest' : List Bean}
      {counts : List Int} :
      innerInsert E st bean = (.ret cnt none, st1, bean') →
      Inserted E st1 rest counts st2 rest' →
      Inserted E st (bean :: rest) (cnt :: counts) st2 (bean' :: rest')

end Spec3

section Spec4

/-- The identifiers handed out by the random-ID source, in order, as recorded
in a call record. -/
def randomIDs (log : List Event) : List Int :=
  log.filterMap (fun e => match e with
    | .randomID id => some id
    | _ => none)

end Spec4

section Spec5

/-- The records carried by an argument of `Insert`: the elements of a slice of
records, the record itself for a single record, none for the map forms. -/
def beansOf : InsertArg → List Bean
  | .slice elems => elems
  | .single bean => [bean]
  | _ => []

end Spec5

section Spec6
variable {σ : Type}

/-- The hooks leave the field of column `col` alone: hook closures and the
before-insert capability keep its value and the settability of the record, the
after-insert capability keeps its value. -/
def HooksKeep (E : Engine σ) (col : Column) : Prop :=
  (∀ c b, valueOf col (E.applyClosure c b) = valueOf col b ∧
    (E.applyClosure c b).canSet = b.canSet) ∧
  (∀ b b', E.BeforeInsert b = some b' → valueOf col b' = valueOf col b ∧ b'.canSet = b.canSet) ∧
  (∀ b b', E.AfterInsert b = some b' → valueOf col b' = valueOf col b)

/-- The table of `s` uses the random-ID strategy only, on column `col`, and the
identifiers recorded in `log` as handed out by the generator are distinct and
non-zero. -/
def RandomStrategy (E : Engine σ) (s : Statement) (col : Column) (log : List Event) : Prop :=
  s.RefTable.AutoIncrement = "" ∧ s.RefTable.RandomID ≠ "" ∧
  E.GetColumn s.RefTable s.RefTable.RandomID = some col ∧ col.Name = s.RefTable.RandomID ∧
  (∀ c ∈ s.RefTable.columns, c.Name = s.RefTable.RandomID → c.IsRandomID = true) ∧
  (randomIDs log).Nodup ∧ ∀ id ∈ randomIDs log, id ≠ 0

/-- The table of `s` assigns identifiers through its auto-increment column
`col` (natively, or with an external sequence when the engine has one; no
random-ID column), and the store hands out distinct positive keys: `key` reads
the last key off the store state, every accepted statement reports the new key
(as `LastInsertId`, or in the first returned row) and that key is positive and
greater than the one before; reading the clock or drawing from the sequence
does not lower it.  The columns of that name are flagged auto-increment. -/
def StoreKeyStrategy (E : Engine σ) (s : Statement) (col : Column) (key : σ → Int) : Prop :=
  s.RefTable.AutoIncrement ≠ "" ∧ s.RefTable.RandomID = "" ∧
  E.GetColumn s.RefTable s.RefTable.AutoIncrement = some col ∧
  (∀ db sql a res db', E.exec db sql a = (.ok res, db') →
    res.LastInsertId = (key db', none) ∧ 0 < key db' ∧ key db < key db') ∧
  (∀ db sql a row rest db', E.queryBytes db sql a = (.ok (row :: rest), db') →
    ParseInt ((row.lookup s.RefTable.AutoIncrement).getD "") = .ok (key db') ∧
      0 < key db' ∧ key db < key db') ∧
  (∀ db c, key db ≤ key (E.nowTime db c).2) ∧
  (∀ next, E.sequenceGenerator = some next → ∀ db t c, key db ≤ key (next db t c).2) ∧
  (∀ c ∈ s.RefTable.columns, c.Name = col.Name → c.IsAutoIncrement = true)

/-- The column a hook closure of the insert path writes to; a closure
registered by the caller names none. -/
def closureColumn : Closure → Option String
  | .setColumnTime _ colName _ => some colName
  | .setColumnInt _ colName _ => some colName
  | .user _ => none

/-- The hooks spare the field of column `col`: every hook closure that does
not write to `col` keeps its value and the settability of the record, and so
does the before-insert capability; the after-insert capability keeps its
value. -/
def HooksSpare (E : Engine σ) (col : Column) : Prop :=
  (∀ c b, closureColumn c ≠ some col.Name →
    valueOf col (E.applyClosure c b) = valueOf col b ∧
      (E.applyClosure c b).canSet = b.canSet) ∧
  (∀ b b', E.BeforeInsert b = some b' → valueOf col b' = valueOf col b ∧ b'.canSet = b.canSet) ∧
  (∀ b b', E.AfterInsert b = some b' → valueOf col b' = valueOf col b)

end Spec6

section Spec7
variable {σ : Type}

/-- The state and the record after the before-insert step of `innerInsert`
(hook closures, queue clean-up, `BeforeInsert`), with `statement` the result of
`setRefBean`. -/
def beforeInsert (E : Engine σ) (st : State σ) (statement : Statement) (bean : Bean) :
    State σ × Bean :=
  let session := st.session
  let session := { session with statement := statement }
  let session := { session with
    beforeClosures := cleanupProcessorsClosures session.beforeClosures }
  ({ st with session := session }, callBeforeInsert E (runClosures E st.session.beforeClosures bean))

/-- The one call that the execution part of `innerInsert` issues to the store,
by dialect: the read of the current sequence value on Oracle with an
auto-increment column, the built statement as a query on Postgres with an
auto-increment column, the built statement through `exec` otherwise. -/
def storeCall (E : Engine σ) (table : Table) (sqlStr : String) (args : List GoValue) : Event :=
  if E.DBType = DBType.ORACLE ∧ table.AutoIncrement ≠ "" then
    Event.queryBytes "select seq_atable.currval from dual" args
  else if table.AutoIncrement ≠ "" ∧ E.DBType = DBType.POSTGRES then
    Event.queryBytes sqlStr args
  else Event.exec sqlStr args

/-- The error with which the store answers a call at store state `db`, if it
rejects it. -/
def storeError (E : Engine σ) (db : σ) : Event → Option Error
  | .exec sql args =>
    match (E.exec db sql args).1 with
    | .error err => some err
    | .ok _ => none
  | .queryBytes sql args =>
    match (E.queryBytes db sql args).1 with
    | .error err => some err
    | .ok _ => none
  | _ => none

end Spec7

section Spec8
variable {σ : Type}

/-- The selection rule of the record mapper for one column, in the spec's
words: not deleted, not explicitly omitted, inside the include-set when one is
active, not targeted by increment, decrement or expression handling, and not
an auto-increment or random-ID column whose field holds the zero value (as the
kind switch tests it). -/
def selects (E : Engine σ) (s : Statement) (bean : Bean) (col : Column) : Bool :=
  !col.IsDeleted
    && !E.contain s.omitColumnMap col.Name
    && (decide (s.columnMap.length = 0) || E.contain s.columnMap col.Name)
    && !E.isColExist s.incrColumns col.Name
    && !E.isColExist s.decrColumns col.Name
    && !E.isColExist s.exprColumns col.Name
    && (match valueOf col bean with
        | .ok fieldValue => !((col.IsAutoIncrement || col.IsRandomID) && isZeroOfKind fieldValue)
        | .error _ => false)

/-- The names of the table's columns that the selection rule keeps, in
table-declaration order. -/
def selectedNames (E : Engine σ) (s : Statement) (bean : Bean) : List String :=
  (s.RefTable.columns.filter (selects E s bean)).map (fun col => col.Name)

end Spec8

section Spec9
variable {σ : Type}

/-- Both column loops bind the record `row` with the columns `cols` and the
arguments `bound`: from every state under statement `s`, the loop of
`genInsertColumns` appends the names of `cols` and `bound`, and the row loop of
`innerInsertMulti` over `cols` appends `bound` and one placeholder per column;
neither changes the statement or issues a call. -/
def RowBinding (E : Engine σ) (s : Statement) (cols : List Column) (row : Bean)
    (bound : List GoValue) : Prop :=
  (∀ (st : State σ) (names : List String) (args : List GoValue), st.session.statement = s →
    ∃ st', genInsertColumnsLoop E row s.RefTable.columns names args st
        = ((names ++ cols.map (fun c => c.Name), args ++ bound, none), st') ∧
      st'.session.statement = s ∧ st'.log = st.log) ∧
  (∀ (st : State σ) (args : List GoValue) (places : List String), st.session.statement = s →
    ∃ st', multiRowArgs E row cols args places st
        = (.ok (args ++ bound, places ++ List.replicate cols.length "?"), st') ∧
      st'.session.statement = s ∧ st'.log = st.log)

end Spec9
/-! ### Bit-level lemmas -/

theorem ldiff_low_bits (k a n : Nat) (hn : n < 2 ^ k) (ha : a % 2 ^ k = 2 ^ k - 1) :
    Nat.ldiff a n = a - n := by
  apply Nat.eq_of_testBit_eq
  intro i
  rw [Nat.testBit_ldiff]
  have hpos : 0 < 2 ^ k := Nat.pos_pow_of_pos k (by decide)
  have hdec : a - n = 2 ^ k * (a / 2 ^ k) + (2 ^ k - (n + 1)) := by
    have := Nat.div_add_mod a (2 ^ k)
    omega
  have hdec2 : a = 2 ^ k * (a / 2 ^ k) + (2 ^ k - (0 + 1)) := by
    have := Nat.div_add_mod a (2 ^ k)
    omega
  rw [hdec, Nat.testBit_mul_pow_two_add _ (by omega)]
  conv_lhs => rw [hdec2, Nat.testBit_mul_pow_two_add _ (by omega)]
  by_cases h : i < k
  · simp only [h, if_true]
    rw [Nat.testBit_two_pow_sub_succ hn, Nat.testBit_two_pow_sub_succ hpos]
    simp [h]
  · simp only [h, if_false]
    have : n.testBit i = false := by
      apply Nat.testBit_lt_two_pow
      calc n < 2 ^ k := hn
        _ ≤ 2 ^ i := Nat.pow_le_pow_right (by decide) (by omega)
    simp [this]

/-- Or-ing bits below position `k` into a multiple of `2 ^ k` adds them. -/
theorem lor_eq_add_of_dvd (k : Nat) (x n : Int) (hx : (2 : Int) ^ k ∣ x) (h0 : 0 ≤ n)
    (hn : n < 2 ^ k) : Int.lor x n = x + n := by
  obtain ⟨n, rfl⟩ := Int.eq_ofNat_of_zero_le h0
  have hn' : n < 2 ^ k := by exact_mod_cast hn
  cases x with
  | ofNat a =>
    have ha : 2 ^ k ∣ a := by
      have : ((2 ^ k : Nat) : Int) ∣ (a : Int) := by simpa using hx
      exact Int.natCast_dvd_natCast.mp this
    obtain ⟨q, rfl⟩ := ha
    show ((2 ^ k * q ||| n : Nat) : Int) = _
    rw [← Nat.mul_add_lt_is_or hn']
    simp
  | negSucc a =>
    show Int.negSucc (Nat.ldiff a n) = _
    have hpos : 0 < 2 ^ k := Nat.pos_pow_of_pos k (by decide)
    have ha' : a % 2 ^ k = 2 ^ k - 1 := by
      have h1 : ((2 ^ k : Nat) : Int) ∣ ((a + 1 : Nat) : Int) := by
        have : (2 : Int) ^ k ∣ -(Int.negSucc a) := (Int.dvd_neg).mpr hx
        simpa [Int.neg_negSucc] using this
      obtain ⟨q, hq⟩ := Int.natCast_dvd_natCast.mp h1
      cases q with
      | zero => simp at hq
      | succ q =>
        have : a = 2 ^ k * q + (2 ^ k - 1) := by
          rw [Nat.mul_succ] at hq
          omega
        rw [this, Nat.mul_add_mod]
        exact Nat.mod_eq_of_lt (by omega)
    rw [ldiff_low_bits k a n hn' ha']
    have : n ≤ a := by
      have := Nat.mod_le a (2 ^ k)
      omega
    rw [Int.negSucc_eq, Int.negSucc_eq]
    push_cast [this]
    ring

theorem ldiff_mask (k a : Nat) : Nat.ldiff (2 ^ k - 1) a = 2 ^ k - 1 - a % 2 ^ k := by
  apply Nat.eq_of_testBit_eq
  intro i
  have hpos : 0 < 2 ^ k := Nat.pos_pow_of_pos k (by decide)
  have hlt : a % 2 ^ k < 2 ^ k := Nat.mod_lt _ hpos
  have e1 : 2 ^ k - 1 - a % 2 ^ k = 2 ^ k - (a % 2 ^ k + 1) := by omega
  have e2 : 2 ^ k - 1 = 2 ^ k - (0 + 1) := by omega
  rw [Nat.testBit_ldiff, e1, Nat.testBit_two_pow_sub_succ hlt, e2,
    Nat.testBit_two_pow_sub_succ hpos, Nat.testBit_mod_two_pow]
  by_cases h : i < k <;> simp [h]

/-- Masking with `2 ^ k - 1` is reduction modulo `2 ^ k`, for negative
arguments as well. -/
theorem land_mask (k : Nat) (x : Int) : Int.land x (2 ^ k - 1) = x % 2 ^ k := by
  have hpos : 0 < 2 ^ k := Nat.pos_pow_of_pos k (by decide)
  have hm : ((2 : Int) ^ k - 1) = ((2 ^ k - 1 : Nat) : Int) := by
    push_cast [Nat.one_le_two_pow]
    rfl
  rw [hm]
  cases x with
  | ofNat a =>
    show ((a &&& (2 ^ k - 1) : Nat) : Int) = _
    rw [Nat.and_pow_two_sub_one_eq_mod]
    simp
  | negSucc a =>
    show ((Nat.ldiff (2 ^ k - 1) a : Nat) : Int) = _
    rw [ldiff_mask]
    have hlt : a % 2 ^ k < 2 ^ k := Nat.mod_lt _ hpos
    rw [Int.negSucc_eq]
    have h2 : (-((a : Int) + 1)) % (2 : Int) ^ k = ((2 ^ k - 1 - a % 2 ^ k : Nat) : Int) := by
      have hd := Nat.div_add_mod a (2 ^ k)
      have hle : a % 2 ^ k + 1 ≤ 2 ^ k := hlt
      have e : -((a : Int) + 1)
          = ((2 ^ k - 1 - a % 2 ^ k : Nat) : Int)
            + (2 : Int) ^ k * (-(((a / 2 ^ k : Nat) : Int) + 1)) := by
        have e3 : 2 ^ k - 1 - a % 2 ^ k = 2 ^ k - (a % 2 ^ k + 1) := by omega
        rw [e3, Nat.cast_sub hle]
        have hd' : ((2 : Int) ^ k) * ((a / 2 ^ k : Nat) : Int) + ((a % 2 ^ k : Nat) : Int)
            = (a : Int) := by
          exact_mod_cast hd
        push_cast
        linarith
      rw [e, Int.add_mul_emod_self_left]
      apply Int.emod_eq_of_lt
      · exact Int.natCast_nonneg _
      · have : 2 ^ k - 1 - a % 2 ^ k < 2 ^ k := by omega
        exact_mod_cast this
    rw [h2]

theorem land_0x3ff (x : Int) : Int.land x 0x3ff = x % 1024 := by
  have := land_mask 10 x
  norm_num at this
  exact this

theorem land_0xfff (x : Int) : Int.land x 0xfff = x % 4096 := by
  have := land_mask 12 x
  norm_num at this
  exact this

theorem wrap64_of_range (x : Int) (h0 : -2 ^ 63 ≤ x) (h1 : x < 2 ^ 63) : wrap64 x = x := by
  unfold wrap64
  norm_num at h0 h1 ⊢
  omega

theorem wrap64_shift_dvd (t : Int) : (2 : Int) ^ 22 ∣ wrap64 (t * 2 ^ 22) := by
  unfold wrap64
  rw [Int.emod_def]
  have h1 : (2 : Int) ^ 22 ∣ t * 2 ^ 22 := Dvd.intro_left _ rfl
  have h2 : (2 : Int) ^ 22 ∣ 2 ^ 63 := pow_dvd_pow 2 (by norm_num)
  have h3 : (2 : Int) ^ 22 ∣ 2 ^ 64 := pow_dvd_pow 2 (by norm_num)
  exact dvd_sub (dvd_sub (dvd_add h1 h2) (Dvd.dvd.mul_right h3 _)) h2

/-- With a ten-bit node id and a twelve-bit sequence the three fields of the
identifier do not overlap, so the bitwise `|` is a sum. -/
theorem mkID_eq_add (t nodeID sequence : Int) (hn0 : 0 ≤ nodeID) (hn1 : nodeID < 1024)
    (hs0 : 0 ≤ sequence) (hs1 : sequence ≤ 4095) :
    mkID t nodeID sequence = wrap64 (t * 2 ^ 22) + nodeID * 2 ^ 12 + sequence := by
  unfold mkID shl64
  have hnode : wrap64 (nodeID * 2 ^ 12) = nodeID * 2 ^ 12 := by
    apply wrap64_of_range <;> norm_num <;> omega
  rw [hnode, lor_eq_add_of_dvd 22 _ _ (wrap64_shift_dvd t) (by positivity)
    (by norm_num; omega)]
  apply lor_eq_add_of_dvd 12 _ _ _ hs0 (by norm_num; omega)
  have h1 : (2 : Int) ^ 12 ∣ wrap64 (t * 2 ^ 22) :=
    dvd_trans (pow_dvd_pow 2 (by norm_num)) (wrap64_shift_dvd t)
  exact dvd_add h1 (Dvd.intro_left _ rfl)

/-! ### Behaviour of single calls -/

theorem newSnowflake_nodeID_range (n : Int) :
    0 ≤ (newSnowflake n).nodeID ∧ (newSnowflake n).nodeID < 1024 := by
  show 0 ≤ Int.land n 0x3ff ∧ Int.land n 0x3ff < 1024
  rw [land_0x3ff]
  omega

/-- A reading different from `lastTime` resets the sequence. -/
theorem Generate_of_ne (s : snowflake) (t : Int) (rest : List Int) (h : t ≠ s.lastTime) :
    Generate s (t :: rest)
      = some (mkID t s.nodeID 0, { s with sequence := 0, lastTime := t }, rest) := by
  simp [Generate, h]

/-- A reading equal to `lastTime` with room left in the sequence increments it. -/
theorem Generate_of_eq (s : snowflake) (t : Int) (rest : List Int) (h : t = s.lastTime)
    (h0 : 0 ≤ s.sequence) (h1 : s.sequence + 1 ≤ 4095) :
    Generate s (t :: rest)
      = some (mkID t s.nodeID (s.sequence + 1),
          { s with sequence := s.sequence + 1, lastTime := t }, rest) := by
  have hw : wrap64 (s.sequence + 1) = s.sequence + 1 := by
    apply wrap64_of_range <;> norm_num <;> omega
  have hl : Int.land (s.sequence + 1) 0xfff = s.sequence + 1 := by
    rw [land_0xfff]
    omega
  have hne : s.sequence + 1 ≠ 0 := by omega
  simp [Generate, h, hw, hl, hne]

/-- The busy-wait loop returns a reading later than `lastTime` as soon as the
supplied readings contain one. -/
theorem waitNext_of_later (lastTime : Int) (clock : List Int) (cur : Int)
    (h : ∃ r ∈ clock, lastTime < r) :
    ∃ r rest, waitNext lastTime cur clock = some (r, rest) ∧ lastTime < r ∧
      (r = cur ∨ r ∈ clock) := by
  induction clock generalizing cur with
  | nil => simp at h
  | cons x xs ih =>
    by_cases hc : cur ≤ lastTime
    · by_cases hx : lastTime < x
      · cases xs with
        | nil =>
          refine ⟨x, [], ?_, hx, Or.inr (by simp)⟩
          simp [waitNext, hc, not_le.mpr hx]
        | cons y ys =>
          refine ⟨x, y :: ys, ?_, hx, Or.inr (by simp)⟩
          simp [waitNext, hc, not_le.mpr hx]
      · have h' : ∃ r ∈ xs, lastTime < r := by
          obtain ⟨r, hr, hlt⟩ := h
          rcases List.mem_cons.mp hr with rfl | hr'
          · exact absurd hlt hx
          · exact ⟨r, hr', hlt⟩
        obtain ⟨r, rest, h1, h2, h3⟩ := ih x h'
        refine ⟨r, rest, ?_, h2, ?_⟩
        · simp [waitNext, hc, h1]
        · rcases h3 with rfl | h3
          · exact Or.inr (by simp)
          · exact Or.inr (List.mem_cons_of_mem _ h3)
    · refine ⟨cur, x :: xs, ?_, not_le.mp hc, Or.inl rfl⟩
      simp [waitNext, hc]

/-- Whatever the loop returns is later than `lastTime` and is one of the
readings it was given. -/
theorem waitNext_spec (lastTime : Int) (clock : List Int) (cur r : Int) (rest : List Int)
    (h : waitNext lastTime cur clock = some (r, rest)) :
    lastTime < r ∧ (r = cur ∨ r ∈ clock) := by
  induction clock generalizing cur with
  | nil =>
    by_cases hc : cur ≤ lastTime
    · simp [waitNext, hc] at h
    · simp [waitNext, hc] at h
      exact ⟨by omega, Or.inl h.1.symm⟩
  | cons x xs ih =>
    by_cases hc : cur ≤ lastTime
    · simp only [waitNext, hc, if_true] at h
      obtain ⟨h1, h2⟩ := ih x h
      refine ⟨h1, Or.inr ?_⟩
      rcases h2 with rfl | h2
      · simp
      · exact List.mem_cons_of_mem _ h2
    · simp [waitNext, hc] at h
      exact ⟨by omega, Or.inl h.1.symm⟩

/-- Every call leaves a twelve-bit sequence, keeps the node id, and returns the
identifier built from the fields it stored. -/
theorem Generate_post (s : snowflake) (clock : List Int) (id : Int) (s' : snowflake)
    (rest : List Int) (h : Generate s clock = some (id, s', rest)) :
    s'.nodeID = s.nodeID ∧ 0 ≤ s'.sequence ∧ s'.sequence ≤ 4095 ∧
      id = mkID s'.lastTime s'.nodeID s'.sequence := by
  have hrange : 0 ≤ Int.land (wrap64 (s.sequence + 1)) 0xfff ∧
      Int.land (wrap64 (s.sequence + 1)) 0xfff ≤ 4095 := by
    rw [land_0xfff]
    omega
  cases clock with
  | nil => simp [Generate] at h
  | cons t more =>
    by_cases ht : t = s.lastTime
    · by_cases hz : Int.land (wrap64 (s.sequence + 1)) 0xfff = 0
      · simp only [Generate, ht, if_true, hz] at h
        cases hw : waitNext s.lastTime s.lastTime more with
        | none => simp [hw] at h
        | some p =>
          obtain ⟨r, rest'⟩ := p
          simp only [hw, Option.some.injEq, Prod.mk.injEq] at h
          obtain ⟨h1, h2, _⟩ := h
          subst h1 h2
          simp
      · simp only [Generate, ht, if_true, hz, if_false, Option.some.injEq,
          Prod.mk.injEq] at h
        obtain ⟨h1, h2, _⟩ := h
        subst h1 h2
        exact ⟨rfl, hrange.1, hrange.2, rfl⟩
    · rw [Generate_of_ne s t more ht] at h
      simp only [Option.some.injEq, Prod.mk.injEq] at h
      obtain ⟨h1, h2, _⟩ := h
      subst h1 h2
      simp

/-! ### Calls within one millisecond -/

theorem generateN_same_time (k : Nat) (s : snowflake) (t : Int)
    (hn0 : 0 ≤ s.nodeID) (hn1 : s.nodeID < 1024)
    (ht : s.lastTime = t) (h0 : 0 ≤ s.sequence) (h1 : s.sequence + k ≤ 4095) :
    ∃ ids s', generateN k s (List.replicate k t) = some (ids, s', []) ∧
      ids.length = k ∧ ids.Pairwise (· < ·) ∧
      ∀ id ∈ ids, mkID t s.nodeID s.sequence < id := by
  induction k generalizing s with
  | zero => exact ⟨[], s, rfl, rfl, List.Pairwise.nil, by simp⟩
  | succ k ih =>
    have hstep := Generate_of_eq s t (List.replicate k t) ht.symm h0 (by omega)
    obtain ⟨ids, s', hrun, hlen, hpw, hgt⟩ :=
      ih { s with sequence := s.sequence + 1, lastTime := t } hn0 hn1 rfl
        (by show 0 ≤ s.sequence + 1; omega)
        (by show s.sequence + 1 + (k : Int) ≤ 4095; push_cast at h1; omega)
    have hlt : mkID t s.nodeID s.sequence < mkID t s.nodeID (s.sequence + 1) := by
      rw [mkID_eq_add t _ _ hn0 hn1 h0 (by omega),
        mkID_eq_add t _ _ hn0 hn1 (by omega) (by omega)]
      omega
    refine ⟨mkID t s.nodeID (s.sequence + 1) :: ids, s', ?_, by simp [hlen], ?_, ?_⟩
    · simp only [List.replicate_succ, generateN, hstep, hrun]
    · exact List.Pairwise.cons (fun id hid => hgt id hid) hpw
    · intro id hid
      rcases List.mem_cons.mp hid with rfl | hid'
      · exact hlt
      · exact lt_trans hlt (hgt id hid')
/-! ### The column loop -/

section PlanLemmas
variable {σ : Type}

theorem genInsertColumnsLoop_lengths (E : Engine σ) (bean : Bean) (cols : List Column) :
    ∀ (colNames : List String) (args : List GoValue) (st : State σ),
      colNames.length = args.length →
      (genInsertColumnsLoop E bean cols colNames args st).1.1.length
        = (genInsertColumnsLoop E bean cols colNames args st).1.2.1.length := by
  induction cols with
  | nil => intro colNames args st h; simpa [genInsertColumnsLoop] using h
  | cons col cols ih =>
    intro colNames args st h
    unfold genInsertColumnsLoop
    split
    · exact ih _ _ _ h
    · split
      · exact ih _ _ _ h
      · split
        · rfl
        · split
          · exact ih _ _ _ h
          · split
            · exact ih _ _ _ (by simp [h])
            · split
              · exact ih _ _ _ (by simp [h])
              · dsimp only
                split
                · exact h
                · exact ih _ _ _ (by simp [h])

theorem genInsertColumnsLoop_spec (E : Engine σ) (bean : Bean) (cols : List Column) :
    ∀ (colNames : List String) (args : List GoValue) (st : State σ)
      (colNames' : List String) (args' : List GoValue) (st' : State σ),
      genInsertColumnsLoop E bean cols colNames args st = ((colNames', args', none), st') →
      st'.session.statement = st.session.statement ∧
      ∃ sel : List (Column × GoValue),
        (sel.map Prod.fst).Sublist cols ∧
        colNames' = colNames ++ sel.map (fun p => p.1.Name) ∧
        args' = args ++ sel.map Prod.snd ∧
        ∀ p ∈ sel, Bound E st.session.statement bean p.1 p.2 := by
  induction cols with
  | nil =>
    intro colNames args st colNames' args' st' h
    simp only [genInsertColumnsLoop, Prod.mk.injEq] at h
    obtain ⟨⟨h1, h2, _⟩, h3⟩ := h
    subst h1 h2 h3
    exact ⟨rfl, [], by simp, by simp, by simp, by simp⟩
  | cons col cols ih =>
    intro colNames args st colNames' args' st' h
    unfold genInsertColumnsLoop at h
    split at h
    · obtain ⟨hs, sel, h1, h2, h3, h4⟩ := ih _ _ _ _ _ _ h
      exact ⟨hs, sel, h1.cons _, h2, h3, h4⟩
    · rename_i hdel
      split at h
      · obtain ⟨hs, sel, h1, h2, h3, h4⟩ := ih _ _ _ _ _ _ h
        exact ⟨hs, sel, h1.cons _, h2, h3, h4⟩
      · rename_i hexc
        split at h
        · simp at h
        · rename_i fieldValue hval
          split at h
          · obtain ⟨hs, sel, h1, h2, h3, h4⟩ := ih _ _ _ _ _ _ h
            exact ⟨hs, sel, h1.cons _, h2, h3, h4⟩
          · rename_i hzero
            have hbase : col.IsDeleted = false ∧
                excludedByStatement E st.session.statement col = false := by
              constructor
              · simpa using hdel
              · simpa using hexc
            split at h
            · rename_i htime
              obtain ⟨hs, sel, h1, h2, h3, h4⟩ := ih _ _ _ _ _ _ h
              refine ⟨hs, (col, (E.nowTime st.db col).1.1) :: sel, ?_, ?_, ?_, ?_⟩
              · simpa using h1.cons₂ col
              · simp [h2]
              · simp [h3]
              · intro p hp
                rcases List.mem_cons.mp hp with rfl | hp
                · refine ⟨hbase.1, hbase.2, fieldValue, hval, by simpa using hzero, ?_⟩
                  have : bindsTime st.session.statement col = true := by
                    simpa [bindsTime] using htime
                  simp only [this, if_true]
                  exact ⟨st.db, rfl⟩
                · exact h4 p hp
            · rename_i htime
              have hnt : bindsTime st.session.statement col = false := by
                simpa [bindsTime] using htime
              split at h
              · rename_i hver
                obtain ⟨hs, sel, h1, h2, h3, h4⟩ := ih _ _ _ _ _ _ h
                refine ⟨hs, (col, GoValue.int 1) :: sel, ?_, ?_, ?_, ?_⟩
                · simpa using h1.cons₂ col
                · simp [h2]
                · simp [h3]
                · intro p hp
                  rcases List.mem_cons.mp hp with rfl | hp
                  · refine ⟨hbase.1, hbase.2, fieldValue, hval, by simpa using hzero, ?_⟩
                    have : bindsVersion st.session.statement col = true := by
                      simpa [bindsVersion] using hver
                    simp [hnt, this]
                  · exact h4 p hp
              · rename_i hver
                have hnv : bindsVersion st.session.statement col = false := by
                  simpa [bindsVersion] using hver
                dsimp only at h
                split at h
                · simp at h
                · rename_i arg harg
                  obtain ⟨hs, sel, h1, h2, h3, h4⟩ := ih _ _ _ _ _ _ h
                  refine ⟨hs, (col, arg) :: sel, ?_, ?_, ?_, ?_⟩
                  · simpa using h1.cons₂ col
                  · simp [h2]
                  · simp [h3]
                  · intro p hp
                    rcases List.mem_cons.mp hp with rfl | hp
                    · refine ⟨hbase.1, hbase.2, fieldValue, hval, by simpa using hzero, ?_⟩
                      simp [hnt, hnv, harg]
                    · exact h4 p hp

end PlanLemmas
/-! ### The row loop of the multi-row path -/

section MultiLemmas
variable {σ : Type}

theorem multiRowArgs_spec (E : Engine σ) (vv : Bean) (cols : List Column) :
    ∀ (args : List GoValue) (places : List String) (st : State σ)
      (args' : List GoValue) (places' : List String) (st' : State σ),
      multiRowArgs E vv cols args places st = (.ok (args', places'), st') →
      st'.session.statement = st.session.statement ∧
      ∃ bound : List GoValue, args' = args ++ bound ∧
        List.Forall₂ (MultiBound E st.session.statement vv) cols bound := by
  induction cols with
  | nil =>
    intro args places st args' places' st' h
    simp only [multiRowArgs, Prod.mk.injEq, Except.ok.injEq] at h
    obtain ⟨⟨h1, _⟩, h3⟩ := h
    subst h1 h3
    exact ⟨rfl, [], by simp, List.Forall₂.nil⟩
  | cons col cols ih =>
    intro args places st args' places' st' h
    unfold multiRowArgs at h
    split at h
    · simp at h
    · rename_i fieldValue hval
      split at h
      · rename_i htime
        obtain ⟨hs, bound, h1, h2⟩ := ih _ _ _ _ _ _ h
        refine ⟨hs, (E.nowTime st.db col).1.1 :: bound, by simp [h1], List.Forall₂.cons ?_ h2⟩
        refine ⟨fieldValue, hval, ?_⟩
        have : bindsTime st.session.statement col = true := by simpa [bindsTime] using htime
        simp only [this, if_true]
        exact ⟨st.db, rfl⟩
      · rename_i htime
        have hnt : bindsTime st.session.statement col = false := by
          simpa [bindsTime] using htime
        split at h
        · rename_i hver
          obtain ⟨hs, bound, h1, h2⟩ := ih _ _ _ _ _ _ h
          refine ⟨hs, GoValue.int 1 :: bound, by simp [h1], List.Forall₂.cons ?_ h2⟩
          refine ⟨fieldValue, hval, ?_⟩
          have : bindsVersion st.session.statement col = true := by
            simpa [bindsVersion] using hver
          simp [hnt, this]
        · rename_i hver
          have hnv : bindsVersion st.session.statement col = false := by
            simpa [bindsVersion] using hver
          split at h
          · simp at h
          · rename_i arg harg
            obtain ⟨hs, bound, h1, h2⟩ := ih _ _ _ _ _ _ h
            refine ⟨hs, arg :: bound, by simp [h1], List.Forall₂.cons ?_ h2⟩
            refine ⟨fieldValue, hval, ?_⟩
            simp [hnt, hnv, harg]

end MultiLemmas
/-! ### The element loop of `Insert` -/

section TopLemmas
variable {σ : Type}

theorem wrap64_fold_of_range (counts : List Int) :
    ∀ a : Int, 0 ≤ a → (∀ c ∈ counts, 0 ≤ c) → a + counts.sum < 2 ^ 63 →
      counts.foldl (fun a c => wrap64 (a + c)) a = a + counts.sum := by
  induction counts with
  | nil => intro a _ _ _; simp
  | cons c cs ih =>
    intro a ha hpos hlt
    have hc : 0 ≤ c := hpos c (by simp)
    have hcs : ∀ x ∈ cs, 0 ≤ x := fun x hx => hpos x (List.mem_cons_of_mem _ hx)
    have hsum : 0 ≤ cs.sum := List.sum_nonneg hcs
    simp only [List.sum_cons] at hlt
    have hw : wrap64 (a + c) = a + c := by
      apply wrap64_of_range
      · have : (0 : Int) ≤ a + c := by omega
        exact le_trans (by norm_num) this
      · omega
    simp only [List.foldl_cons, hw, List.sum_cons]
    rw [ih (a + c) (by omega) hcs (by omega)]
    ring

theorem sum64_eq_sum (counts : List Int) (hpos : ∀ c ∈ counts, 0 ≤ c)
    (hlt : counts.sum < 2 ^ 63) : sum64 counts = counts.sum := by
  unfold sum64
  rw [wrap64_fold_of_range counts 0 (le_refl _) hpos (by simpa using hlt)]
  simp

/-- The loop passes over a run of successful inserts, adding up their counts,
and goes on with the rest from the state they leave. -/
theorem insertEach_append (E : Engine σ) {st st1 : State σ} {pre pre' : List Bean}
    {counts : List Int} (h : Inserted E st pre counts st1 pre') (affected : Int)
    (rest : List Bean) :
    insertEach E st affected (pre ++ rest)
      = ((insertEach E st1 (counts.foldl (fun a c => wrap64 (a + c)) affected) rest).1,
         (insertEach E st1 (counts.foldl (fun a c => wrap64 (a + c)) affected) rest).2.1,
         pre' ++ (insertEach E st1 (counts.foldl (fun a c => wrap64 (a + c)) affected) rest).2.2) := by
  induction h generalizing affected with
  | nil st => simp
  | cons hone _ ih =>
    simp only [List.cons_append, insertEach, hone, List.foldl_cons, List.append_eq]
    rw [ih]

end TopLemmas
/-! ### Agreement of the two plans -/

section AgreeLemmas
variable {σ : Type}

theorem plans_agree_loop (E : Engine σ) (s : Statement) (first row : Bean) (db0 : σ)
    (hclock : ∀ (db db' : σ) (col : Column), (E.nowTime db col).1.1 = (E.nowTime db' col).1.1)
    (cs : List Column)
    (hfirst : ∀ col ∈ cs, ∃ w, valueOf col first = .ok w)
    (hrow : ∀ col ∈ cs, ∃ v, valueOf col row = .ok v)
    (hexpr : ∀ col ∈ cs, E.isColExist s.incrColumns col.Name = false ∧
      E.isColExist s.decrColumns col.Name = false ∧
      E.isColExist s.exprColumns col.Name = false)
    (hskip : ∀ col ∈ cs, ∀ v w, valueOf col row = .ok v → valueOf col first = .ok w →
      ((col.IsAutoIncrement || col.IsRandomID) && isZeroOfKind v)
        = (col.IsAutoIncrement && E.isZero w))
    (hnull : ∀ col ∈ cs, ∀ v, valueOf col row = .ok v → nullableSubst E s col v = v)
    (hconv : ∀ col ∈ cs, ∀ v, valueOf col row = .ok v →
      ∃ arg, E.value2Interface col v = .ok arg) :
    ∃ (sel : List Column) (bound : List GoValue),
      (∀ acc, multiColumns E s first cs acc = .ok (acc ++ sel)) ∧
      (∀ (st : State σ) (names : List String) (args : List GoValue),
        st.session.statement = s →
        ∃ st', genInsertColumnsLoop E row cs names args st
            = ((names ++ sel.map (fun c => c.Name), args ++ bound, none), st') ∧
          st'.session.statement = s ∧ st'.log = st.log) ∧
      (∀ (st : State σ) (args : List GoValue) (places : List String),
        st.session.statement = s →
        ∃ st', multiRowArgs E row sel args places st
            = (.ok (args ++ bound, places ++ List.replicate sel.length "?"), st') ∧
          st'.session.statement = s ∧ st'.log = st.log) := by
  induction cs with
  | nil =>
    refine ⟨[], [], ?_, ?_, ?_⟩
    · intro acc; simp [multiColumns]
    · intro st names args hs
      exact ⟨st, by simp [genInsertColumnsLoop], hs, rfl⟩
    · intro st args places hs
      exact ⟨st, by simp [multiRowArgs], hs, rfl⟩
  | cons col cs ih =>
    obtain ⟨sel, bound, ihM, ihI, ihR⟩ := ih
      (fun c hc => hfirst c (List.mem_cons_of_mem _ hc))
      (fun c hc => hrow c (List.mem_cons_of_mem _ hc))
      (fun c hc => hexpr c (List.mem_cons_of_mem _ hc))
      (fun c hc => hskip c (List.mem_cons_of_mem _ hc))
      (fun c hc => hnull c (List.mem_cons_of_mem _ hc))
      (fun c hc => hconv c (List.mem_cons_of_mem _ hc))
    obtain ⟨w, hw⟩ := hfirst col (by simp)
    obtain ⟨v, hv⟩ := hrow col (by simp)
    obtain ⟨he1, he2, he3⟩ := hexpr col (by simp)
    have hsk := hskip col (by simp) v w hv hw
    have hnl := hnull col (by simp) v hv
    obtain ⟨carg, hcarg⟩ := hconv col (by simp) v hv
    have hexcl : excludedByStatement E s col
        = (E.contain s.omitColumnMap col.Name
            || (decide (s.columnMap.length > 0) && !E.contain s.columnMap col.Name)) := by
      simp [excludedByStatement, he1, he2, he3]
    by_cases hkeep : (col.IsAutoIncrement && E.isZero w) = false ∧ col.IsDeleted = false ∧
        E.contain s.omitColumnMap col.Name = false ∧
        (decide (s.columnMap.length > 0) && !E.contain s.columnMap col.Name) = false
    · obtain ⟨k1, k2, k3, k4⟩ := hkeep
      have hexcl' : excludedByStatement E s col = false := by rw [hexcl, k3, k4]; rfl
      have hzero : ((col.IsAutoIncrement || col.IsRandomID) && isZeroOfKind v) = false := by
        rw [hsk, k1]
      by_cases ht : bindsTime s col = true
      · have ht' : ((col.IsCreated || col.IsUpdated) && s.UseAutoTime) = true := ht
        refine ⟨col :: sel, (E.nowTime db0 col).1.1 :: bound, ?_, ?_, ?_⟩
        · intro acc
          simp only [multiColumns, hw, k1, k2, k3, k4, Bool.false_eq_true, if_false]
          rw [ihM]; simp
        · intro st names args hs
          subst hs
          have hstep : ∃ st2 : State σ, st2.session.statement = st.session.statement ∧
              st2.log = st.log ∧
              genInsertColumnsLoop E row (col :: cs) names args st
                = genInsertColumnsLoop E row cs (names ++ [col.Name])
                    (args ++ [(E.nowTime st.db col).1.1]) st2 := by
            refine ⟨({ st with session := { st.session with afterClosures := st.session.afterClosures ++
                [Closure.setColumnTime st.session.statement.RefTable col.Name
                  (E.nowTime st.db col).1.2] }, db := (E.nowTime st.db col).2 } : State σ), rfl, rfl, ?_⟩
            simp only [genInsertColumnsLoop, k2, hexcl', hv, hzero, ht', Bool.false_eq_true,
              if_false, if_true]
          obtain ⟨st2, e1, e2, e3⟩ := hstep
          obtain ⟨st', h1, h2, h3⟩ := ihI st2 (names ++ [col.Name])
            (args ++ [(E.nowTime st.db col).1.1]) e1
          refine ⟨st', ?_, h2, h3.trans e2⟩
          rw [e3, h1, hclock st.db db0]
          simp
        · intro st args places hs
          subst hs
          have hstep : ∃ st2 : State σ, st2.session.statement = st.session.statement ∧
              st2.log = st.log ∧
              multiRowArgs E row (col :: sel) args places st
                = multiRowArgs E row sel (args ++ [(E.nowTime st.db col).1.1])
                    (places ++ ["?"]) st2 := by
            refine ⟨({ st with session := { st.session with afterClosures := st.session.afterClosures ++
                [Closure.setColumnTime st.session.statement.RefTable col.Name
                  (E.nowTime st.db col).1.2] }, db := (E.nowTime st.db col).2 } : State σ), rfl, rfl, ?_⟩
            simp only [multiRowArgs, hv, ht', if_true]
          obtain ⟨st2, e1, e2, e3⟩ := hstep
          obtain ⟨st', h1, h2, h3⟩ := ihR st2 (args ++ [(E.nowTime st.db col).1.1])
            (places ++ ["?"]) e1
          refine ⟨st', ?_, h2, h3.trans e2⟩
          rw [e3, h1, hclock st.db db0]
          simp [List.replicate_succ]
      · have ht' : ((col.IsCreated || col.IsUpdated) && s.UseAutoTime) = false := by
          simpa [bindsTime] using ht
        by_cases hver : (col.IsVersion && s.checkVersion) = true
        · refine ⟨col :: sel, GoValue.int 1 :: bound, ?_, ?_, ?_⟩
          · intro acc
            simp only [multiColumns, hw, k1, k2, k3, k4, Bool.false_eq_true, if_false]
            rw [ihM]; simp
          · intro st names args hs
            subst hs
            obtain ⟨st', h1, h2, h3⟩ := ihI st (names ++ [col.Name]) (args ++ [GoValue.int 1]) rfl
            refine ⟨st', ?_, h2, h3⟩
            have hstep : genInsertColumnsLoop E row (col :: cs) names args st
                = genInsertColumnsLoop E row cs (names ++ [col.Name])
                    (args ++ [GoValue.int 1]) st := by
              simp only [genInsertColumnsLoop, k2, hexcl', hv, hzero, ht', hver,
                Bool.false_eq_true, if_false, if_true]
            rw [hstep, h1]
            simp
          · intro st args places hs
            subst hs
            have hstep : ∃ st2 : State σ, st2.session.statement = st.session.statement ∧
                st2.log = st.log ∧
                multiRowArgs E row (col :: sel) args places st
                  = multiRowArgs E row sel (args ++ [GoValue.int 1]) (places ++ ["?"]) st2 := by
              refine ⟨({ st with session := { st.session with afterClosures := st.session.afterClosures ++
                [Closure.setColumnInt st.session.statement.RefTable col.Name 1] } } : State σ), rfl, rfl, ?_⟩
              simp only [multiRowArgs, hv, ht', hver, Bool.false_eq_true, if_false, if_true]
            obtain ⟨st2, e1, e2, e3⟩ := hstep
            obtain ⟨st', h1, h2, h3⟩ := ihR st2 (args ++ [GoValue.int 1]) (places ++ ["?"]) e1
            refine ⟨st', ?_, h2, h3.trans e2⟩
            rw [e3, h1]
            simp [List.replicate_succ]
        · have hver' : (col.IsVersion && s.checkVersion) = false := by simpa using hver
          refine ⟨col :: sel, carg :: bound, ?_, ?_, ?_⟩
          · intro acc
            simp only [multiColumns, hw, k1, k2, k3, k4, Bool.false_eq_true, if_false]
            rw [ihM]; simp
          · intro st names args hs
            subst hs
            obtain ⟨st', h1, h2, h3⟩ := ihI st (names ++ [col.Name]) (args ++ [carg]) rfl
            refine ⟨st', ?_, h2, h3⟩
            have hstep : genInsertColumnsLoop E row (col :: cs) names args st
                = genInsertColumnsLoop E row cs (names ++ [col.Name]) (args ++ [carg]) st := by
              simp only [genInsertColumnsLoop, k2, hexcl', hv, hzero, ht', hver', hnl, hcarg,
                Bool.false_eq_true, if_false]
            rw [hstep, h1]
            simp
          · intro st args places hs
            subst hs
            obtain ⟨st', h1, h2, h3⟩ := ihR st (args ++ [carg]) (places ++ ["?"]) rfl
            refine ⟨st', ?_, h2, h3⟩
            have hstep : multiRowArgs E row (col :: sel) args places st
                = multiRowArgs E row sel (args ++ [carg]) (places ++ ["?"]) st := by
              simp only [multiRowArgs, hv, ht', hver', hcarg, Bool.false_eq_true, if_false]
            rw [hstep, h1]
            simp [List.replicate_succ]
    · refine ⟨sel, bound, ?_, ?_, ihR⟩
      · intro acc
        have : multiColumns E s first (col :: cs) acc = multiColumns E s first cs acc := by
          simp only [multiColumns, hw]
          by_cases k1 : (col.IsAutoIncrement && E.isZero w) = true
          · simp [k1]
          · by_cases k2 : col.IsDeleted = true
            · simp [k1, k2]
            · by_cases k3 : E.contain s.omitColumnMap col.Name = true
              · simp [k1, k2, k3]
              · by_cases k4 : (decide (s.columnMap.length > 0)
                    && !E.contain s.columnMap col.Name) = true
                · simp [k1, k2, k3, k4]
                · exact absurd ⟨by simpa using k1, by simpa using k2, by simpa using k3,
                    by simpa using k4⟩ hkeep
        rw [this, ihM]
      · intro st names args hs
        subst hs
        obtain ⟨st', h1, h2, h3⟩ := ihI st names args rfl
        refine ⟨st', ?_, h2, h3⟩
        rw [← h1]
        simp only [genInsertColumnsLoop, hv]
        by_cases k2 : col.IsDeleted = true
        · simp [k2]
        · by_cases kx : excludedByStatement E st.session.statement col = true
          · simp [k2, kx]
          · by_cases kz : ((col.IsAutoIncrement || col.IsRandomID) && isZeroOfKind v) = true
            · simp [k2, kx, kz]
            · rw [hexcl] at kx
              rw [hsk] at kz
              exfalso
              apply hkeep
              refine ⟨by simpa using kz, by simpa using k2, ?_, ?_⟩
              · cases h : E.contain st.session.statement.omitColumnMap col.Name
                · rfl
                · simp [h] at kx
              · cases h : (decide (st.session.statement.columnMap.length > 0)
                    && !E.contain st.session.statement.columnMap col.Name)
                · rfl
                · simp [h] at kx

end AgreeLemmas

section AgreeLemmas2
variable {σ : Type}

/-- The identifier-assignment step hands the plan on unchanged when no
identifier has to be generated: no sequence applies or its column is already
in the plan, and no random-ID column is configured or it is already in the
plan. -/
theorem assignID_noop (E : Engine σ) (st : State σ) (table : Table) (bean : Bean)
    (names : List String) (args : List GoValue)
    (hseq : table.AutoIncrement = "" ∨ E.sequenceGenerator = none ∨
      names.contains table.AutoIncrement = true)
    (hrand : table.RandomID = "" ∨ names.contains table.RandomID = true) :
    assignID E st table bean names args = (.inr ⟨names, args, bean⟩, st) := by
  unfold assignID
  dsimp only
  split
  · rename_i next hnext
    rcases hseq with h | h | h
    · simp [h] at hnext
    · simp [h] at hnext
    · have hm : table.AutoIncrement ∈ names := by simpa using h
      simp [hm]
  · rcases hrand with h | h
    · simp [h]
    · have hm : table.RandomID ∈ names := by simpa using h
      simp [hm]

theorem Inserted_length (E : Engine σ) {st st1 : State σ} {rows rows' : List Bean}
    {counts : List Int} (h : Inserted E st rows counts st1 rows') :
    counts.length = rows.length := by
  induction h with
  | nil st => rfl
  | cons _ _ ih => simp [ih]

theorem sum_of_ones (counts : List Int) (h : ∀ c ∈ counts, c = 1) :
    counts.sum = counts.length := by
  induction counts with
  | nil => simp
  | cons c cs ih =>
    have hc : c = 1 := h c (by simp)
    have hcs := ih (fun x hx => h x (List.mem_cons_of_mem _ hx))
    simp [hc, hcs]
    ring

end AgreeLemmas2
/-! ### Identifier write-back -/

section IdLemmas
variable {σ : Type}

theorem lookup_map_set_same (k : String) (v : GoValue) (l : List (String × GoValue)) :
    (l.map (fun p => if p.1 = k then (p.1, v) else p)).lookup k
      = (l.lookup k).map (fun _ => v) := by
  induction l with
  | nil => rfl
  | cons p l ih =>
    obtain ⟨a, b⟩ := p
    rw [List.map_cons]
    by_cases h : a = k
    · have e : (if (a, b).1 = k then ((a, b).1, v) else (a, b)) = (a, v) := if_pos h
      rw [e, h, List.lookup_cons, List.lookup_cons, beq_self_eq_true]
      rfl
    · have e : (if (a, b).1 = k then ((a, b).1, v) else (a, b)) = (a, b) := if_neg h
      have hk : (k == a) = false := by
        simp only [beq_eq_false_iff_ne, ne_eq]
        exact fun e => h e.symm
      rw [e, List.lookup_cons, List.lookup_cons, hk]
      exact ih

theorem lookup_map_set_other (k name : String) (v : GoValue) (hne : name ≠ k)
    (l : List (String × GoValue)) :
    (l.map (fun p => if p.1 = name then (p.1, v) else p)).lookup k = l.lookup k := by
  induction l with
  | nil => rfl
  | cons p l ih =>
    obtain ⟨a, b⟩ := p
    rw [List.map_cons]
    by_cases h : a = name
    · have e : (if (a, b).1 = name then ((a, b).1, v) else (a, b)) = (a, v) := if_pos h
      have hk : (k == a) = false := by
        simp only [beq_eq_false_iff_ne, ne_eq]
        exact fun e => hne (h ▸ e.symm)
      rw [e, List.lookup_cons, List.lookup_cons, hk]
      exact ih
    · have e : (if (a, b).1 = name then ((a, b).1, v) else (a, b)) = (a, b) := if_neg h
      rw [e, List.lookup_cons, List.lookup_cons, ih]

theorem valueOf_setField_same (col : Column) (v old : GoValue) (bean : Bean)
    (h : valueOf col bean = .ok old) : valueOf col (setField col.Name v bean) = .ok v := by
  unfold valueOf at h ⊢
  unfold setField
  dsimp only
  rw [lookup_map_set_same]
  cases hl : bean.fields.lookup col.Name with
  | none => rw [hl] at h; cases h
  | some w => rfl

theorem valueOf_setField_other (col : Column) (name : String) (v : GoValue) (bean : Bean)
    (h : name ≠ col.Name) : valueOf col (setField name v bean) = valueOf col bean := by
  unfold valueOf setField
  dsimp only
  rw [lookup_map_set_other _ _ _ h]

theorem valueOf_congr (c c' : Column) (h : c.Name = c'.Name) (bean : Bean) :
    valueOf c bean = valueOf c' bean := by
  unfold valueOf
  rw [h]

theorem runClosures_valueOf (E : Engine σ) (col : Column) (closures : List Closure)
    (hhook : ∀ c ∈ closures, ∀ b, valueOf col (E.applyClosure c b) = valueOf col b) :
    ∀ bean, valueOf col (runClosures E closures bean) = valueOf col bean := by
  induction closures with
  | nil => intro bean; rfl
  | cons c cs ih =>
    intro bean
    have ih' := ih (fun c' hc' => hhook c' (List.mem_cons_of_mem _ hc'))
    unfold runClosures at ih' ⊢
    rw [List.foldl_cons, ih', hhook c (List.mem_cons_self _ _)]

theorem callBeforeInsert_valueOf (E : Engine σ) (col : Column)
    (hbi : ∀ b b', E.BeforeInsert b = some b' → valueOf col b' = valueOf col b) (bean : Bean) :
    valueOf col (callBeforeInsert E bean) = valueOf col bean := by
  unfold callBeforeInsert
  split
  · rename_i b' h
    exact hbi _ _ h
  · rfl

theorem callAfterInsert_valueOf (E : Engine σ) (col : Column)
    (hai : ∀ b b', E.AfterInsert b = some b' → valueOf col b' = valueOf col b) (bean : Bean) :
    valueOf col (callAfterInsert E bean) = valueOf col bean := by
  unfold callAfterInsert
  split
  · rename_i b' h
    exact hai _ _ h
  · rfl

theorem incrVersion_valueOf (E : Engine σ) (s : Statement) (table : Table) (col : Column)
    (hver : ∀ vcol, E.GetColumn table table.Version = some vcol → vcol.Name ≠ col.Name)
    (bean bean2 : Bean) (h : incrVersion E s table bean = some bean2) :
    valueOf col bean2 = valueOf col bean := by
  unfold incrVersion at h
  split at h
  · split at h
    · cases h
    · rename_i vcol hv
      split at h
      · cases h; rfl
      · split at h
        · cases h
          exact valueOf_setField_other col vcol.Name _ bean (hver vcol hv)
        · cases h; rfl
  · cases h; rfl

theorem recordAfterInsert_statement (E : Engine σ) (session : Session) (bean : Bean) :
    (recordAfterInsert E session bean).statement = session.statement := by
  unfold recordAfterInsert
  dsimp only
  split
  · split <;> rfl
  · split <;> rfl

theorem handleAfter_spec (E : Engine σ) (col : Column) (st : State σ)
    (hhook : ∀ c ∈ st.session.afterClosures, ∀ b,
      valueOf col (E.applyClosure c b) = valueOf col b)
    (hai : ∀ b b', E.AfterInsert b = some b' → valueOf col b' = valueOf col b)
    (bean : Bean) :
    valueOf col (handleAfterInsertProcessorFunc E st bean).2 = valueOf col bean ∧
    (handleAfterInsertProcessorFunc E st bean).1.log = st.log ∧
    (handleAfterInsertProcessorFunc E st bean).1.session.statement = st.session.statement := by
  unfold handleAfterInsertProcessorFunc
  dsimp only
  split
  · refine ⟨?_, rfl, rfl⟩
    rw [callAfterInsert_valueOf E col hai, runClosures_valueOf E col _ hhook]
  · exact ⟨rfl, rfl, recordAfterInsert_statement E _ _⟩

theorem genInsertColumnsLoop_log (E : Engine σ) (bean : Bean) (cols : List Column) :
    ∀ (colNames : List String) (args : List GoValue) (st : State σ),
      (genInsertColumnsLoop E bean cols colNames args st).2.log = st.log := by
  induction cols with
  | nil => intro colNames args st; rfl
  | cons col cols ih =>
    intro colNames args st
    unfold genInsertColumnsLoop
    split
    · exact ih _ _ _
    · split
      · exact ih _ _ _
      · split
        · rfl
        · split
          · exact ih _ _ _
          · dsimp only
            split
            · rw [ih]
            · split
              · exact ih _ _ _
              · split
                · rfl
                · exact ih _ _ _

theorem handleAfter_session (E : Engine σ) (st : State σ) (bean : Bean) :
    (handleAfterInsertProcessorFunc E st bean).1.session.beforeClosures
        = st.session.beforeClosures ∧
      (handleAfterInsertProcessorFunc E st bean).1.session.afterClosures = [] := by
  unfold handleAfterInsertProcessorFunc
  dsimp only
  refine ⟨?_, rfl⟩
  split
  · rfl
  · unfold recordAfterInsert
    dsimp only
    split
    · split <;> rfl
    · split <;> rfl

theorem genInsertColumnsLoop_before (E : Engine σ) (bean : Bean) (cols : List Column) :
    ∀ (colNames : List String) (args : List GoValue) (st : State σ),
      (genInsertColumnsLoop E bean cols colNames args st).2.session.beforeClosures
        = st.session.beforeClosures := by
  induction cols with
  | nil => intro colNames args st; rfl
  | cons col cols ih =>
    intro colNames args st
    unfold genInsertColumnsLoop
    split
    · exact ih _ _ _
    · split
      · exact ih _ _ _
      · split
        · rfl
        · split
          · exact ih _ _ _
          · dsimp only
            split
            · rw [ih]
            · split
              · exact ih _ _ _
              · split
                · rfl
                · exact ih _ _ _

/-- Every after-closure in the queue when the column loop ends was there
before or is the time closure of a column that the loop did not skip. -/
theorem genInsertColumnsLoop_after (E : Engine σ) (bean : Bean) (P : Closure → Prop)
    (cols : List Column)
    (hnew : ∀ col ∈ cols, ∀ v, valueOf col bean = .ok v →
      ((col.IsAutoIncrement || col.IsRandomID) && isZeroOfKind v) = false →
      ∀ table t, P (Closure.setColumnTime table col.Name t)) :
    ∀ (colNames : List String) (args : List GoValue) (st : State σ),
      (∀ c ∈ st.session.afterClosures, P c) →
      ∀ c ∈ (genInsertColumnsLoop E bean cols colNames args st).2.session.afterClosures, P c := by
  induction cols with
  | nil => intro colNames args st h; exact h
  | cons col cols ih =>
    intro colNames args st h
    have ih' := ih (fun c hc => hnew c (List.mem_cons_of_mem _ hc))
    unfold genInsertColumnsLoop
    split
    · exact ih' _ _ _ h
    · split
      · exact ih' _ _ _ h
      · split
        · exact h
        · rename_i v hv
          split
          · exact ih' _ _ _ h
          · rename_i hskip
            dsimp only
            split
            · apply ih'
              intro c hc
              rcases List.mem_append.1 hc with h1 | h1
              · exact h c h1
              · rw [List.mem_singleton] at h1
                rw [h1]
                exact hnew col (List.mem_cons_self _ _) v hv (by simpa using hskip) _ _
            · split
              · exact ih' _ _ _ h
              · split
                · exact h
                · exact ih' _ _ _ h

end IdLemmas
section IdLemmas2
variable {σ : Type}

/-- An identifier column whose field is zero is not among the columns that
`genInsertColumns` selects. -/
theorem zero_id_not_in_plan (E : Engine σ) (st : State σ) (bean0 : Bean) (col : Column)
    (old : GoValue) (names : List String) (args : List GoValue) (st2 : State σ)
    (hflag : ∀ c ∈ st.session.statement.RefTable.columns, c.Name = col.Name →
      (c.IsAutoIncrement || c.IsRandomID) = true)
    (hold : valueOf col bean0 = .ok old) (hzero : isZeroOfKind old = true)
    (hgen : genInsertColumns E st bean0 = ((names, args, none), st2)) :
    col.Name ∉ names := by
  unfold genInsertColumns at hgen
  obtain ⟨_, sel, hsub, hn, _, hb⟩ := genInsertColumnsLoop_spec E bean0 _ _ _ _ _ _ _ hgen
  intro hmem
  rw [hn] at hmem
  simp only [List.nil_append, List.mem_map] at hmem
  obtain ⟨p, hp, hpn⟩ := hmem
  have hin : p.1 ∈ st.session.statement.RefTable.columns :=
    hsub.subset (List.mem_map_of_mem Prod.fst hp)
  have hr := hflag p.1 hin hpn
  obtain ⟨_, _, fv, hfv, hskip, _⟩ := hb p hp
  rw [valueOf_congr p.1 col hpn, hold] at hfv
  cases hfv
  rw [hr, hzero] at hskip
  simp at hskip

/-- The identifier step on a table that uses the random-ID strategy only, when
the identifier column is not in the plan and its field can be read. -/
theorem assignID_random (E : Engine σ) (st : State σ) (table : Table) (bean : Bean)
    (names : List String) (args : List GoValue) (col : Column) (old : GoValue)
    (hauto : table.AutoIncrement = "") (hrand : table.RandomID ≠ "")
    (hcol : E.GetColumn table table.RandomID = some col)
    (hnot : table.RandomID ∉ names)
    (hold : valueOf col bean = .ok old) :
    assignID E st table bean names args
      = if !bean.canSet then
          (.inl (.ret 0 (some (Error.msg "failed to set snowflake ID to bean: <nil>"))),
            { st with db := (E.randomIDGen st.db).2,
                      log := st.log ++ [Event.randomID (E.randomIDGen st.db).1] })
        else
          (.inr ⟨names ++ [table.RandomID], args ++ [GoValue.int (E.randomIDGen st.db).1],
              setField col.Name (E.int64ToIntValue (E.randomIDGen st.db).1 old) bean⟩,
            { st with db := (E.randomIDGen st.db).2,
                      log := st.log ++ [Event.randomID (E.randomIDGen st.db).1] }) := by
  have hc : names.contains table.RandomID = false := by
    cases hx : names.contains table.RandomID with
    | false => rfl
    | true => exact absurd (by simpa using hx) hnot
  unfold assignID
  simp only [hauto, ne_eq, not_true_eq_false, if_false, hrand, not_false_eq_true, if_true,
    hc, Bool.not_false, hcol, hold]

/-- The time closures that the column loop registers spare an identifier
column whose field is zero. -/
theorem zero_id_closures_spare (E : Engine σ) (s : Statement) (bean0 : Bean) (col : Column)
    (old : GoValue)
    (hflag : ∀ c ∈ s.RefTable.columns, c.Name = col.Name →
      (c.IsAutoIncrement || c.IsRandomID) = true)
    (hspare : HooksSpare E col)
    (hold : valueOf col bean0 = .ok old) (hzero : isZeroOfKind old = true) :
    ∀ col' ∈ s.RefTable.columns, ∀ v, valueOf col' bean0 = .ok v →
      ((col'.IsAutoIncrement || col'.IsRandomID) && isZeroOfKind v) = false →
      ∀ table t, ∀ b,
        valueOf col (E.applyClosure (Closure.setColumnTime table col'.Name t) b)
          = valueOf col b := by
  intro col' hcol' v hv hskip table t b
  refine (hspare.1 _ b ?_).1
  intro heq
  have hn : col'.Name = col.Name := by
    simpa [closureColumn] using heq
  have hf := hflag col' hcol' hn
  rw [valueOf_congr col' col hn, hold] at hv
  cases hv
  rw [hf, hzero] at hskip
  simp at hskip

/-- A successful run of the execution part on a table without auto-increment
column: after one `exec`, which leaves the session alone, the version block
went through and the after-insert handling ran on its result. -/
theorem execInsert_plain (E : Engine σ) (st : State σ) (table : Table) (bean : Bean)
    (sqlStr : String) (args : List GoValue) (cnt : Int) (st' : State σ) (bean' : Bean)
    (hauto : table.AutoIncrement = "")
    (hok : execInsert E st table bean sqlStr args = (.ret cnt none, st', bean')) :
    ∃ bean2 stq, stq.session = st.session ∧ stq.log = st.log ++ [Event.exec sqlStr args] ∧
      incrVersion E st.session.statement table bean = some bean2 ∧
      st' = (handleAfterInsertProcessorFunc E stq bean2).1 ∧
      bean' = (handleAfterInsertProcessorFunc E stq bean2).2 := by
  unfold execInsert at hok
  simp only [hauto, ne_eq, not_true_eq_false, and_false, false_and, if_false] at hok
  split at hok
  · simp at hok
  · rename_i res hres
    unfold afterExec at hok
    have hst : (st.exec E sqlStr args).2.session.statement = st.session.statement := rfl
    rw [hst] at hok
    split at hok
    · simp [deferred] at hok
    · rename_i bean2 hb
      simp only [hauto, if_true, deferred, Prod.mk.injEq] at hok
      exact ⟨bean2, (st.exec E sqlStr args).2, rfl, rfl, hb, hok.2.1.symm, hok.2.2.symm⟩

end IdLemmas2
section IdRow
variable {σ : Type}

/-- One successful single-record insert on a table that uses the random-ID
strategy, of a record whose identifier field is zero: exactly one identifier is
drawn and the field holds it afterwards; the statement is kept and both
closure queues are empty afterwards. -/
theorem innerInsert_random_id (E : Engine σ) (s : Statement) (col : Column)
    (hset : ∀ b, E.setRefBean s b = .ok s)
    (hauto : s.RefTable.AutoIncrement = "")
    (hrand : s.RefTable.RandomID ≠ "")
    (hcol : E.GetColumn s.RefTable s.RefTable.RandomID = some col)
    (hname : col.Name = s.RefTable.RandomID)
    (hflag : ∀ c ∈ s.RefTable.columns, c.Name = col.Name →
      (c.IsAutoIncrement || c.IsRandomID) = true)
    (hver : ∀ vcol, E.GetColumn s.RefTable s.RefTable.Version = some vcol →
      vcol.Name ≠ col.Name)
    (hspare : HooksSpare E col)
    (st : State σ) (bean : Bean) (old : GoValue) (cnt : Int) (st' : State σ) (bean' : Bean)
    (hs : st.session.statement = s)
    (hreg : ∀ c ∈ st.session.beforeClosures ++ st.session.afterClosures,
      closureColumn c ≠ some col.Name)
    (hold : valueOf col bean = .ok old) (hzero : isZeroOfKind old = true)
    (hok : innerInsert E st bean = (.ret cnt none, st', bean')) :
    st'.session.statement = s ∧ st'.session.beforeClosures = [] ∧
    st'.session.afterClosures = [] ∧
    ∃ id, randomIDs st'.log = randomIDs st.log ++ [id] ∧
      valueOf col bean' = .ok (E.int64ToIntValue id old) := by
  obtain ⟨hclosure, hbefore, hafter⟩ := hspare
  unfold innerInsert at hok
  rw [hs, hset bean] at hok
  dsimp only at hok
  split at hok
  · simp at hok
  · split at hok
    · simp at hok
    · rename_i names args st2 hgen
      have hold0 : valueOf col
          (callBeforeInsert E (runClosures E st.session.beforeClosures bean)) = .ok old := by
        rw [callBeforeInsert_valueOf E col (fun b b' h => (hbefore b b' h).1),
          runClosures_valueOf E col _
            (fun c hc b => (hclosure c b (hreg c (List.mem_append_left _ hc))).1), hold]
      have hst2 := (genInsertColumnsLoop_spec E _ _ _ _ _ _ _ _ hgen).1
      have hlog2 : st2.log = st.log := by
        have h := congrArg (fun r => r.2.log) hgen
        dsimp only at h
        rw [← h]
        exact genInsertColumnsLoop_log E _ _ _ _ _
      have hbefore2 : st2.session.beforeClosures = [] := by
        have h := congrArg (fun r => r.2.session.beforeClosures) hgen
        dsimp only at h
        rw [← h]
        exact genInsertColumnsLoop_before E _ _ _ _ _
      have hafter2 : ∀ c ∈ st2.session.afterClosures, ∀ b,
          valueOf col (E.applyClosure c b) = valueOf col b := by
        have h := congrArg (fun r => r.2.session.afterClosures) hgen
        dsimp only at h
        rw [← h]
        exact genInsertColumnsLoop_after E _
          (fun c => ∀ b, valueOf col (E.applyClosure c b) = valueOf col b) s.RefTable.columns
          (zero_id_closures_spare E s _ col old hflag ⟨hclosure, hbefore, hafter⟩ hold0 hzero)
          _ _ _ (fun c hc b => (hclosure c b (hreg c (List.mem_append_right _ hc))).1)
      have hnot : s.RefTable.RandomID ∉ names := by
        rw [← hname]
        exact zero_id_not_in_plan E _ _ col old names args st2 hflag hold0 hzero hgen
      rw [assignID_random E st2 s.RefTable _ names args col old hauto hrand hcol hnot hold0]
        at hok
      cases hcs : (callBeforeInsert E (runClosures E st.session.beforeClosures bean)).canSet with
      | false => simp [hcs] at hok
      | true =>
        simp only [hcs, Bool.not_true, Bool.false_eq_true, if_false] at hok
        split at hok
        · simp at hok
        · rename_i sqlStr args2 hbuild
          obtain ⟨bean2, stq, hsess, hlogq, hb2, hst', hbean'⟩ :=
            execInsert_plain E _ s.RefTable _ sqlStr args2 cnt st' bean' hauto hok
          have hsess2 : stq.session = st2.session := hsess
          have hv2 := incrVersion_valueOf E _ s.RefTable col hver _ bean2 hb2
          have hh := handleAfter_spec E col stq (by rw [hsess2]; exact hafter2) hafter bean2
          have hq := handleAfter_session E stq bean2
          refine ⟨?_, ?_, ?_, (E.randomIDGen st2.db).1, ?_, ?_⟩
          · rw [hst', hh.2.2, hsess2]
            exact hst2
          · rw [hst', hq.1, hsess2]
            exact hbefore2
          · rw [hst']
            exact hq.2
          · rw [hst', hh.2.1, hlogq]
            show randomIDs ((st2.log ++ [Event.randomID (E.randomIDGen st2.db).1])
              ++ [Event.exec sqlStr args2]) = _
            rw [hlog2]
            simp [randomIDs, List.filterMap_append]
          · rw [hbean', hh.1, hv2]
            exact valueOf_setField_same col _ old _ hold0

end IdRow
section IdBatch
variable {σ : Type}

theorem endInsert_log (E : Engine σ) (isAutoClose : Bool) (st : State σ) :
    (endInsert E isAutoClose st).log = st.log := by
  unfold endInsert
  dsimp only
  split <;> rfl

/-- A run of the element loop that returns without error is a run of successful
single-record inserts. -/
theorem insertEach_inv (E : Engine σ) (rows : List Bean) :
    ∀ (st : State σ) (a n : Int) (st1 : State σ) (rows' : List Bean),
      insertEach E st a rows = (.ret n none, st1, rows') →
      ∃ counts, Inserted E st rows counts st1 rows' := by
  induction rows with
  | nil =>
    intro st a n st1 rows' h
    simp only [insertEach, Prod.mk.injEq] at h
    obtain ⟨_, h2, h3⟩ := h
    subst h2 h3
    exact ⟨[], Inserted.nil _⟩
  | cons bean rest ih =>
    intro st a n st1 rows' h
    unfold insertEach at h
    split at h
    · rename_i cnt st2 bean2 heq
      simp only [Prod.mk.injEq] at h
      obtain ⟨h1, h2, h3⟩ := h
      obtain ⟨counts, hc⟩ := ih st2 (wrap64 (a + cnt)) n st1
        (insertEach E st2 (wrap64 (a + cnt)) rest).2.2 (by rw [← h1, ← h2])
      subst h3
      exact ⟨cnt :: counts, Inserted.cons heq hc⟩
    · simp at h
    · simp at h

/-- A call of `Insert` with one argument, a single record or a slice of records
on a dialect without multi-row support, that returns without error is a run of
successful single-record inserts followed by the deferred calls. -/
theorem Insert_inv (E : Engine σ) (st : State σ) (arg arg' : InsertArg) (n : Int)
    (st' : State σ)
    (hshape : (∃ b, arg = .single b) ∨ ((∃ rows, arg = .slice rows) ∧ E.SupportInsertMany = false))
    (hok : Insert E st [arg] = (.ret n none, st', [arg'])) :
    ∃ counts st1, Inserted E (beginInsert st) (beansOf arg) counts st1 (beansOf arg') ∧
      st' = endInsert E st.session.isAutoClose st1 := by
  rcases hshape with ⟨b, hb⟩ | ⟨⟨rows, hr⟩, hmany⟩
  · subst hb
    simp only [Insert, insertArgs, insertArg] at hok
    cases hin : innerInsert E (beginInsert st) b with
    | mk out rest =>
      obtain ⟨st1, b'⟩ := rest
      rw [hin] at hok
      cases out with
      | panic what => simp at hok
      | ret cnt err =>
        cases err with
        | some e => simp at hok
        | none =>
          simp only [Prod.mk.injEq, List.cons.injEq, and_true] at hok
          obtain ⟨_, h2, h3⟩ := hok
          subst h3
          exact ⟨[cnt], st1, Inserted.cons hin (Inserted.nil _), h2.symm⟩
  · subst hr
    simp only [Insert, insertArgs, insertArg, hmany, Bool.false_eq_true, if_false] at hok
    by_cases hlen : rows.length ≤ 0
    · simp [hlen] at hok
    · simp only [hlen, if_false] at hok
      cases hin : insertEach E (beginInsert st) 0 rows with
      | mk out rest =>
        obtain ⟨st1, rows'⟩ := rest
        rw [hin] at hok
        cases out with
        | panic what => simp at hok
        | ret cnt err =>
          cases err with
          | some e => simp at hok
          | none =>
            simp only [Prod.mk.injEq, List.cons.injEq, and_true] at hok
            obtain ⟨h1, h2, h3⟩ := hok
            subst h3
            obtain ⟨counts, hc⟩ := insertEach_inv E rows _ _ _ _ _ hin
            exact ⟨counts, st1, hc, h2.symm⟩

end IdBatch
section IdBatch2
variable {σ : Type}

/-- A run of successful single-record inserts of zero-identifier records on a
table that uses the random-ID strategy draws one identifier per record, in
order, and each record holds its identifier afterwards. -/
theorem Inserted_random_ids (E : Engine σ) (s : Statement) (col : Column)
    (hset : ∀ b, E.setRefBean s b = .ok s)
    (hauto : s.RefTable.AutoIncrement = "")
    (hrand : s.RefTable.RandomID ≠ "")
    (hcol : E.GetColumn s.RefTable s.RefTable.RandomID = some col)
    (hname : col.Name = s.RefTable.RandomID)
    (hflag : ∀ c ∈ s.RefTable.columns, c.Name = col.Name →
      (c.IsAutoIncrement || c.IsRandomID) = true)
    (hver : ∀ vcol, E.GetColumn s.RefTable s.RefTable.Version = some vcol →
      vcol.Name ≠ col.Name)
    (hspare : HooksSpare E col)
    {st st' : State σ} {rows rows' : List Bean} {counts : List Int}
    (hrun : Inserted E st rows counts st' rows') :
    st.session.statement = s →
    (∀ c ∈ st.session.beforeClosures ++ st.session.afterClosures,
      closureColumn c ≠ some col.Name) →
    (∀ b ∈ rows, ∃ old, valueOf col b = .ok old ∧ isZeroOfKind old = true) →
    ∃ ids : List Int, randomIDs st'.log = randomIDs st.log ++ ids ∧
      List.Forall₂ (fun b' id => ∃ old, valueOf col b' = .ok (E.int64ToIntValue id old))
        rows' ids := by
  induction hrun with
  | nil st => intro _ _ _; exact ⟨[], by simp, List.Forall₂.nil⟩
  | @cons st0 st1 st2 bean bean' cnt rest rest' counts0 hone _ ih =>
    intro hs hreg hz
    obtain ⟨old, hold, hzero⟩ := hz bean (by simp)
    obtain ⟨hs1, hb1, ha1, id, hlog, hval⟩ := innerInsert_random_id E s col hset hauto hrand
      hcol hname hflag hver hspare st0 bean old cnt st1 bean' hs hreg hold hzero hone
    obtain ⟨ids, hlog2, hall⟩ := ih hs1 (by rw [hb1, ha1]; simp)
      (fun b hb => hz b (List.mem_cons_of_mem _ hb))
    refine ⟨id :: ids, ?_, List.Forall₂.cons ⟨old, hval⟩ hall⟩
    rw [hlog2, hlog]
    simp

/-- Records that hold pairwise distinct identifiers, converted without loss,
have pairwise distinct identifier fields. -/
theorem fields_nodup_of_ids (E : Engine σ) (col : Column)
    (hinj : ∀ id id' old old', E.int64ToIntValue id old = E.int64ToIntValue id' old' →
      id = id')
    {rows' : List Bean} {ids : List Int}
    (hall : List.Forall₂ (fun b' id => ∃ old, valueOf col b' = .ok (E.int64ToIntValue id old))
      rows' ids) :
    ids.Nodup → (rows'.map (fun b => valueOf col b)).Nodup := by
  induction hall with
  | nil => intro _; simp
  | @cons b id bs is hhead htail ih =>
    intro hnd
    rw [List.nodup_cons] at hnd
    rw [List.map_cons, List.nodup_cons]
    refine ⟨?_, ih hnd.2⟩
    intro hmem
    rw [List.mem_map] at hmem
    obtain ⟨b2, hb2, heq⟩ := hmem
    obtain ⟨id2, hid2, old2, hv2⟩ : ∃ id2 ∈ is, ∃ old2,
        valueOf col b2 = .ok (E.int64ToIntValue id2 old2) := by
      clear ih hnd heq
      induction htail with
      | nil => simp at hb2
      | @cons c j cs js hh _ ih2 =>
        rcases List.mem_cons.1 hb2 with h | h
        · subst h
          exact ⟨j, by simp, hh⟩
        · obtain ⟨j2, hj2, hr⟩ := ih2 h
          exact ⟨j2, List.mem_cons_of_mem _ hj2, hr⟩
    obtain ⟨old, hv⟩ := hhead
    rw [hv, hv2] at heq
    have hc : E.int64ToIntValue id2 old2 = E.int64ToIntValue id old := by
      injection heq
    have := hinj _ _ _ _ hc
    subst this
    exact hnd.1 hid2

end IdBatch2

section IdBatch3
variable {σ : Type}

theorem Inserted_beans_length (E : Engine σ) {st st1 : State σ} {rows rows' : List Bean}
    {counts : List Int} (h : Inserted E st rows counts st1 rows') :
    rows'.length = rows.length := by
  induction h with
  | nil st => rfl
  | cons _ _ ih => simp [ih]

theorem fields_nonzero_of_ids (E : Engine σ) (col : Column)
    (hconv : ∀ id old, id ≠ 0 → isZeroOfKind (E.int64ToIntValue id old) = false)
    {rows' : List Bean} {ids : List Int}
    (hall : List.Forall₂ (fun b' id => ∃ old, valueOf col b' = .ok (E.int64ToIntValue id old))
      rows' ids) :
    (∀ id ∈ ids, id ≠ 0) →
    ∀ b' ∈ rows', ∃ v, valueOf col b' = .ok v ∧ isZeroOfKind v = false := by
  induction hall with
  | nil => intro _ b hb; simp at hb
  | @cons b id bs is hhead _ ih =>
    intro hnz b' hb'
    rcases List.mem_cons.1 hb' with h | h
    · subst h
      obtain ⟨old, hv⟩ := hhead
      exact ⟨_, hv, hconv id old (hnz id (by simp))⟩
    · exact ih (fun i hi => hnz i (List.mem_cons_of_mem _ hi)) b' h

end IdBatch3
section IdNative
variable {σ : Type}

theorem handleAfter_db (E : Engine σ) (st : State σ) (bean : Bean) :
    (handleAfterInsertProcessorFunc E st bean).1.db = st.db := by
  unfold handleAfterInsertProcessorFunc
  rfl

theorem incrVersion_canSet (E : Engine σ) (s : Statement) (table : Table) (bean bean2 : Bean)
    (h : incrVersion E s table bean = some bean2) : bean2.canSet = bean.canSet := by
  unfold incrVersion at h
  split at h
  · split at h
    · cases h
    · split at h
      · cases h; rfl
      · split at h
        · cases h; rfl
        · cases h; rfl
  · cases h; rfl

theorem runClosures_canSet (E : Engine σ) (closures : List Closure)
    (hhook : ∀ c ∈ closures, ∀ b, (E.applyClosure c b).canSet = b.canSet) :
    ∀ bean, (runClosures E closures bean).canSet = bean.canSet := by
  induction closures with
  | nil => intro bean; rfl
  | cons c cs ih =>
    intro bean
    have ih' := ih (fun c' hc' => hhook c' (List.mem_cons_of_mem _ hc'))
    unfold runClosures at ih' ⊢
    rw [List.foldl_cons, ih', hhook c (List.mem_cons_self _ _)]

theorem callBeforeInsert_canSet (E : Engine σ)
    (hbi : ∀ b b', E.BeforeInsert b = some b' → b'.canSet = b.canSet) (bean : Bean) :
    (callBeforeInsert E bean).canSet = bean.canSet := by
  unfold callBeforeInsert
  split
  · rename_i b' h
    exact hbi _ _ h
  · rfl

theorem writeBackID_spec (E : Engine σ) (table : Table) (bean : Bean) (col : Column)
    (old : GoValue) (insertID rowsAffected : Int)
    (hcol : E.GetColumn table table.AutoIncrement = some col)
    (hold : valueOf col bean = .ok old) (hcan : bean.canSet = true) :
    writeBackID E table bean insertID rowsAffected
      = (.ret rowsAffected none, setField col.Name (E.int64ToIntValue insertID old) bean) := by
  unfold writeBackID
  simp only [hcol, hold, hcan, Bool.not_true, Bool.false_eq_true, if_false]

/-- A successful run of the continuation after `queryBytes`, when the first
returned row carries a positive key: the identifier field holds the key. -/
theorem afterQuery_inv (E : Engine σ) (stq : State σ) (table : Table) (bean : Bean)
    (res : List (List (String × String))) (noRows : String) (col : Column) (old : GoValue)
    (k cnt : Int) (st' : State σ) (bean' : Bean)
    (hcol : E.GetColumn table table.AutoIncrement = some col)
    (hver : ∀ vcol, E.GetColumn table table.Version = some vcol → vcol.Name ≠ col.Name)
    (hhook : ∀ c ∈ stq.session.afterClosures, ∀ b,
      valueOf col (E.applyClosure c b) = valueOf col b)
    (hai : ∀ b b', E.AfterInsert b = some b' → valueOf col b' = valueOf col b)
    (hold : valueOf col bean = .ok old) (hcan : bean.canSet = true)
    (hres : ∀ row rest, res = row :: rest →
      ParseInt ((row.lookup table.AutoIncrement).getD "") = .ok k ∧ 0 < k)
    (hok : afterQuery E stq table bean res noRows = (.ret cnt none, st', bean')) :
    valueOf col bean' = .ok (E.int64ToIntValue k old) ∧ st'.db = stq.db ∧
      st'.session.statement = stq.session.statement ∧
      st'.session.beforeClosures = stq.session.beforeClosures ∧
      st'.session.afterClosures = [] := by
  unfold afterQuery at hok
  split at hok
  · simp [deferred] at hok
  · rename_i bean2 hb2
    have hv2 := incrVersion_valueOf E _ table col hver _ bean2 hb2
    have hc2 := incrVersion_canSet E _ table _ bean2 hb2
    split at hok
    · simp [deferred] at hok
    · rename_i row rest
      obtain ⟨hp, hk⟩ := hres row rest rfl
      dsimp only at hok
      rw [hp] at hok
      dsimp only at hok
      rw [if_neg (not_le.2 hk),
        writeBackID_spec E table bean2 col old k 1 hcol (hv2.trans hold) (hc2.trans hcan)] at hok
      simp only [deferred, Prod.mk.injEq] at hok
      obtain ⟨_, h2, h3⟩ := hok
      have hh := fun b => handleAfter_spec E col stq hhook hai b
      have hq := fun b => handleAfter_session E stq b
      rw [← h2, ← h3]
      refine ⟨?_, handleAfter_db E stq _, (hh _).2.2, (hq _).1, (hq _).2⟩
      rw [(hh _).1]
      exact valueOf_setField_same col _ old _ (hv2.trans hold)

/-- A successful run of the continuation after `exec` on a table with an
auto-increment column, when the result carries a positive key: the identifier
field holds the key. -/
theorem afterExec_inv (E : Engine σ) (stq : State σ) (table : Table) (bean : Bean)
    (res : Result) (col : Column) (old : GoValue) (k cnt : Int) (st' : State σ) (bean' : Bean)
    (hauto : table.AutoIncrement ≠ "")
    (hcol : E.GetColumn table table.AutoIncrement = some col)
    (hver : ∀ vcol, E.GetColumn table table.Version = some vcol → vcol.Name ≠ col.Name)
    (hhook : ∀ c ∈ stq.session.afterClosures, ∀ b,
      valueOf col (E.applyClosure c b) = valueOf col b)
    (hai : ∀ b b', E.AfterInsert b = some b' → valueOf col b' = valueOf col b)
    (hold : valueOf col bean = .ok old) (hcan : bean.canSet = true)
    (hres : res.LastInsertId = (k, none) ∧ 0 < k)
    (hok : afterExec E stq table bean res = (.ret cnt none, st', bean')) :
    valueOf col bean' = .ok (E.int64ToIntValue k old) ∧ st'.db = stq.db ∧
      st'.session.statement = stq.session.statement ∧
      st'.session.beforeClosures = stq.session.beforeClosures ∧
      st'.session.afterClosures = [] := by
  unfold afterExec at hok
  split at hok
  · simp [deferred] at hok
  · rename_i bean2 hb2
    have hv2 := incrVersion_valueOf E _ table col hver _ bean2 hb2
    have hc2 := incrVersion_canSet E _ table _ bean2 hb2
    rw [if_neg hauto, hres.1] at hok
    dsimp only at hok
    rw [if_neg (not_le.2 hres.2)] at hok
    split at hok
    · simp [deferred] at hok
    · rename_i rowsAffected hrows
      rw [writeBackID_spec E table bean2 col old k rowsAffected hcol (hv2.trans hold)
        (hc2.trans hcan)] at hok
      simp only [deferred, Prod.mk.injEq] at hok
      obtain ⟨_, h2, h3⟩ := hok
      have hh := fun b => handleAfter_spec E col stq hhook hai b
      have hq := fun b => handleAfter_session E stq b
      rw [← h2, ← h3]
      refine ⟨?_, handleAfter_db E stq _, (hh _).2.2, (hq _).1, (hq _).2⟩
      rw [(hh _).1]
      exact valueOf_setField_same col _ old _ (hv2.trans hold)

end IdNative
section IdNative2
variable {σ : Type}

theorem genInsertColumnsLoop_key (E : Engine σ) (key : σ → Int)
    (hnow : ∀ db c, key db ≤ key (E.nowTime db c).2) (bean : Bean) (cols : List Column) :
    ∀ (colNames : List String) (args : List GoValue) (st : State σ),
      key st.db ≤ key (genInsertColumnsLoop E bean cols colNames args st).2.db := by
  induction cols with
  | nil => intro colNames args st; exact le_refl _
  | cons col cols ih =>
    intro colNames args st
    unfold genInsertColumnsLoop
    split
    · exact ih _ _ _
    · split
      · exact ih _ _ _
      · split
        · exact le_refl _
        · split
          · exact ih _ _ _
          · dsimp only
            split
            · exact le_trans (hnow st.db col) (ih _ _ _)
            · split
              · exact ih _ _ _
              · split
                · exact le_refl _
                · exact ih _ _ _

/-- A successful run of the execution part on a table with a native
auto-increment column, against a store that reports a positive, growing key
with every accepted statement: the identifier field holds the key the store is
at afterwards. -/
theorem execInsert_native (E : Engine σ) (key : σ → Int) (st : State σ) (table : Table)
    (bean : Bean) (sqlStr : String) (args : List GoValue) (col : Column) (old : GoValue)
    (cnt : Int) (st' : State σ) (bean' : Bean)
    (hauto : table.AutoIncrement ≠ "")
    (hcol : E.GetColumn table table.AutoIncrement = some col)
    (hver : ∀ vcol, E.GetColumn table table.Version = some vcol → vcol.Name ≠ col.Name)
    (hhook : ∀ c ∈ st.session.afterClosures, ∀ b,
      valueOf col (E.applyClosure c b) = valueOf col b)
    (hai : ∀ b b', E.AfterInsert b = some b' → valueOf col b' = valueOf col b)
    (hexec : ∀ db sql a res db', E.exec db sql a = (.ok res, db') →
      res.LastInsertId = (key db', none) ∧ 0 < key db' ∧ key db < key db')
    (hquery : ∀ db sql a row rest db', E.queryBytes db sql a = (.ok (row :: rest), db') →
      ParseInt ((row.lookup table.AutoIncrement).getD "") = .ok (key db') ∧
        0 < key db' ∧ key db < key db')
    (hold : valueOf col bean = .ok old) (hcan : bean.canSet = true)
    (hok : execInsert E st table bean sqlStr args = (.ret cnt none, st', bean')) :
    valueOf col bean' = .ok (E.int64ToIntValue (key st'.db) old) ∧
      key st.db < key st'.db ∧ 0 < key st'.db ∧
      st'.session.statement = st.session.statement ∧
      st'.session.beforeClosures = st.session.beforeClosures ∧
      st'.session.afterClosures = [] := by
  have hq : ∀ sql, ∀ res, (State.queryBytes E st sql args).1 = .ok res →
      ∀ noRows, afterQuery E (State.queryBytes E st sql args).2 table bean res noRows
        = (.ret cnt none, st', bean') →
      valueOf col bean' = .ok (E.int64ToIntValue (key st'.db) old) ∧
        key st.db < key st'.db ∧ 0 < key st'.db ∧
        st'.session.statement = st.session.statement ∧
        st'.session.beforeClosures = st.session.beforeClosures ∧
        st'.session.afterClosures = [] := by
    intro sql res hres noRows hq
    cases res with
    | nil => simp [afterQuery, deferred] at hq; split at hq <;> simp at hq
    | cons row rest =>
      have hE : E.queryBytes st.db sql args = (.ok (row :: rest), (E.queryBytes st.db sql args).2) :=
        Prod.ext hres rfl
      obtain ⟨hp, hpos, hlt⟩ := hquery _ _ _ _ _ _ hE
      obtain ⟨h1, h2, h3, h4, h5⟩ := afterQuery_inv E (State.queryBytes E st sql args).2 table bean (row :: rest)
        noRows col old
        (key (E.queryBytes st.db sql args).2) cnt st' bean' hcol hver hhook hai hold hcan
        (by intro r rs he
            cases he
            exact ⟨hp, hpos⟩) hq
      have hdb : st'.db = (E.queryBytes st.db sql args).2 := h2
      rw [hdb]
      exact ⟨h1, hlt, hpos, h3, h4, h5⟩
  unfold execInsert at hok
  split at hok
  · dsimp only at hok
    split at hok
    · simp at hok
    · rename_i res hres
      exact hq _ res hres _ hok
  · split at hok
    · dsimp only at hok
      split at hok
      · simp at hok
      · rename_i res hres
        exact hq _ res hres _ hok
    · dsimp only at hok
      split at hok
      · simp at hok
      · rename_i res hres
        have hE : E.exec st.db sqlStr args = (.ok res, (E.exec st.db sqlStr args).2) :=
          Prod.ext hres rfl
        obtain ⟨hl, hpos, hlt⟩ := hexec _ _ _ _ _ hE
        obtain ⟨h1, h2, h3, h4, h5⟩ := afterExec_inv E (State.exec E st sqlStr args).2 table bean res col old
          (key (E.exec st.db sqlStr args).2) cnt st' bean' hauto hcol hver hhook hai hold hcan
          ⟨hl, hpos⟩ hok
        have hdb : st'.db = (E.exec st.db sqlStr args).2 := h2
        rw [hdb]
        exact ⟨h1, hlt, hpos, h3, h4, h5⟩

end IdNative2
section IdNative3
variable {σ : Type}

/-- An early return of the identifier step is an error return. -/
theorem assignID_inl (E : Engine σ) (st : State σ) (table : Table) (bean : Bean)
    (names : List String) (args : List GoValue) (out : Outcome) (st3 : State σ)
    (h : assignID E st table bean names args = (.inl out, st3)) :
    ∃ err, out = .ret 0 (some err) := by
  unfold assignID at h
  dsimp only at h
  repeat' split at h
  all_goals first
    | (cases h; exact ⟨_, rfl⟩)
    | cases h

/-- The identifier step on a table without random-ID column: the record and
the session are left alone, and the store state is either unchanged or the one
the sequence leaves. -/
theorem assignID_auto (E : Engine σ) (key : σ → Int) (st : State σ) (table : Table)
    (bean : Bean) (names : List String) (args : List GoValue) (plan : Plan) (st3 : State σ)
    (hrand : table.RandomID = "")
    (hseqkey : ∀ next, E.sequenceGenerator = some next → ∀ db t c, key db ≤ key (next db t c).2)
    (h : assignID E st table bean names args = (.inr plan, st3)) :
    plan.bean = bean ∧ st3.session = st.session ∧ key st.db ≤ key st3.db := by
  unfold assignID at h
  split at h
  · rename_i next hnext
    have hgen : E.sequenceGenerator = some next := by
      split at hnext
      · exact hnext
      · cases hnext
    dsimp only at h
    split at h
    · split at h
      · cases h
      · cases h
        exact ⟨rfl, rfl, hseqkey next hgen _ _ _⟩
    · cases h
      exact ⟨rfl, rfl, le_refl _⟩
  · rw [if_neg (by simp [hrand])] at h
    cases h
    exact ⟨rfl, rfl, le_refl _⟩

/-- One successful single-record insert on a table with an auto-increment
column, of a settable record whose identifier field is zero, against a store
that reports a positive, growing key with every accepted statement: the
identifier field holds the key the store is at afterwards; the statement is
kept and both closure queues are empty afterwards. -/
theorem innerInsert_native_id (E : Engine σ) (s : Statement) (col : Column) (key : σ → Int)
    (hset : ∀ b, E.setRefBean s b = .ok s)
    (hflag : ∀ c ∈ s.RefTable.columns, c.Name = col.Name →
      (c.IsAutoIncrement || c.IsRandomID) = true)
    (hver : ∀ vcol, E.GetColumn s.RefTable s.RefTable.Version = some vcol →
      vcol.Name ≠ col.Name)
    (hspare : HooksSpare E col)
    (hstore : StoreKeyStrategy E s col key)
    (st : State σ) (bean : Bean) (old : GoValue) (cnt : Int) (st' : State σ) (bean' : Bean)
    (hs : st.session.statement = s)
    (hreg : ∀ c ∈ st.session.beforeClosures ++ st.session.afterClosures,
      closureColumn c ≠ some col.Name)
    (hold : valueOf col bean = .ok old) (hzero : isZeroOfKind old = true)
    (hcan : bean.canSet = true)
    (hok : innerInsert E st bean = (.ret cnt none, st', bean')) :
    st'.session.statement = s ∧ st'.session.beforeClosures = [] ∧
    st'.session.afterClosures = [] ∧ key st.db < key st'.db ∧ 0 < key st'.db ∧
      valueOf col bean' = .ok (E.int64ToIntValue (key st'.db) old) := by
  obtain ⟨hclosure, hbefore, hafter⟩ := hspare
  obtain ⟨hauto, hrand, hcol, hexec, hquery, hnow, hseqkey, _⟩ := hstore
  unfold innerInsert at hok
  rw [hs, hset bean] at hok
  dsimp only at hok
  split at hok
  · simp at hok
  · split at hok
    · simp at hok
    · rename_i names args st2 hgen
      have hold0 : valueOf col
          (callBeforeInsert E (runClosures E st.session.beforeClosures bean)) = .ok old := by
        rw [callBeforeInsert_valueOf E col (fun b b' h => (hbefore b b' h).1),
          runClosures_valueOf E col _
            (fun c hc b => (hclosure c b (hreg c (List.mem_append_left _ hc))).1), hold]
      have hcan0 : (callBeforeInsert E (runClosures E st.session.beforeClosures bean)).canSet
          = true := by
        rw [callBeforeInsert_canSet E (fun b b' h => (hbefore b b' h).2),
          runClosures_canSet E _
            (fun c hc b => (hclosure c b (hreg c (List.mem_append_left _ hc))).2), hcan]
      have hst2 := (genInsertColumnsLoop_spec E _ _ _ _ _ _ _ _ hgen).1
      have hkey2 : key st.db ≤ key st2.db := by
        have h := congrArg (fun r => key r.2.db) hgen
        dsimp only at h
        rw [← h]
        exact genInsertColumnsLoop_key E key hnow _ _ _ _ _
      have hbefore2 : st2.session.beforeClosures = [] := by
        have h := congrArg (fun r => r.2.session.beforeClosures) hgen
        dsimp only at h
        rw [← h]
        exact genInsertColumnsLoop_before E _ _ _ _ _
      have hafter2 : ∀ c ∈ st2.session.afterClosures, ∀ b,
          valueOf col (E.applyClosure c b) = valueOf col b := by
        have h := congrArg (fun r => r.2.session.afterClosures) hgen
        dsimp only at h
        rw [← h]
        exact genInsertColumnsLoop_after E _
          (fun c => ∀ b, valueOf col (E.applyClosure c b) = valueOf col b) s.RefTable.columns
          (zero_id_closures_spare E s _ col old hflag ⟨hclosure, hbefore, hafter⟩ hold0 hzero)
          _ _ _ (fun c hc b => (hclosure c b (hreg c (List.mem_append_right _ hc))).1)
      split at hok
      · rename_i out st3 hassign
        obtain ⟨err, herr⟩ := assignID_inl E _ _ _ _ _ out st3 hassign
        rw [herr] at hok
        simp at hok
      · rename_i plan st3 hassign
        obtain ⟨hpb, hsess3, hkey3⟩ := assignID_auto E key _ _ _ _ _ plan st3 hrand hseqkey
          hassign
        split at hok
        · simp at hok
        · rename_i sqlStr args2 hbuild
          rw [hpb] at hok
          obtain ⟨h1, h2, h3, h4, h5, h6⟩ := execInsert_native E key st3 s.RefTable _ sqlStr
            args2 col old cnt st' bean' hauto hcol hver (by rw [hsess3]; exact hafter2) hafter
            hexec hquery hold0 hcan0 hok
          refine ⟨?_, ?_, h6, lt_of_le_of_lt (le_trans hkey2 hkey3) h2, h3, h1⟩
          · rw [h4, hsess3]
            exact hst2
          · rw [h5, hsess3]
            exact hbefore2

/-- A run of successful single-record inserts on a table with an
auto-increment column: the records hold the keys of the successive store
states, which grow strictly. -/
theorem Inserted_native_ids (E : Engine σ) (s : Statement) (col : Column) (key : σ → Int)
    (hset : ∀ b, E.setRefBean s b = .ok s)
    (hflag : ∀ c ∈ s.RefTable.columns, c.Name = col.Name →
      (c.IsAutoIncrement || c.IsRandomID) = true)
    (hver : ∀ vcol, E.GetColumn s.RefTable s.RefTable.Version = some vcol →
      vcol.Name ≠ col.Name)
    (hspare : HooksSpare E col)
    (hstore : StoreKeyStrategy E s col key)
    {st st' : State σ} {rows rows' : List Bean} {counts : List Int}
    (hrun : Inserted E st rows counts st' rows') :
    st.session.statement = s →
    (∀ c ∈ st.session.beforeClosures ++ st.session.afterClosures,
      closureColumn c ≠ some col.Name) →
    (∀ b ∈ rows, b.canSet = true ∧ ∃ old, valueOf col b = .ok old ∧ isZeroOfKind old = true) →
    key st.db ≤ key st'.db ∧
    ∃ ids : List Int, (∀ id ∈ ids, key st.db < id ∧ 0 < id ∧ id ≤ key st'.db) ∧ ids.Nodup ∧
      List.Forall₂ (fun b' id => ∃ old, valueOf col b' = .ok (E.int64ToIntValue id old))
        rows' ids := by
  induction hrun with
  | nil st => intro _ _ _; exact ⟨le_refl _, [], by simp, List.nodup_nil, List.Forall₂.nil⟩
  | @cons st0 st1 st2 bean bean' cnt rest rest' counts0 hone _ ih =>
    intro hs hreg hz
    obtain ⟨hcan, old, hold, hzero⟩ := hz bean (by simp)
    obtain ⟨hs1, hb1, ha1, hlt, hpos, hval⟩ := innerInsert_native_id E s col key hset hflag
      hver hspare hstore st0 bean old cnt st1 bean' hs hreg hold hzero hcan hone
    obtain ⟨hle, ids, hrange, hnd, hall⟩ :=
      ih hs1 (by rw [hb1, ha1]; simp) (fun b hb => hz b (List.mem_cons_of_mem _ hb))
    refine ⟨le_of_lt (lt_of_lt_of_le hlt hle), key st1.db :: ids, ?_, ?_,
      List.Forall₂.cons ⟨old, hval⟩ hall⟩
    · intro id hid
      rcases List.mem_cons.1 hid with h | h
      · subst h
        exact ⟨hlt, hpos, hle⟩
      · obtain ⟨a, b, c⟩ := hrange id h
        exact ⟨lt_trans hlt a, b, c⟩
    · rw [List.nodup_cons]
      refine ⟨?_, hnd⟩
      intro hmem
      exact lt_irrefl _ (hrange _ hmem).1

end IdNative3
/-! ### Facts about the concrete engine -/

section SampleLemmas

theorem sample_no_version (dbType : DBType) (many : Bool) (failAt : Nat) (table : Table)
    (col : Column) (hv : ∀ c ∈ table.columns, c.Name ≠ table.Version) :
    ∀ vcol, (sampleEngine dbType many failAt).GetColumn table table.Version = some vcol →
      vcol.Name ≠ col.Name := by
  intro vcol h
  have hm := List.mem_of_find?_eq_some h
  have hp := List.find?_some h
  simp only [beq_iff_eq] at hp
  exact absurd hp (hv vcol hm)

theorem sample_hooks_keep (dbType : DBType) (many : Bool) (failAt : Nat) (col : Column) :
    HooksKeep (sampleEngine dbType many failAt) col := by
  refine ⟨fun c b => ⟨rfl, rfl⟩, ?_, ?_⟩
  · intro b b' h
    cases h
  · intro b b' h
    cases h

theorem sample_conv_nonzero (dbType : DBType) (many : Bool) (failAt : Nat) :
    ∀ (id : Int) (old : GoValue), id ≠ 0 →
      isZeroOfKind ((sampleEngine dbType many failAt).int64ToIntValue id old) = false := by
  intro id old h
  show (id == 0) = false
  simpa using h

theorem sample_conv_inj (dbType : DBType) (many : Bool) (failAt : Nat) :
    ∀ (id id' : Int) (old old' : GoValue),
      (sampleEngine dbType many failAt).int64ToIntValue id old
        = (sampleEngine dbType many failAt).int64ToIntValue id' old' → id = id' := by
  intro id id' old old' h
  have h2 : GoValue.int id = GoValue.int id' := h
  injection h2

theorem sample_zero_ids (col : Column) (hc : col.Name = "id") :
    ∀ b ∈ beansOf (.slice [randomBean 1 "a", randomBean 2 "b"]), b.canSet = true ∧
      ∃ old, valueOf col b = .ok old ∧ isZeroOfKind old = true := by
  intro b hb
  simp only [beansOf, List.mem_cons, List.mem_singleton, List.not_mem_nil, or_false] at hb
  rcases hb with h | h
  · subst h
    refine ⟨rfl, GoValue.int 0, ?_, rfl⟩
    unfold valueOf
    rw [hc]
    rfl
  · subst h
    refine ⟨rfl, GoValue.int 0, ?_, rfl⟩
    unfold valueOf
    rw [hc]
    rfl

theorem sample_hooks_spare (dbType : DBType) (many : Bool) (failAt : Nat) (col : Column) :
    HooksSpare (sampleEngine dbType many failAt) col := by
  refine ⟨fun c b _ => ⟨rfl, rfl⟩, ?_, ?_⟩
  · intro b b' h
    cases h
  · intro b b' h
    cases h

theorem sample_exec_key (many : Bool) (db : Nat) (sql : String) (a : List GoValue)
    (res : Result) (db' : Nat)
    (h : (sampleEngine DBType.MYSQL many 0).exec db sql a = (.ok res, db')) :
    res.LastInsertId = ((db' : Int), none) ∧ (0 : Int) < db' ∧ (db : Int) < db' := by
  have h2 : (if db + 1 = 0 then (Except.error (Error.other 1), db + 1)
      else (Except.ok ⟨(sampleRows sql, none), ((db : Int) + 1, none)⟩, db + 1))
      = ((Except.ok res, db') : Except Error Result × Nat) := h
  rw [if_neg (Nat.succ_ne_zero db)] at h2
  simp only [Prod.mk.injEq, Except.ok.injEq] at h2
  obtain ⟨hr, hd⟩ := h2
  subst hr hd
  refine ⟨?_, ?_, ?_⟩
  · simp
  · push_cast; omega
  · push_cast; omega

theorem sample_query_key (many : Bool) (db : Nat) (sql : String) (a : List GoValue)
    (row : List (String × String)) (rest : List (List (String × String))) (db' : Nat)
    (h : (sampleEngine DBType.MYSQL many 0).queryBytes db sql a = (.ok (row :: rest), db')) :
    False := by
  have h2 : (if db + 1 = 0 then (Except.error (Error.other 1), db + 1)
      else (Except.ok [], db + 1))
      = ((Except.ok (row :: rest), db') :
          Except Error (List (List (String × String))) × Nat) := h
  rw [if_neg (Nat.succ_ne_zero db)] at h2
  simp at h2

theorem sample_native (many : Bool) (s : Statement) (col : Column)
    (hauto : s.RefTable.AutoIncrement ≠ "") (hrand : s.RefTable.RandomID = "")
    (hcol : (sampleEngine DBType.MYSQL many 0).GetColumn s.RefTable s.RefTable.AutoIncrement
      = some col)
    (hflag : ∀ c ∈ s.RefTable.columns, c.Name = col.Name → c.IsAutoIncrement = true) :
    StoreKeyStrategy (sampleEngine DBType.MYSQL many 0) s col (fun n => (n : Int)) := by
  refine ⟨hauto, hrand, hcol, ?_, ?_, ?_, ?_, hflag⟩
  · intro db sql a res db' h
    exact sample_exec_key many db sql a res db' h
  · intro db sql a row rest db' h
    exact (sample_query_key many db sql a row rest db' h).elim
  · intro db c
    exact le_refl _
  · intro next h
    cases h

theorem sequence_hooks_spare (col : Column) : HooksSpare sequenceEngine col := by
  refine ⟨fun c b _ => ⟨rfl, rfl⟩, ?_, ?_⟩
  · intro b b' h
    cases h
  · intro b b' h
    cases h

theorem sequence_no_version (table : Table) (col : Column)
    (hv : ∀ c ∈ table.columns, c.Name ≠ table.Version) :
    ∀ vcol, sequenceEngine.GetColumn table table.Version = some vcol →
      vcol.Name ≠ col.Name := by
  intro vcol h
  have hm := List.mem_of_find?_eq_some h
  have hp := List.find?_some h
  simp only [beq_iff_eq] at hp
  exact absurd hp (hv vcol hm)

theorem sequence_store (s : Statement) (col : Column)
    (hauto : s.RefTable.AutoIncrement ≠ "") (hrand : s.RefTable.RandomID = "")
    (hcol : sequenceEngine.GetColumn s.RefTable s.RefTable.AutoIncrement = some col)
    (hflag : ∀ c ∈ s.RefTable.columns, c.Name = col.Name → c.IsAutoIncrement = true) :
    StoreKeyStrategy sequenceEngine s col (fun n => (n : Int)) := by
  refine ⟨hauto, hrand, hcol, ?_, ?_, ?_, ?_, hflag⟩
  · intro db sql a res db' h
    exact sample_exec_key false db sql a res db' h
  · intro db sql a row rest db' h
    exact (sample_query_key false db sql a row rest db' h).elim
  · intro db c
    exact le_refl _
  · intro next h db t c
    have h2 : some (fun (n : Nat) (_ _ : String) =>
        ((Except.ok (500 + (n : Int)) : Except Error Int), n)) = some next := h
    cases h2
    exact le_refl _

end SampleLemmas
/-! ### Properties of the generator -/

/-- C1. On a freshly created generator, `K < 4096` sequential calls of
`Generate` that all read the same elapsed millisecond `t` all return, and the
`K` identifiers are strictly increasing in call order, hence pairwise
distinct. -/
theorem Generate_same_millisecond_increasing (nodeID t : Int) (K : Nat) (hK : K < 4096) :
    ∃ ids s, generateN K (newSnowflake nodeID) (List.replicate K t) = some (ids, s, []) ∧
      ids.length = K ∧ ids.Pairwise (· < ·) ∧ ids.Nodup := by
  have hnode := newSnowflake_nodeID_range nodeID
  suffices h : ∃ ids s, generateN K (newSnowflake nodeID) (List.replicate K t)
      = some (ids, s, []) ∧ ids.length = K ∧ ids.Pairwise (· < ·) by
    obtain ⟨ids, s, h1, h2, h3⟩ := h
    exact ⟨ids, s, h1, h2, h3, h3.imp (fun hab => ne_of_lt hab)⟩
  by_cases ht : t = 0
  · obtain ⟨ids, s, h1, h2, h3, _⟩ :=
      generateN_same_time K (newSnowflake nodeID) t hnode.1 hnode.2 ht.symm (le_refl _)
        (by show (0 : Int) + (K : Int) ≤ 4095; omega)
    exact ⟨ids, s, h1, h2, h3⟩
  · cases K with
    | zero => exact ⟨[], newSnowflake nodeID, rfl, rfl, List.Pairwise.nil⟩
    | succ k =>
      have hstep := Generate_of_ne (newSnowflake nodeID) t (List.replicate k t) ht
      obtain ⟨ids, s, h1, h2, h3, h4⟩ :=
        generateN_same_time k
          { newSnowflake nodeID with sequence := 0, lastTime := t } t hnode.1 hnode.2 rfl
          (le_refl _) (by show (0 : Int) + (k : Int) ≤ 4095; omega)
      refine ⟨mkID t (newSnowflake nodeID).nodeID 0 :: ids, s, ?_, by simp [h2], ?_⟩
      · simp only [List.replicate_succ, generateN, hstep, h1]
      · exact List.Pairwise.cons (fun id hid => h4 id hid) h3

/-- Witness for C1: three calls within millisecond 7 on node 1. -/
theorem Generate_same_millisecond_increasing_witness :
    (3 : Nat) < 4096 ∧
      ∃ ids s, generateN 3 (newSnowflake 1) (List.replicate 3 7) = some (ids, s, []) ∧
        ids.length = 3 ∧ ids.Pairwise (· < ·) ∧ ids.Nodup :=
  ⟨by decide, Generate_same_millisecond_increasing 1 7 3 (by decide)⟩

/-- C2. For a generator carrying the node id stored by `newSnowflake n`, a
call of `Generate` that stores an elapsed time `t` with `0 ≤ t < 2 ^ 41` and a
sequence `s` returns `(t << 22) | ((n & 0x3FF) << 12) | s` (no wrap occurs, the
fields do not overlap, so this is also `t * 2 ^ 22 + (n & 0x3FF) * 2 ^ 12 + s`),
with `0 ≤ s ≤ 0xFFF`; bits 12..21 of the identifier are `n & 0x3FF`. -/
theorem Generate_id_layout (n : Int) (s : snowflake) (clock : List Int) (id : Int)
    (s' : snowflake) (rest : List Int)
    (hnode : s.nodeID = (newSnowflake n).nodeID)
    (hgen : Generate s clock = some (id, s', rest))
    (ht0 : 0 ≤ s'.lastTime) (ht1 : s'.lastTime < 2 ^ 41) :
    id = Int.lor (Int.lor (s'.lastTime * 2 ^ 22) (Int.land n 0x3ff * 2 ^ 12)) s'.sequence ∧
      id = s'.lastTime * 2 ^ 22 + Int.land n 0x3ff * 2 ^ 12 + s'.sequence ∧
      0 ≤ s'.sequence ∧ s'.sequence ≤ 0xfff ∧
      Int.land (Int.shiftRight id 12) 0x3ff = Int.land n 0x3ff := by
  obtain ⟨hkeep, hs0, hs1, hid⟩ := Generate_post s clock id s' rest hgen
  have hnid : s'.nodeID = Int.land n 0x3ff := by rw [hkeep, hnode]; rfl
  have hn := newSnowflake_nodeID_range n
  have hn0 : 0 ≤ Int.land n 0x3ff := hn.1
  have hn1 : Int.land n 0x3ff < 1024 := hn.2
  have hwrap : wrap64 (s'.lastTime * 2 ^ 22) = s'.lastTime * 2 ^ 22 := by
    apply wrap64_of_range <;> norm_num at ht1 ⊢ <;> omega
  have hsum : id = s'.lastTime * 2 ^ 22 + Int.land n 0x3ff * 2 ^ 12 + s'.sequence := by
    rw [hid, hnid, mkID_eq_add _ _ _ hn0 hn1 hs0 hs1, hwrap]
  have hlor : id
      = Int.lor (Int.lor (s'.lastTime * 2 ^ 22) (Int.land n 0x3ff * 2 ^ 12)) s'.sequence := by
    have hmk := hid
    unfold mkID shl64 at hmk
    rw [hnid, hwrap, wrap64_of_range (Int.land n 0x3ff * 2 ^ 12)
      (by norm_num; omega) (by norm_num; omega)] at hmk
    exact hmk
  refine ⟨hlor, hsum, hs0, hs1, ?_⟩
  show Int.land (id >>> (12 : Nat)) 0x3ff = Int.land n 0x3ff
  rw [land_0x3ff (id >>> (12 : Nat)), Int.shiftRight_eq_div_pow, hsum]
  generalize Int.land n 0x3ff = m at hn0 hn1 ⊢
  norm_num at ht1 ⊢
  omega

/-- Witness for C2: a fresh generator with node id 1029 reading millisecond 7. -/
theorem Generate_id_layout_witness :
    Int.lor (Int.lor (7 * 2 ^ 22) (Int.land 1029 0x3ff * 2 ^ 12)) 0 = mkID 7 5 0 ∧
      mkID 7 5 0 = 7 * 2 ^ 22 + Int.land 1029 0x3ff * 2 ^ 12 + 0 ∧
      Int.land (Int.shiftRight (mkID 7 5 0) 12) 0x3ff = Int.land 1029 0x3ff :=
  have h := Generate_id_layout 1029 (newSnowflake 1029) [7] (mkID 7 5 0)
    { nodeID := 5, sequence := 0, lastTime := 7 } [] rfl (by decide) (by decide) (by decide)
  ⟨h.1.symm, h.2.1, h.2.2.2.2⟩

/-- C3, as stated, fails once the elapsed time reaches `2 ^ 41`: on the
non-decreasing readings `2 ^ 41 - 1, 2 ^ 41` the second identifier wraps to
`-2 ^ 63` and is smaller than the first. -/
theorem Generate_not_increasing_past_41_bits :
    ∃ id1 s1 id2 s2,
      Generate (newSnowflake 0) [2 ^ 41 - 1, 2 ^ 41] = some (id1, s1, [2 ^ 41]) ∧
      Generate s1 [2 ^ 41] = some (id2, s2, []) ∧
      s1.lastTime ≤ 2 ^ 41 ∧ id1 = 2 ^ 63 - 2 ^ 22 ∧ id2 = -2 ^ 63 ∧ ¬ id1 < id2 := by
  have e1 : mkID (2 ^ 41 - 1) 0 0 = 2 ^ 63 - 2 ^ 22 := by
    rw [mkID_eq_add _ _ _ (le_refl _) (by norm_num) (le_refl _) (by norm_num)]
    decide
  have e2 : mkID (2 ^ 41) 0 0 = -2 ^ 63 := by
    rw [mkID_eq_add _ _ _ (le_refl _) (by norm_num) (le_refl _) (by norm_num)]
    decide
  refine ⟨mkID (2 ^ 41 - 1) 0 0, { nodeID := 0, sequence := 0, lastTime := 2 ^ 41 - 1 },
    mkID (2 ^ 41) 0 0, { nodeID := 0, sequence := 0, lastTime := 2 ^ 41 },
    Generate_of_ne (newSnowflake 0) _ _ (by decide),
    Generate_of_ne _ _ _ (by decide), by decide, e1, e2, ?_⟩
  rw [e1, e2]
  decide

/-- C3 (amended). Let a call of `Generate` on a generator with a ten-bit node id
have returned `id1` and left the state `s1`, and let the next call read `t`
first and `more` while polling.  If no reading is earlier than the previous
one (`s1.lastTime`), all readings stay in `[-2 ^ 41, 2 ^ 41)`, and a later
reading is available when the sequence is exhausted, then the next call
returns an identifier strictly greater than `id1`; the sequence is incremented
when `t` equals the previous reading and there is room, reset to zero when `t`
differs, and on wraparound the stored reading is strictly later. -/
theorem Generate_strictly_increasing (n : Int) (s : snowflake) (clock : List Int)
    (id1 : Int) (s1 : snowflake) (t : Int) (more : List Int)
    (hnode : s.nodeID = (newSnowflake n).nodeID)
    (hprev : Generate s clock = some (id1, s1, t :: more))
    (hmono : ∀ r ∈ t :: more, s1.lastTime ≤ r)
    (hlow : -2 ^ 41 ≤ s1.lastTime)
    (hhigh : ∀ r ∈ t :: more, r < 2 ^ 41)
    (hadv : t = s1.lastTime → s1.sequence = 0xfff → ∃ r ∈ more, s1.lastTime < r) :
    ∃ id2 s2 rest, Generate s1 (t :: more) = some (id2, s2, rest) ∧ id1 < id2 ∧
      (t = s1.lastTime → s1.sequence < 0xfff →
        s2.sequence = s1.sequence + 1 ∧ s2.lastTime = t) ∧
      (t ≠ s1.lastTime → s2.sequence = 0 ∧ s2.lastTime = t) ∧
      (t = s1.lastTime → s1.sequence = 0xfff →
        s2.sequence = 0 ∧ s1.lastTime < s2.lastTime) := by
  obtain ⟨hkeep, hs0, hs1, hid⟩ := Generate_post s clock id1 s1 _ hprev
  have hn := newSnowflake_nodeID_range n
  have hn0 : 0 ≤ s1.nodeID := by rw [hkeep, hnode]; exact hn.1
  have hn1 : s1.nodeID < 1024 := by rw [hkeep, hnode]; exact hn.2
  have hid1 : id1 = s1.lastTime * 2 ^ 22 + s1.nodeID * 2 ^ 12 + s1.sequence := by
    have hw : wrap64 (s1.lastTime * 2 ^ 22) = s1.lastTime * 2 ^ 22 := by
      have := hhigh t (by simp)
      have := hmono t (by simp)
      apply wrap64_of_range <;> norm_num at * <;> omega
    rw [hid, mkID_eq_add _ _ _ hn0 hn1 hs0 hs1, hw]
  have hnew : ∀ r q : Int, s1.lastTime ≤ r → r < 2 ^ 41 → 0 ≤ q → q ≤ 4095 →
      mkID r s1.nodeID q = r * 2 ^ 22 + s1.nodeID * 2 ^ 12 + q := by
    intro r q hr0 hr1 hq0 hq1
    have hw : wrap64 (r * 2 ^ 22) = r * 2 ^ 22 := by
      apply wrap64_of_range <;> norm_num at * <;> omega
    rw [mkID_eq_add _ _ _ hn0 hn1 hq0 hq1, hw]
  have htm := hmono t (by simp)
  have hth := hhigh t (by simp)
  by_cases ht : t = s1.lastTime
  · by_cases hfull : s1.sequence = 0xfff
    · obtain ⟨r, hr, hlt⟩ := hadv ht hfull
      obtain ⟨r', rest, hw, hlt', hmem⟩ := waitNext_of_later s1.lastTime more t ⟨r, hr, hlt⟩
      have hr'mem : r' ∈ t :: more := by
        rcases hmem with rfl | hmem
        · simp
        · exact List.mem_cons_of_mem _ hmem
      have hz : Int.land (wrap64 (s1.sequence + 1)) 0xfff = 0 := by
        rw [land_0xfff, hfull]
        decide
      refine ⟨mkID r' s1.nodeID 0, { s1 with sequence := 0, lastTime := r' }, rest, ?_, ?_,
        ?_, ?_, ?_⟩
      · rw [ht] at hw
        simp only [Generate, ht, if_true, hz]
        rw [hw]
      · rw [hnew r' 0 (le_of_lt hlt') (hhigh r' hr'mem) (le_refl _) (by norm_num), hid1]
        norm_num at hs1 ⊢
        omega
      · intro _ hroom
        rw [hfull] at hroom
        exact absurd hroom (lt_irrefl _)
      · intro hne
        exact absurd ht hne
      · intro _ _
        exact ⟨rfl, hlt'⟩
    · have hroom : s1.sequence + 1 ≤ 4095 := by
        have : s1.sequence ≠ 4095 := hfull
        omega
      refine ⟨mkID t s1.nodeID (s1.sequence + 1),
        { s1 with sequence := s1.sequence + 1, lastTime := t }, more,
        Generate_of_eq s1 t more ht hs0 hroom, ?_, ?_, ?_, ?_⟩
      · rw [hnew t _ htm hth (by omega) hroom, hid1, ht]
        omega
      · intro _ _
        exact ⟨rfl, rfl⟩
      · intro hne
        exact absurd ht hne
      · intro _ hf
        exact absurd hf hfull
  · have hlt : s1.lastTime < t := lt_of_le_of_ne htm (Ne.symm ht)
    refine ⟨mkID t s1.nodeID 0, { s1 with sequence := 0, lastTime := t }, more,
      Generate_of_ne s1 t more ht, ?_, ?_, ?_, ?_⟩
    · rw [hnew t 0 htm hth (le_refl _) (by norm_num), hid1]
      norm_num at hs1 ⊢
      omega
    · intro h
      exact absurd h ht
    · intro _
      exact ⟨rfl, rfl⟩
    · intro h
      exact absurd h ht

/-- Witness for C3 (amended): the sequence is exhausted at millisecond 5 and the
clock advances to 6 while the generator polls. -/
theorem Generate_strictly_increasing_witness :
    ∃ id2 s2 rest,
      Generate { nodeID := 3, sequence := 0xfff, lastTime := 5 } [5, 5, 6, 9]
        = some (id2, s2, rest) ∧
      mkID 5 3 0xfff < id2 ∧ s2.sequence = 0 ∧ 5 < s2.lastTime := by
  obtain ⟨id2, s2, rest, h1, h2, _, _, h5⟩ :=
    Generate_strictly_increasing 3 { nodeID := 3, sequence := 0xffe, lastTime := 5 } [5, 5, 5, 6, 9]
      (mkID 5 3 0xfff) { nodeID := 3, sequence := 0xfff, lastTime := 5 } 5 [5, 6, 9]
      (by decide) (by decide) (by decide) (by decide) (by decide)
      (fun _ _ => ⟨6, by decide, by decide⟩)
  exact ⟨id2, s2, rest, h1, h2, h5 rfl rfl⟩
/-! ### Properties of the insert plan and of the statement text -/

section PlanClaims
variable {σ : Type}

theorem assignID_lengths (E : Engine σ) (st : State σ) (table : Table) (bean : Bean)
    (colNames : List String) (args : List GoValue) (h : colNames.length = args.length) :
    lengthsAgree (assignID E st table bean colNames args).1 := by
  unfold assignID
  dsimp only
  repeat' split
  all_goals simp_all [lengthsAgree]

/-- The statement builder on an empty column list: the statement text is
`INSERT INTO <quoted table> VALUES ()` on MySQL and
`INSERT INTO <quoted table> DEFAULT VALUES` on every other dialect, followed
only by the generated-key return clause of Postgres or Spanner, and it binds
no arguments.  The equality holds for every engine, also one whose column-list
writer fails: the parenthesised column list is never written. -/
theorem buildInsert_empty_columns (E : Engine σ) (s : Statement) (table : Table)
    (args : List GoValue) :
    buildInsert E s table [] args = .ok
      ("INSERT INTO " ++ E.Quote (E.TableName s)
        ++ (if E.DBType = DBType.MYSQL then " VALUES ()" else " DEFAULT VALUES")
        ++ (if table.AutoIncrement ≠ "" ∧ E.DBType = DBType.POSTGRES then
              " RETURNING " ++ E.Quote table.AutoIncrement else "")
        ++ (if table.AutoIncrement ≠ "" ∧ E.DBType = DBType.spanner then
              " THEN RETURN " ++ E.Quote table.AutoIncrement else ""), []) := by
  have hplaces : colPlacesOf E s.exprColumns [] = "" := by
    unfold colPlacesOf
    rw [if_neg]
    · rfl
    · intro h
      exact absurd h.2 (by decide)
  have hlen : ("" : String).length = 0 := rfl
  unfold buildInsert
  simp only [hplaces, hlen, le_refl, if_true]
  by_cases hm : E.DBType = DBType.MYSQL
  · simp [hm, writeReturning, Writer.WriteString, NewWriter]
  · by_cases hp : E.DBType = DBType.POSTGRES
    · by_cases ha : table.AutoIncrement = "" <;>
        simp [hp, ha, writeReturning, Writer.WriteString, NewWriter, String.append_assoc]
    · by_cases hs : E.DBType = DBType.spanner
      · by_cases ha : table.AutoIncrement = "" <;>
          simp [hs, ha, writeReturning, Writer.WriteString, NewWriter, String.append_assoc]
      · simp [hm, hp, hs, writeReturning, Writer.WriteString, NewWriter]

/-- C8, as stated, fails: a nullable column holding the empty string is bound
as the literal empty string when the statement's nullable map has no entry for
it. -/
theorem nullable_zero_bound_literally :
    (genInsertColumns (sampleEngine DBType.MYSQL false 0) (sampleState nullableTable)
        { addr := 1, fields := [("note", GoValue.str "")] }).1
      = (["note"], [GoValue.str ""], none) ∧
    nullableTable.columns = [{ Name := "note", Nullable := true }] ∧
    sampleIsZero (GoValue.str "") = true ∧
    (sampleState nullableTable).session.statement.nullableMap = [] ∧
    sampleValue2Interface { Name := "note", Nullable := true } nilValue = .ok GoValue.nil ∧
    GoValue.str "" ≠ GoValue.nil ∧ GoValue.str "" ≠ nilValue := by
  decide

/-- C8 (amended). For every column that `genInsertColumns` binds, that has an
entry in the statement's nullable map, is `Nullable`, holds the zero value and
is not bound by the auto-time or the version branch, the value converted for
binding is the nil `*int` pointer: the bound argument is
`value2Interface(col, nil)`. -/
theorem nullable_zero_bound_as_nil (E : Engine σ) (st : State σ) (bean : Bean)
    (colNames : List String) (args : List GoValue) (st' : State σ)
    (hgen : genInsertColumns E st bean = ((colNames, args, none), st')) :
    ∃ sel : List (Column × GoValue),
      (sel.map Prod.fst).Sublist st.session.statement.RefTable.columns ∧
      colNames = sel.map (fun p => p.1.Name) ∧ args = sel.map Prod.snd ∧
      ∀ p ∈ sel, ∀ fieldValue, valueOf p.1 bean = .ok fieldValue →
        (E.getFlagForColumn st.session.statement.nullableMap p.1).isSome = true →
        p.1.Nullable = true → E.isZeroValue fieldValue = true →
        bindsTime st.session.statement p.1 = false →
        bindsVersion st.session.statement p.1 = false →
        E.value2Interface p.1 nilValue = .ok p.2 := by
  obtain ⟨_, sel, h1, h2, h3, h4⟩ := genInsertColumnsLoop_spec E bean _ _ _ _ _ _ _ hgen
  refine ⟨sel, h1, by simpa using h2, by simpa using h3, ?_⟩
  intro p hp fieldValue hval hflag hnull hzero hnt hnv
  obtain ⟨_, _, fv, hfv, _, hcascade⟩ := h4 p hp
  rw [hval] at hfv
  cases hfv
  simp only [hnt, hnv, Bool.false_eq_true, if_false] at hcascade
  have hsub : nullableSubst E st.session.statement p.1 fieldValue = nilValue := by
    unfold nullableSubst
    cases hf : E.getFlagForColumn st.session.statement.nullableMap p.1 with
    | none => simp [hf] at hflag
    | some b => simp [hnull, hzero]
  rw [hsub] at hcascade
  exact hcascade

/-- Witness for C8 (amended): the column `note` with an entry in the nullable
map is bound as the untyped nil that the concrete engine converts the nil
pointer to. -/
theorem nullable_zero_bound_as_nil_witness :
    ∃ sel : List (Column × GoValue),
      (sel.map Prod.fst).Sublist nullableTable.columns ∧
      ["note"] = sel.map (fun p => p.1.Name) ∧ [GoValue.nil] = sel.map Prod.snd ∧
      ∀ p ∈ sel, ∀ fieldValue,
        valueOf p.1 { addr := 1, fields := [("note", GoValue.str "")] } = .ok fieldValue →
        ((sampleEngine DBType.MYSQL false 0).getFlagForColumn
          nullableState.session.statement.nullableMap p.1).isSome = true →
        p.1.Nullable = true → sampleIsZero fieldValue = true →
        bindsTime nullableState.session.statement p.1 = false →
        bindsVersion nullableState.session.statement p.1 = false →
        sampleValue2Interface p.1 nilValue = .ok p.2 :=
  nullable_zero_bound_as_nil (sampleEngine DBType.MYSQL false 0) nullableState
    { addr := 1, fields := [("note", GoValue.str "")] } ["note"] [GoValue.nil] nullableState
    (by decide)

/-- C9, as stated, fails: with version-check and auto-time both enabled, a
version column that is also tagged `created` is bound to the engine's current
time, in `genInsertColumns` and in the row loop of `innerInsertMulti`. -/
theorem version_column_bound_to_time :
    (genInsertColumns (sampleEngine DBType.MYSQL false 0) versionState
        { addr := 1, fields := [("v", GoValue.int 7)] }).1
      = (["v"], [GoValue.other "time.Time" "now"], none) ∧
    (multiRowArgs (sampleEngine DBType.MYSQL true 0) { addr := 1, fields := [("v", GoValue.int 7)] }
        versionTable.columns [] [] versionState).1
      = .ok ([GoValue.other "time.Time" "now"], ["?"]) ∧
    versionTable.columns = [{ Name := "v", IsVersion := true, IsCreated := true }] ∧
    versionState.session.statement.checkVersion = true ∧
    GoValue.other "time.Time" "now" ≠ GoValue.int 1 := by
  decide

/-- C9 (amended). When version-check is enabled, the argument bound for a
version column by `genInsertColumns` and, per row, by `innerInsertMulti`, is
the literal integer 1 whatever the bean's version field holds, unless the
column is also a created/updated column and auto-time is enabled (that test
comes first and binds the engine's current time). -/
theorem version_column_bound_to_one (E : Engine σ) (st : State σ) (bean : Bean)
    (colNames : List String) (args : List GoValue) (st' : State σ)
    (hgen : genInsertColumns E st bean = ((colNames, args, none), st'))
    (cols : List Column) (vv : Bean) (args0 : List GoValue) (places0 : List String)
    (st1 : State σ) (args1 : List GoValue) (places1 : List String) (st1' : State σ)
    (hmulti : multiRowArgs E vv cols args0 places0 st1 = (.ok (args1, places1), st1')) :
    (∃ sel : List (Column × GoValue),
      (sel.map Prod.fst).Sublist st.session.statement.RefTable.columns ∧
      colNames = sel.map (fun p => p.1.Name) ∧ args = sel.map Prod.snd ∧
      ∀ p ∈ sel, p.1.IsVersion = true → st.session.statement.checkVersion = true →
        bindsTime st.session.statement p.1 = false → p.2 = GoValue.int 1) ∧
    (∃ bound : List GoValue, args1 = args0 ++ bound ∧
      List.Forall₂ (fun col arg => col.IsVersion = true →
        st1.session.statement.checkVersion = true →
        bindsTime st1.session.statement col = false → arg = GoValue.int 1) cols bound) := by
  constructor
  · obtain ⟨_, sel, h1, h2, h3, h4⟩ := genInsertColumnsLoop_spec E bean _ _ _ _ _ _ _ hgen
    refine ⟨sel, h1, by simpa using h2, by simpa using h3, ?_⟩
    intro p hp hver hcheck hnt
    obtain ⟨_, _, fv, _, _, hcascade⟩ := h4 p hp
    have hv : bindsVersion st.session.statement p.1 = true := by simp [bindsVersion, hver, hcheck]
    simpa [hnt, hv] using hcascade
  · obtain ⟨_, bound, h1, h2⟩ := multiRowArgs_spec E vv cols _ _ _ _ _ _ hmulti
    refine ⟨bound, h1, h2.imp ?_⟩
    intro col arg hb hver hcheck hnt
    obtain ⟨fv, _, hcascade⟩ := hb
    have hv : bindsVersion st1.session.statement col = true := by
      simp [bindsVersion, hver, hcheck]
    simpa [hnt, hv] using hcascade

/-- Witness for C9 (amended): a bean whose version field holds 7 gets the
argument 1 in both paths. -/
theorem version_column_bound_to_one_witness :
    (∃ sel : List (Column × GoValue),
      (sel.map Prod.fst).Sublist plainVersionTable.columns ∧
      ["name", "v"] = sel.map (fun p => p.1.Name) ∧
      [GoValue.str "a", GoValue.int 1] = sel.map Prod.snd ∧
      ∀ p ∈ sel, p.1.IsVersion = true → plainVersionState.session.statement.checkVersion = true →
        bindsTime plainVersionState.session.statement p.1 = false → p.2 = GoValue.int 1) ∧
    (∃ bound : List GoValue, [GoValue.str "a", GoValue.int 1] = [] ++ bound ∧
      List.Forall₂ (fun col arg => col.IsVersion = true →
        plainVersionState.session.statement.checkVersion = true →
        bindsTime plainVersionState.session.statement col = false → arg = GoValue.int 1)
        plainVersionTable.columns bound) :=
  version_column_bound_to_one (sampleEngine DBType.MYSQL true 0) plainVersionState
    { addr := 1, fields := [("name", GoValue.str "a"), ("v", GoValue.int 7)] }
    ["name", "v"] [GoValue.str "a", GoValue.int 1] plainVersionState (by decide)
    plainVersionTable.columns
    { addr := 1, fields := [("name", GoValue.str "a"), ("v", GoValue.int 7)] } [] []
    plainVersionState [GoValue.str "a", GoValue.int 1] ["?", "?"]
    { plainVersionState with session :=
        { statement := plainVersionState.session.statement,
          afterClosures := [Closure.setColumnInt plainVersionTable "v" 1] } }
    (by decide)

/-- C10. The column-name list and the argument list returned by
`genInsertColumns` have equal length on every path (success, field-access
error, conversion error), and so have the lists of the plan that the
identifier-assignment step of `innerInsert` hands on after appending a
sequence value or a random ID. -/
theorem genInsertColumns_lengths_agree (E : Engine σ) (st : State σ) (bean : Bean)
    (table : Table) :
    (genInsertColumns E st bean).1.1.length = (genInsertColumns E st bean).1.2.1.length ∧
    lengthsAgree (assignID E (genInsertColumns E st bean).2 table bean
      (genInsertColumns E st bean).1.1 (genInsertColumns E st bean).1.2.1).1 := by
  have h := genInsertColumnsLoop_lengths E bean st.session.statement.RefTable.columns [] [] st rfl
  exact ⟨h, assignID_lengths E _ table bean _ _ h⟩

end PlanClaims
/-! ### Properties of batches -/

section BatchClaims
variable {σ : Type}

/-- C4. On a dialect without multi-row support, let the single-record inserts
of the first `k - 1` elements of a batch succeed with affected counts `counts`
and let the insert of element `k` fail with `err`.  Then `Insert` returns the
sum of `counts` (the running `int64` sum, which is the plain sum whenever the
counts are non-negative and the total fits) together with `err`; the state is
the one left by the failing insert followed only by the deferred calls, so its
record of store calls is the one of the failing insert, and the elements after
`k` are handed back untouched: they are never attempted. -/
theorem Insert_stops_at_first_failure (E : Engine σ) (st : State σ) (pre post : List Bean)
    (bean : Bean) (counts : List Int) (st1 : State σ) (pre' : List Bean) (cnt : Int)
    (err : Error) (st2 : State σ) (bean' : Bean)
    (hmany : E.SupportInsertMany = false)
    (hpre : Inserted E (beginInsert st) pre counts st1 pre')
    (hfail : innerInsert E st1 bean = (.ret cnt (some err), st2, bean')) :
    Insert E st [.slice (pre ++ bean :: post)]
      = (.ret (sum64 counts) (some err), endInsert E st.session.isAutoClose st2,
          [.slice (pre' ++ bean' :: post)]) ∧
    (endInsert E st.session.isAutoClose st2).log = st2.log ∧
    ((∀ c ∈ counts, 0 ≤ c) → counts.sum < 2 ^ 63 → sum64 counts = counts.sum) := by
  refine ⟨?_, ?_, sum64_eq_sum counts⟩
  · have hlen : ¬ (pre ++ bean :: post).length ≤ 0 := by simp
    have hloop := insertEach_append E hpre 0 (bean :: post)
    have hstep : ∀ a, insertEach E st1 a (bean :: post)
        = (.ret a (some err), st2, bean' :: post) := by
      intro a
      simp only [insertEach, hfail]
    simp only [Insert, insertArgs, insertArg, hlen, if_false, hmany, Bool.false_eq_true,
      hloop, hstep, sum64]
  · unfold endInsert
    dsimp only
    split <;> rfl

/-- Witness for C4: five records on the concrete engine whose store rejects the
third statement; `Insert` returns count 2 and the error, and the record of
store calls ends with the third statement. -/
theorem Insert_stops_at_first_failure_witness :
    Insert (sampleEngine DBType.MYSQL false 3) (sampleState sampleTable)
        [.slice [sampleBean 1 "a", sampleBean 2 "b", sampleBean 3 "c", sampleBean 4 "d",
          sampleBean 5 "e"]]
      = (.ret 2 (some (Error.other 1)),
          endInsert (sampleEngine DBType.MYSQL false 3) false (sampleRun ["a", "b", "c"]),
          [.slice [sampleBean 1 "a", sampleBean 2 "b", sampleBean 3 "c", sampleBean 4 "d",
            sampleBean 5 "e"]]) ∧
    (endInsert (sampleEngine DBType.MYSQL false 3) false (sampleRun ["a", "b", "c"])).log
      = sampleLog ["a", "b", "c"] :=
  have h := Insert_stops_at_first_failure (sampleEngine DBType.MYSQL false 3)
    (sampleState sampleTable) [sampleBean 1 "a", sampleBean 2 "b"]
    [sampleBean 4 "d", sampleBean 5 "e"] (sampleBean 3 "c") [1, 1] (sampleRun ["a", "b"])
    [sampleBean 1 "a", sampleBean 2 "b"] 0 (Error.other 1) (sampleRun ["a", "b", "c"])
    (sampleBean 3 "c") rfl
    (@Inserted.cons Nat _ _ (sampleRun ["a"]) _ _ _ _ _ _ _ (by decide)
      (Inserted.cons (by decide) (Inserted.nil _)))
    (by decide)
  ⟨h.1, h.2.1⟩

end BatchClaims
/-! ### The multi-row path against the per-row path -/

section AgreeClaims
variable {σ : Type}

/-- C5, counterexample.  Two batches that both paths accept in full (count 2)
and bind differently.  First, on a table with a random-ID column, two records
whose identifier field is zero: the multi-row path binds each row with columns
id, name and the literal zero identifier, while the per-row path binds columns
name, id with a generated identifier.  Second, on the one-column table with a
before-closure registered that writes x into the field name: the multi-row
path runs the closure on every record and binds x for both, while the per-row
path clears the queue after the first record and binds x, then b. -/
theorem random_id_rows_bound_differently :
    (innerInsertMulti (sampleEngine DBType.MYSQL true 0) (sampleState randomTable)
        [randomBean 1 "a", randomBean 2 "b"]).1 = .ret 2 none ∧
    (insertEach (sampleEngine DBType.MYSQL true 0) (sampleState randomTable) 0
        [randomBean 1 "a", randomBean 2 "b"]).1 = .ret 2 none ∧
    (innerInsertMulti (sampleEngine DBType.MYSQL true 0) (sampleState randomTable)
        [randomBean 1 "a", randomBean 2 "b"]).2.1.log
      = [Event.exec "INSERT INTO `t` (`id`,`name`) VALUES (?, ?),(?, ?)"
          [GoValue.int 0, GoValue.str "a", GoValue.int 0, GoValue.str "b"]] ∧
    (insertEach (sampleEngine DBType.MYSQL true 0) (sampleState randomTable) 0
        [randomBean 1 "a", randomBean 2 "b"]).2.1.log
      = [Event.randomID 1000,
         Event.exec "INSERT INTO `t` (`name`,`id`) VALUES (?, ?)"
          [GoValue.str "a", GoValue.int 1000],
         Event.randomID 1001,
         Event.exec "INSERT INTO `t` (`name`,`id`) VALUES (?, ?)"
          [GoValue.str "b", GoValue.int 1001]] ∧
    multiColumns (sampleEngine DBType.MYSQL true 0) (sampleState randomTable).session.statement
        (randomBean 1 "a") randomTable.columns []
      = .ok [{ Name := "id", IsRandomID := true }, { Name := "name" }] ∧
    (genInsertColumns (sampleEngine DBType.MYSQL true 0) (sampleState randomTable)
        (randomBean 1 "a")).1 = (["name"], [GoValue.str "a"], none) ∧
    (assignID (sampleEngine DBType.MYSQL true 0) (sampleState randomTable) randomTable
        (randomBean 1 "a") ["name"] [GoValue.str "a"]).1
      = .inr ⟨["name", "id"], [GoValue.str "a", GoValue.int 1000],
          { addr := 1, fields := [("id", GoValue.int 1000), ("name", GoValue.str "a")] }⟩ ∧
    (innerInsertMulti stampEngine stampState [sampleBean 1 "a", sampleBean 2 "b"]).1
      = .ret 2 none ∧
    (insertEach stampEngine stampState 0 [sampleBean 1 "a", sampleBean 2 "b"]).1
      = .ret 2 none ∧
    (innerInsertMulti stampEngine stampState [sampleBean 1 "a", sampleBean 2 "b"]).2.1.log
      = [Event.exec "INSERT INTO `t` (`name`) VALUES (?),(?)"
          [GoValue.str "x", GoValue.str "x"]] ∧
    (insertEach stampEngine stampState 0 [sampleBean 1 "a", sampleBean 2 "b"]).2.1.log
      = [Event.exec "INSERT INTO `t` (`name`) VALUES (?)" [GoValue.str "x"],
         Event.exec "INSERT INTO `t` (`name`) VALUES (?)" [GoValue.str "b"]] := by
  decide

end AgreeClaims
/-! ### Identifier assignment -/

section IdClaims
variable {σ : Type}

/-- C6, counterexample.  On an engine with multi-row support, `Insert` of a
slice of two records whose identifier field is zero succeeds with count 2, on a
table with a random-ID column as on a table with a native auto-increment
column, and hands the records back unchanged: both identifier fields still
hold zero, so they are neither non-zero nor distinct. -/
theorem multi_row_insert_leaves_ids_zero :
    Insert (sampleEngine DBType.MYSQL true 0) (sampleState randomTable)
        [.slice [randomBean 1 "a", randomBean 2 "b"]]
      = (.ret 2 none,
          { session := { statement := { RefTable := randomTable } }, db := 1,
            log := [Event.exec "INSERT INTO `t` (`id`,`name`) VALUES (?, ?),(?, ?)"
              [GoValue.int 0, GoValue.str "a", GoValue.int 0, GoValue.str "b"]] },
          [.slice [randomBean 1 "a", randomBean 2 "b"]]) ∧
    Insert (sampleEngine DBType.MYSQL true 0) (sampleState autoTable)
        [.slice [randomBean 1 "a", randomBean 2 "b"]]
      = (.ret 2 none,
          { session := { statement := { RefTable := autoTable } }, db := 1,
            log := [Event.exec "INSERT INTO `t` (`name`) VALUES (?),(?)"
              [GoValue.str "a", GoValue.str "b"]] },
          [.slice [randomBean 1 "a", randomBean 2 "b"]]) ∧
    valueOf { Name := "id" } (randomBean 1 "a") = .ok (GoValue.int 0) ∧
    valueOf { Name := "id" } (randomBean 2 "b") = .ok (GoValue.int 0) ∧
    isZeroOfKind (GoValue.int 0) = true := by
  decide

/-- C6, amended.  Let `Insert` be called with one argument, a single record or
a slice of records on a dialect without multi-row support, under a statement
`s` that every record resolves to, and let it return without error.  Let `col`
be the identifier column of the table, under one of the strategies: the
random-ID strategy, with a generator whose recorded identifiers are distinct
and non-zero, or the auto-increment strategy (native, or with the engine's
external sequence), with a store that reports a fresh positive key with every
accepted statement.  Let the records be distinct objects (no address occurs
twice), settable, and hold a readable zero identifier before the call; let the
hooks spare the identifier field (closures that do not write to it and the
record's own capabilities keep it, and no closure registered on entry writes
to it), let the version column be another column, and let the conversion to
the field type keep identifiers apart and non-zero.  Then afterwards every
record holds a non-zero identifier, the identifier fields of the records are
pairwise distinct, and no record is lost. -/
theorem Insert_assigns_distinct_ids (E : Engine σ) (s : Statement) (col : Column)
    (key : σ → Int) (st : State σ) (arg arg' : InsertArg) (n : Int) (st' : State σ)
    (hshape : (∃ b, arg = .single b) ∨
      ((∃ rows, arg = .slice rows) ∧ E.SupportInsertMany = false))
    (hs : st.session.statement = s)
    (hset : ∀ b, E.setRefBean s b = .ok s)
    (hver : ∀ vcol, E.GetColumn s.RefTable s.RefTable.Version = some vcol →
      vcol.Name ≠ col.Name)
    (hhooks : HooksSpare E col)
    (hreg : ∀ c ∈ st.session.beforeClosures ++ st.session.afterClosures,
      closureColumn c ≠ some col.Name)
    (hconv : ∀ id old, id ≠ 0 → isZeroOfKind (E.int64ToIntValue id old) = false)
    (hinj : ∀ id id' old old', E.int64ToIntValue id old = E.int64ToIntValue id' old' →
      id = id')
    (_hdistinct : ((beansOf arg).map (fun b => b.addr)).Nodup)
    (hzero : ∀ b ∈ beansOf arg, b.canSet = true ∧
      ∃ old, valueOf col b = .ok old ∧ isZeroOfKind old = true)
    (hok : Insert E st [arg] = (.ret n none, st', [arg']))
    (hstrategy : RandomStrategy E s col st'.log ∨ StoreKeyStrategy E s col key) :
    (∀ b' ∈ beansOf arg', ∃ v, valueOf col b' = .ok v ∧ isZeroOfKind v = false) ∧
    ((beansOf arg').map (fun b => valueOf col b)).Nodup ∧
    (beansOf arg').length = (beansOf arg).length := by
  obtain ⟨counts, st1, hrun, hst'⟩ := Insert_inv E st arg arg' n st' hshape hok
  have hlen := Inserted_beans_length E hrun
  rcases hstrategy with hR | hN
  · obtain ⟨hauto, hrand, hcol, hname, hflag, hnd, hnz⟩ := hR
    have hflag' : ∀ c ∈ s.RefTable.columns, c.Name = col.Name →
        (c.IsAutoIncrement || c.IsRandomID) = true := by
      intro c hc hn
      rw [hflag c hc (hn.trans hname)]
      simp
    obtain ⟨ids, hlog, hall⟩ := Inserted_random_ids E s col hset hauto hrand hcol hname hflag'
      hver hhooks hrun hs hreg (fun b hb => (hzero b hb).2)
    have hlog' : randomIDs st'.log = randomIDs st.log ++ ids := by
      rw [hst', endInsert_log]
      exact hlog
    rw [hlog'] at hnd hnz
    exact ⟨fields_nonzero_of_ids E col hconv hall (fun id hid => hnz id (by simp [hid])),
      fields_nodup_of_ids E col hinj hall hnd.of_append_right, hlen⟩
  · have hflag' : ∀ c ∈ s.RefTable.columns, c.Name = col.Name →
        (c.IsAutoIncrement || c.IsRandomID) = true := by
      intro c hc hn
      rw [hN.2.2.2.2.2.2.2 c hc hn]
      simp
    obtain ⟨_, ids, hrange, hnd, hall⟩ := Inserted_native_ids E s col key hset hflag' hver
      hhooks hN hrun hs hreg hzero
    exact ⟨fields_nonzero_of_ids E col hconv hall (fun id hid => ne_of_gt (hrange id hid).2.1),
      fields_nodup_of_ids E col hinj hall hnd, hlen⟩

/-- Witness for C6: two zero-identifier records inserted one by one on the
concrete engine, on the table with a random-ID column (identifiers 1000 and
1001), on the table with a native auto-increment column (keys 1 and 2), and on
the latter with the engine that has an external sequence (keys 1 and 2 as the
store reports them). -/
theorem Insert_assigns_distinct_ids_witness :
    ((∀ b' ∈ beansOf (.slice [setField "id" (GoValue.int 1000) (randomBean 1 "a"),
          setField "id" (GoValue.int 1001) (randomBean 2 "b")]),
        ∃ v, valueOf { Name := "id", IsRandomID := true } b' = .ok v ∧ isZeroOfKind v = false) ∧
      ((beansOf (.slice [setField "id" (GoValue.int 1000) (randomBean 1 "a"),
          setField "id" (GoValue.int 1001) (randomBean 2 "b")])).map
        (fun b => valueOf { Name := "id", IsRandomID := true } b)).Nodup ∧
      (beansOf (.slice [setField "id" (GoValue.int 1000) (randomBean 1 "a"),
          setField "id" (GoValue.int 1001) (randomBean 2 "b")])).length
        = (beansOf (.slice [randomBean 1 "a", randomBean 2 "b"])).length) ∧
    ((∀ b' ∈ beansOf (.slice [setField "id" (GoValue.int 1) (randomBean 1 "a"),
          setField "id" (GoValue.int 2) (randomBean 2 "b")]),
        ∃ v, valueOf { Name := "id", IsAutoIncrement := true } b' = .ok v ∧
          isZeroOfKind v = false) ∧
      ((beansOf (.slice [setField "id" (GoValue.int 1) (randomBean 1 "a"),
          setField "id" (GoValue.int 2) (randomBean 2 "b")])).map
        (fun b => valueOf { Name := "id", IsAutoIncrement := true } b)).Nodup ∧
      (beansOf (.slice [setField "id" (GoValue.int 1) (randomBean 1 "a"),
          setField "id" (GoValue.int 2) (randomBean 2 "b")])).length
        = (beansOf (.slice [randomBean 1 "a", randomBean 2 "b"])).length) ∧
    ((beansOf (.slice [setField "id" (GoValue.int 1) (randomBean 1 "a"),
        setField "id" (GoValue.int 2) (randomBean 2 "b")])).map
      (fun b => valueOf { Name := "id", IsAutoIncrement := true } b)).Nodup :=
  ⟨Insert_assigns_distinct_ids (sampleEngine DBType.MYSQL false 0)
      (sampleState randomTable).session.statement { Name := "id", IsRandomID := true }
      (fun _ => 0) (sampleState randomTable) (.slice [randomBean 1 "a", randomBean 2 "b"])
      (.slice [setField "id" (GoValue.int 1000) (randomBean 1 "a"),
        setField "id" (GoValue.int 1001) (randomBean 2 "b")]) 2 randomRun
      (Or.inr ⟨⟨_, rfl⟩, rfl⟩) rfl (fun _ => rfl) (sample_no_version _ _ _ _ _ (by decide))
      (sample_hooks_spare _ _ _ _) (by decide) (sample_conv_nonzero _ _ _)
      (sample_conv_inj _ _ _) (by decide) (sample_zero_ids _ rfl) (by decide)
      (Or.inl ⟨rfl, by decide, rfl, rfl, by decide, by decide, by decide⟩),
   Insert_assigns_distinct_ids (sampleEngine DBType.MYSQL false 0)
      (sampleState autoTable).session.statement { Name := "id", IsAutoIncrement := true }
      (fun n => (n : Int)) (sampleState autoTable) (.slice [randomBean 1 "a", randomBean 2 "b"])
      (.slice [setField "id" (GoValue.int 1) (randomBean 1 "a"),
        setField "id" (GoValue.int 2) (randomBean 2 "b")]) 2 autoRun
      (Or.inr ⟨⟨_, rfl⟩, rfl⟩) rfl (fun _ => rfl) (sample_no_version _ _ _ _ _ (by decide))
      (sample_hooks_spare _ _ _ _) (by decide) (sample_conv_nonzero _ _ _)
      (sample_conv_inj _ _ _) (by decide) (sample_zero_ids _ rfl) (by decide)
      (Or.inr (sample_native false (sampleState autoTable).session.statement
        { Name := "id", IsAutoIncrement := true } (by decide) rfl rfl (by decide))),
   (Insert_assigns_distinct_ids sequenceEngine
      (sampleState autoTable).session.statement { Name := "id", IsAutoIncrement := true }
      (fun n => (n : Int)) (sampleState autoTable) (.slice [randomBean 1 "a", randomBean 2 "b"])
      (.slice [setField "id" (GoValue.int 1) (randomBean 1 "a"),
        setField "id" (GoValue.int 2) (randomBean 2 "b")]) 2
      (Insert sequenceEngine (sampleState autoTable)
        [.slice [randomBean 1 "a", randomBean 2 "b"]]).2.1
      (Or.inr ⟨⟨_, rfl⟩, rfl⟩) rfl (fun _ => rfl) (sequence_no_version _ _ (by decide))
      (sequence_hooks_spare _) (by decide) (sample_conv_nonzero DBType.MYSQL false 0)
      (sample_conv_inj DBType.MYSQL false 0) (by decide) (sample_zero_ids _ rfl) (by decide)
      (Or.inr (sequence_store (sampleState autoTable).session.statement
        { Name := "id", IsAutoIncrement := true } (by decide) rfl rfl (by decide)))).2.1⟩

end IdClaims
/-! ### From the plan to the store -/

section PreparedLemmas
variable {σ : Type}

/-- Once the statement is built, `innerInsert` is its execution part. -/
theorem innerInsert_of_prepared (E : Engine σ) (st : State σ) (bean : Bean) (p : Prepared σ)
    (h : prepareInsert E st bean = some p) :
    innerInsert E st bean = execInsert E p.st p.table p.plan.bean p.sqlStr p.args := by
  unfold prepareInsert at h
  unfold innerInsert
  cases hset : E.setRefBean st.session.statement bean with
  | error e => rw [hset] at h; cases h
  | ok statement =>
    rw [hset] at h
    try dsimp only at h ⊢
    by_cases hname : E.TableName statement = ""
    · rw [if_pos hname] at h; cases h
    · rw [if_neg hname] at h
      rw [if_neg hname]
      split at h
      · cases h
      · rename_i names args st2 hgen
        try dsimp only at h ⊢
        split at h
        · cases h
        · rename_i plan st3 hassign
          try dsimp only at h ⊢
          split at h
          · cases h
          · rename_i sqlStr args2 hbuild
            cases h
            rfl

end PreparedLemmas

section ExecLemmas
variable {σ : Type}

theorem handleAfter_log (E : Engine σ) (st : State σ) (bean : Bean) :
    (handleAfterInsertProcessorFunc E st bean).1.log = st.log := by
  unfold handleAfterInsertProcessorFunc
  rfl

theorem deferred_log (E : Engine σ) (st : State σ) (r : Outcome × Bean) :
    (deferred E st r).2.1.log = st.log := by
  unfold deferred
  exact handleAfter_log E st r.2

theorem afterQuery_log (E : Engine σ) (st : State σ) (table : Table) (bean : Bean)
    (res : List (List (String × String))) (noRows : String) :
    (afterQuery E st table bean res noRows).2.1.log = st.log := by
  unfold afterQuery
  split
  · exact deferred_log E st _
  · split
    · exact deferred_log E st _
    · dsimp only
      split
      · exact deferred_log E st _
      · split <;> exact deferred_log E st _

theorem afterExec_log (E : Engine σ) (st : State σ) (table : Table) (bean : Bean)
    (res : Result) : (afterExec E st table bean res).2.1.log = st.log := by
  unfold afterExec
  split
  · exact deferred_log E st _
  · split
    · exact deferred_log E st _
    · split
      · exact deferred_log E st _
      · split
        · exact deferred_log E st _
        · split <;> exact deferred_log E st _

/-- The execution part of `innerInsert` issues exactly one call to the store,
whatever comes of it. -/
theorem execInsert_log (E : Engine σ) (st : State σ) (table : Table) (bean : Bean)
    (sqlStr : String) (args : List GoValue) :
    (execInsert E st table bean sqlStr args).2.1.log
      = st.log ++ [storeCall E table sqlStr args] := by
  unfold execInsert storeCall
  split
  · dsimp only
    split
    · rfl
    · rw [afterQuery_log]; rfl
  · split
    · dsimp only
      split
      · rfl
      · rw [afterQuery_log]; rfl
    · dsimp only
      split
      · rfl
      · rw [afterExec_log]; rfl

/-- When the store rejects the call, the execution part returns that error
with count 0 and hands the record back as it received it. -/
theorem execInsert_of_storeError (E : Engine σ) (st : State σ) (table : Table) (bean : Bean)
    (sqlStr : String) (args : List GoValue) (err : Error)
    (h : storeError E st.db (storeCall E table sqlStr args) = some err) :
    (execInsert E st table bean sqlStr args).1 = .ret 0 (some err) ∧
      (execInsert E st table bean sqlStr args).2.2 = bean := by
  unfold execInsert
  unfold storeCall at h
  split
  · rename_i hc
    rw [if_pos hc] at h
    simp only [storeError] at h
    dsimp only [State.queryBytes]
    split at h
    · rename_i e he
      cases h
      exact ⟨rfl, rfl⟩
    · cases h
  · rename_i hc
    rw [if_neg hc] at h
    split
    · rename_i hc2
      rw [if_pos hc2] at h
      simp only [storeError] at h
      dsimp only [State.queryBytes]
      split at h
      · rename_i e he
        cases h
        exact ⟨rfl, rfl⟩
      · cases h
    · rename_i hc2
      rw [if_neg hc2] at h
      simp only [storeError] at h
      dsimp only [State.exec]
      split at h
      · rename_i e he
        cases h
        exact ⟨rfl, rfl⟩
      · cases h

end ExecLemmas

section PrepareLemmas
variable {σ : Type}

/-- The identifier step when no sequence applies, a random-ID column is
configured and not in the plan, and its field can be read and set. -/
theorem assignID_random_step (E : Engine σ) (st : State σ) (table : Table) (bean : Bean)
    (names : List String) (args : List GoValue) (col : Column) (old : GoValue)
    (hseq : table.AutoIncrement = "" ∨ E.sequenceGenerator = none)
    (hrand : table.RandomID ≠ "")
    (hcol : E.GetColumn table table.RandomID = some col)
    (hnot : table.RandomID ∉ names)
    (hold : valueOf col bean = .ok old) (hcan : bean.canSet = true) :
    assignID E st table bean names args
      = (.inr ⟨names ++ [table.RandomID], args ++ [GoValue.int (E.randomIDGen st.db).1],
            setField col.Name (E.int64ToIntValue (E.randomIDGen st.db).1 old) bean⟩,
          { st with db := (E.randomIDGen st.db).2,
                    log := st.log ++ [Event.randomID (E.randomIDGen st.db).1] }) := by
  have hc : names.contains table.RandomID = false := by
    cases hx : names.contains table.RandomID with
    | false => rfl
    | true => exact absurd (by simpa using hx) hnot
  have hsel : (if table.AutoIncrement ≠ "" then E.sequenceGenerator else none) = none := by
    rcases hseq with h | h
    · simp [h]
    · simp [h]
  unfold assignID
  rw [hsel]
  simp only [ne_eq, hrand, not_false_eq_true, if_true, hc, Bool.not_false, hcol, hold, hcan,
    Bool.not_true, Bool.false_eq_true, if_false]

/-- The preparation of `innerInsert`, from the results of its steps. -/
theorem prepareInsert_of_steps (E : Engine σ) (st : State σ) (bean : Bean) (s : Statement)
    (names : List String) (args : List GoValue) (st2 st3 : State σ) (plan : Plan)
    (sqlStr : String) (args2 : List GoValue)
    (hset : E.setRefBean st.session.statement bean = .ok s)
    (hname : E.TableName s ≠ "")
    (hgen : genInsertColumns E (beforeInsert E st s bean).1 (beforeInsert E st s bean).2
      = ((names, args, none), st2))
    (hassign : assignID E st2 s.RefTable (beforeInsert E st s bean).2 names args
      = (.inr plan, st3))
    (hbuild : buildInsert E st3.session.statement s.RefTable plan.colNames plan.args
      = .ok (sqlStr, args2)) :
    prepareInsert E st bean = some ⟨s.RefTable, plan, st3, sqlStr, args2⟩ := by
  unfold prepareInsert
  rw [hset]
  dsimp only
  rw [if_neg hname]
  have hgen2 := hgen
  unfold beforeInsert at hgen2
  dsimp only at hgen2
  rw [hgen2]
  dsimp only
  have hassign2 := hassign
  unfold beforeInsert at hassign2
  dsimp only at hassign2
  rw [hassign2]
  dsimp only
  rw [hbuild]

end PrepareLemmas

section AssignLemmas
variable {σ : Type}

/-- The identifier step leaves the session alone. -/
theorem assignID_session (E : Engine σ) (st : State σ) (table : Table) (bean : Bean)
    (names : List String) (args : List GoValue) :
    (assignID E st table bean names args).2.session = st.session := by
  unfold assignID
  dsimp only
  repeat' split
  all_goals rfl

end AssignLemmas
/-! ### Optimistic write of the random identifier -/

section RandomClaims
variable {σ : Type}

/-- C11, counterexample.  On the table with a random-ID column, a record with
a zero identifier that was handed over by value: the random-ID column is not in
the plan and the generator is called, but the identifier is not written into
the record and no statement is executed; `innerInsert` returns an error and
hands the record back unchanged. -/
theorem random_id_not_written_to_unsettable_record :
    (genInsertColumns (sampleEngine DBType.MYSQL false 0) (sampleState randomTable)
        byValueBean).1 = (["name"], [GoValue.str "a"], none) ∧
    innerInsert (sampleEngine DBType.MYSQL false 0) (sampleState randomTable) byValueBean
      = (.ret 0 (some (Error.msg "failed to set snowflake ID to bean: <nil>")),
          { session := { statement := { RefTable := randomTable } }, db := 0,
            log := [Event.randomID 1000] },
          byValueBean) ∧
    valueOf { Name := "id", IsRandomID := true } byValueBean = .ok (GoValue.int 0) := by
  decide

/-- C11, amended.  Let a single-record insert resolve its table (`hset`,
`hname`), let `genInsertColumns` return the plan `names`, `args` on the record
as the before-insert step leaves it, and let the table use the random-ID
strategy (no sequence applies, a random-ID column is configured) with the
random-ID column not in the plan, found in the table, and its field readable
and settable.  Then the identifier step appends the generated identifier as
the last column and the last argument and writes it into the record, with only
the generator called so far.  Whenever the statement is built from that plan,
`innerInsert` reaches the store with that plan and record, and its call record
is the generator call followed by the one store call.  If the store rejects
that call, `innerInsert` returns count 0 with the store's error and the record
it hands back still holds the generated identifier. -/
theorem random_id_written_before_execution (E : Engine σ) (st : State σ) (bean : Bean)
    (s : Statement) (names : List String) (args : List GoValue) (st2 : State σ) (col : Column)
    (old : GoValue)
    (hset : E.setRefBean st.session.statement bean = .ok s)
    (hname : E.TableName s ≠ "")
    (hgen : genInsertColumns E (beforeInsert E st s bean).1 (beforeInsert E st s bean).2
      = ((names, args, none), st2))
    (hseq : s.RefTable.AutoIncrement = "" ∨ E.sequenceGenerator = none)
    (hrand : s.RefTable.RandomID ≠ "")
    (hnot : s.RefTable.RandomID ∉ names)
    (hcol : E.GetColumn s.RefTable s.RefTable.RandomID = some col)
    (hold : valueOf col (beforeInsert E st s bean).2 = .ok old)
    (hcan : (beforeInsert E st s bean).2.canSet = true) :
    (assignID E st2 s.RefTable (beforeInsert E st s bean).2 names args).1
      = .inr ⟨names ++ [s.RefTable.RandomID], args ++ [GoValue.int (E.randomIDGen st2.db).1],
          setField col.Name (E.int64ToIntValue (E.randomIDGen st2.db).1 old)
            (beforeInsert E st s bean).2⟩ ∧
    (assignID E st2 s.RefTable (beforeInsert E st s bean).2 names args).2.log
      = st.log ++ [Event.randomID (E.randomIDGen st2.db).1] ∧
    valueOf col (setField col.Name (E.int64ToIntValue (E.randomIDGen st2.db).1 old)
        (beforeInsert E st s bean).2)
      = .ok (E.int64ToIntValue (E.randomIDGen st2.db).1 old) ∧
    (∀ sqlStr args2,
      buildInsert E st2.session.statement s.RefTable (names ++ [s.RefTable.RandomID])
          (args ++ [GoValue.int (E.randomIDGen st2.db).1]) = .ok (sqlStr, args2) →
      (∃ p, prepareInsert E st bean = some p ∧
        p.plan.colNames = names ++ [s.RefTable.RandomID] ∧
        p.plan.args = args ++ [GoValue.int (E.randomIDGen st2.db).1] ∧
        p.plan.bean = setField col.Name (E.int64ToIntValue (E.randomIDGen st2.db).1 old)
          (beforeInsert E st s bean).2 ∧
        p.st.log = st.log ++ [Event.randomID (E.randomIDGen st2.db).1] ∧
        p.sqlStr = sqlStr ∧ p.args = args2) ∧
      (innerInsert E st bean).2.1.log
        = st.log ++ [Event.randomID (E.randomIDGen st2.db).1,
            storeCall E s.RefTable sqlStr args2] ∧
      ∀ err, storeError E (E.randomIDGen st2.db).2 (storeCall E s.RefTable sqlStr args2)
          = some err →
        (innerInsert E st bean).1 = .ret 0 (some err) ∧
        (innerInsert E st bean).2.2
          = setField col.Name (E.int64ToIntValue (E.randomIDGen st2.db).1 old)
              (beforeInsert E st s bean).2 ∧
        valueOf col (innerInsert E st bean).2.2
          = .ok (E.int64ToIntValue (E.randomIDGen st2.db).1 old)) := by
  have hassign := assignID_random_step E st2 s.RefTable (beforeInsert E st s bean).2 names args
    col old hseq hrand hcol hnot hold hcan
  have hlog2 : st2.log = st.log := by
    have h := congrArg (fun r => r.2.log) hgen
    dsimp only at h
    rw [← h]
    exact genInsertColumnsLoop_log E _ _ _ _ _
  have hval := valueOf_setField_same col (E.int64ToIntValue (E.randomIDGen st2.db).1 old) old
    (beforeInsert E st s bean).2 hold
  refine ⟨?_, ?_, hval, ?_⟩
  · rw [hassign]
  · rw [hassign]
    show st2.log ++ _ = _
    rw [hlog2]
  · intro sqlStr args2 hbuild
    have hprep := prepareInsert_of_steps E st bean s names args st2 _ _ sqlStr args2 hset hname
      hgen hassign hbuild
    have hinner := innerInsert_of_prepared E st bean _ hprep
    refine ⟨⟨_, hprep, rfl, rfl, rfl, ?_, rfl, rfl⟩, ?_, ?_⟩
    · show st2.log ++ _ = _
      rw [hlog2]
    · rw [hinner, execInsert_log]
      show (st2.log ++ _) ++ _ = _
      rw [hlog2]
      simp
    · intro err hfail
      obtain ⟨hout, hbean⟩ := execInsert_of_storeError E
        ({ st2 with db := (E.randomIDGen st2.db).2, log := st2.log ++ [Event.randomID (E.randomIDGen st2.db).1] } : State σ)
        s.RefTable
        (setField col.Name (E.int64ToIntValue (E.randomIDGen st2.db).1 old) (beforeInsert E st s bean).2)
        sqlStr args2 err hfail
      refine ⟨?_, ?_, ?_⟩
      · rw [hinner]
        exact hout
      · rw [hinner]
        exact hbean
      · rw [hinner, hbean]
        exact hval

/-- Witness for C11: a zero-identifier record of the table with a random-ID
column on the concrete engine whose store rejects the first statement.  The
plan ends with the identifier column and identifier 1000, the call record is
the generator call followed by the rejected statement, the insert returns
count 0 with the store's error, and the record holds identifier 1000. -/
theorem random_id_written_before_execution_witness :
    (assignID (sampleEngine DBType.MYSQL false 1) (sampleState randomTable) randomTable
        (randomBean 1 "a") ["name"] [GoValue.str "a"]).1
      = .inr ⟨["name", "id"], [GoValue.str "a", GoValue.int 1000],
          setField "id" (GoValue.int 1000) (randomBean 1 "a")⟩ ∧
    (innerInsert (sampleEngine DBType.MYSQL false 1) (sampleState randomTable)
        (randomBean 1 "a")).2.1.log
      = [Event.randomID 1000,
         Event.exec "INSERT INTO `t` (`name`,`id`) VALUES (?, ?)"
          [GoValue.str "a", GoValue.int 1000]] ∧
    (innerInsert (sampleEngine DBType.MYSQL false 1) (sampleState randomTable)
        (randomBean 1 "a")).1 = .ret 0 (some (Error.other 1)) ∧
    valueOf { Name := "id", IsRandomID := true }
        (innerInsert (sampleEngine DBType.MYSQL false 1) (sampleState randomTable)
          (randomBean 1 "a")).2.2 = .ok (GoValue.int 1000) :=
  have h := random_id_written_before_execution (sampleEngine DBType.MYSQL false 1)
    (sampleState randomTable) (randomBean 1 "a") (sampleState randomTable).session.statement
    ["name"] [GoValue.str "a"] (sampleState randomTable) { Name := "id", IsRandomID := true }
    (GoValue.int 0) rfl (by decide) (by decide) (Or.inl rfl) (by decide) (by decide) rfl rfl rfl
  have h4 := h.2.2.2 "INSERT INTO `t` (`name`,`id`) VALUES (?, ?)"
    [GoValue.str "a", GoValue.int 1000] (by decide)
  have h5 := h4.2.2 (Error.other 1) (by decide)
  ⟨h.1, h4.2.1, h5.1, h5.2.2⟩

end RandomClaims
/-! ### Key retrieval -/

section KeyLemmas
variable {σ : Type}

theorem incrVersion_some (E : Engine σ) (s : Statement) (table : Table) (bean : Bean)
    (hver : table.Version ≠ "" → ∃ vcol, E.GetColumn table table.Version = some vcol) :
    ∃ bean2, incrVersion E s table bean = some bean2 := by
  unfold incrVersion
  split
  · rename_i hc
    obtain ⟨vcol, hv⟩ := hver hc.1
    rw [hv]
    dsimp only
    split
    · exact ⟨_, rfl⟩
    · split <;> exact ⟨_, rfl⟩
  · exact ⟨_, rfl⟩

theorem afterQuery_empty (E : Engine σ) (stq : State σ) (table : Table) (bean bean2 : Bean)
    (noRows : String) (hb : incrVersion E stq.session.statement table bean = some bean2) :
    afterQuery E stq table bean [] noRows
      = deferred E stq (.ret 0 (some (Error.msg noRows)), bean2) := by
  unfold afterQuery
  rw [hb]

theorem afterExec_nokey (E : Engine σ) (stq : State σ) (table : Table) (bean bean2 : Bean)
    (res : Result) (hauto : table.AutoIncrement ≠ "")
    (hb : incrVersion E stq.session.statement table bean = some bean2)
    (hkey : res.LastInsertId.2 ≠ none ∨ res.LastInsertId.1 ≤ 0) :
    afterExec E stq table bean res
      = deferred E stq (.ret res.RowsAffected.1 res.RowsAffected.2, bean2) := by
  unfold afterExec
  rw [hb]
  dsimp only
  rw [if_neg hauto]
  split
  · rfl
  · rename_i insertID hl
    rcases hkey with h | h
    · rw [hl] at h
      exact absurd rfl h
    · rw [hl] at h
      rw [if_pos h]

/-- The version block and the after-insert handling leave a field alone that
the hooks and the version column do not touch. -/
theorem deferred_valueOf (E : Engine σ) (stq : State σ) (table : Table) (s : Statement)
    (bean bean2 : Bean) (out : Outcome) (col : Column)
    (hb : incrVersion E s table bean = some bean2)
    (hhooks : HooksKeep E col)
    (hver : ∀ vcol, E.GetColumn table table.Version = some vcol → vcol.Name ≠ col.Name) :
    valueOf col (deferred E stq (out, bean2)).2.2 = valueOf col bean := by
  obtain ⟨hclosure, _, hafter⟩ := hhooks
  unfold deferred
  dsimp only
  rw [(handleAfter_spec E col stq (fun c _ b => (hclosure c b).1) hafter bean2).1]
  exact incrVersion_valueOf E s table col hver bean bean2 hb

end KeyLemmas

section KeylessLemmas

theorem keyless_hooks_keep {col : Column} : HooksKeep keylessEngine col := by
  refine ⟨fun c b => ⟨rfl, rfl⟩, ?_, ?_⟩
  · intro b b' h
    cases h
  · intro b b' h
    cases h

theorem keyless_no_version (table : Table) (col : Column)
    (hv : ∀ c ∈ table.columns, c.Name ≠ table.Version) :
    ∀ vcol, keylessEngine.GetColumn table table.Version = some vcol → vcol.Name ≠ col.Name := by
  intro vcol h
  have hm := List.mem_of_find?_eq_some h
  have hp := List.find?_some h
  simp only [beq_iff_eq] at hp
  exact absurd hp (hv vcol hm)

end KeylessLemmas
/-! ### Failure of key retrieval -/

section KeyClaims
variable {σ : Type}

/-- C12. Let a single-record insert on a table with an auto-increment column
reach the store with the prepared statement `p` (the version column, when one
is named, exists).  On Oracle, when the follow-up read returns zero rows, and
on Postgres, when the statement with its return clause returns zero rows,
`innerInsert` returns count 0 with an error.  On the other dialects, when the
statement is accepted with result `res` and `LastInsertId` fails or is not
positive, `innerInsert` returns what `RowsAffected` reports.  In all three
cases the record handed back is the result of the version block and the
after-insert handling alone, no identifier is written: every field that the
hooks and the version column leave alone holds what it held when the store was
reached. -/
theorem key_retrieval_failure (E : Engine σ) (st : State σ) (bean : Bean) (p : Prepared σ)
    (res : Result)
    (hprep : prepareInsert E st bean = some p)
    (hauto : p.table.AutoIncrement ≠ "")
    (hver : p.table.Version ≠ "" → ∃ vcol, E.GetColumn p.table p.table.Version = some vcol)
    (hcase :
      (E.DBType = DBType.ORACLE ∧
        (E.queryBytes p.st.db "select seq_atable.currval from dual" p.args).1 = .ok []) ∨
      (E.DBType = DBType.POSTGRES ∧ (E.queryBytes p.st.db p.sqlStr p.args).1 = .ok []) ∨
      (E.DBType ≠ DBType.ORACLE ∧ E.DBType ≠ DBType.POSTGRES ∧
        (E.exec p.st.db p.sqlStr p.args).1 = .ok res ∧
        (res.LastInsertId.2 ≠ none ∨ res.LastInsertId.1 ≤ 0))) :
    (innerInsert E st bean).1 =
      (if E.DBType = DBType.ORACLE then
        .ret 0 (some (Error.msg "insert no error but not returned id"))
       else if E.DBType = DBType.POSTGRES then
        .ret 0 (some (Error.msg "insert successfully but not returned id"))
       else .ret res.RowsAffected.1 res.RowsAffected.2) ∧
    (∃ bean2 stq, incrVersion E p.st.session.statement p.table p.plan.bean = some bean2 ∧
      (innerInsert E st bean).2.2 = (handleAfterInsertProcessorFunc E stq bean2).2) ∧
    (∀ col, HooksKeep E col →
      (∀ vcol, E.GetColumn p.table p.table.Version = some vcol → vcol.Name ≠ col.Name) →
      valueOf col (innerInsert E st bean).2.2 = valueOf col p.plan.bean) := by
  obtain ⟨bean2, hb⟩ := incrVersion_some E p.st.session.statement p.table p.plan.bean hver
  rw [innerInsert_of_prepared E st bean p hprep]
  have key : ∀ (stq : State σ) (out : Outcome),
      stq.session.statement = p.st.session.statement →
      execInsert E p.st p.table p.plan.bean p.sqlStr p.args = deferred E stq (out, bean2) →
      (execInsert E p.st p.table p.plan.bean p.sqlStr p.args).1 = out ∧
      (∃ bean2 stq, incrVersion E p.st.session.statement p.table p.plan.bean = some bean2 ∧
        (execInsert E p.st p.table p.plan.bean p.sqlStr p.args).2.2
          = (handleAfterInsertProcessorFunc E stq bean2).2) ∧
      (∀ col, HooksKeep E col →
        (∀ vcol, E.GetColumn p.table p.table.Version = some vcol → vcol.Name ≠ col.Name) →
        valueOf col (execInsert E p.st p.table p.plan.bean p.sqlStr p.args).2.2
          = valueOf col p.plan.bean) := by
    intro stq out _ he
    rw [he]
    refine ⟨rfl, ⟨bean2, stq, hb, rfl⟩, ?_⟩
    intro col hhooks hv
    exact deferred_valueOf E stq p.table p.st.session.statement p.plan.bean bean2 out col hb
      hhooks hv
  rcases hcase with ⟨hd, hq⟩ | ⟨hd, hq⟩ | ⟨hd1, hd2, hx, hkey⟩
  · rw [if_pos hd]
    apply key (State.queryBytes E p.st "select seq_atable.currval from dual" p.args).2 _ rfl
    unfold execInsert
    rw [if_pos ⟨hd, hauto⟩]
    dsimp only
    have hq2 : (State.queryBytes E p.st "select seq_atable.currval from dual" p.args).1
        = .ok [] := hq
    rw [hq2]
    exact afterQuery_empty E _ p.table p.plan.bean bean2 _ hb
  · have hno : E.DBType ≠ DBType.ORACLE := by rw [hd]; decide
    rw [if_neg hno, if_pos hd]
    apply key (State.queryBytes E p.st p.sqlStr p.args).2 _ rfl
    unfold execInsert
    rw [if_neg (fun h => hno h.1), if_pos ⟨hauto, hd⟩]
    dsimp only
    have hq2 : (State.queryBytes E p.st p.sqlStr p.args).1 = .ok [] := hq
    rw [hq2]
    exact afterQuery_empty E _ p.table p.plan.bean bean2 _ hb
  · rw [if_neg hd1, if_neg hd2]
    apply key (State.exec E p.st p.sqlStr p.args).2 _ rfl
    unfold execInsert
    rw [if_neg (fun h => hd1 h.1), if_neg (fun h => hd2 h.2)]
    dsimp only
    have hx2 : (State.exec E p.st p.sqlStr p.args).1 = .ok res := hx
    rw [hx2]
    exact afterExec_nokey E _ p.table p.plan.bean bean2 res hauto hb hkey

/-- Witness for C12: a zero-identifier record of the table with an
auto-increment column.  On the concrete Oracle engine the follow-up read
returns no row: count 0 and an error.  On the concrete engine whose driver
reports no key the insert returns the affected count 1 without error.  In both
cases the identifier field still holds zero. -/
theorem key_retrieval_failure_witness :
    ((innerInsert (sampleEngine DBType.ORACLE false 0) (sampleState autoTable)
        (randomBean 1 "a")).1
        = .ret 0 (some (Error.msg "insert no error but not returned id")) ∧
      valueOf { Name := "id", IsAutoIncrement := true }
        (innerInsert (sampleEngine DBType.ORACLE false 0) (sampleState autoTable)
          (randomBean 1 "a")).2.2 = .ok (GoValue.int 0)) ∧
    ((innerInsert keylessEngine (sampleState autoTable) (randomBean 1 "a")).1 = .ret 1 none ∧
      valueOf { Name := "id", IsAutoIncrement := true }
        (innerInsert keylessEngine (sampleState autoTable) (randomBean 1 "a")).2.2
        = .ok (GoValue.int 0)) :=
  have h1 := key_retrieval_failure (sampleEngine DBType.ORACLE false 0) (sampleState autoTable)
    (randomBean 1 "a")
    ⟨autoTable, ⟨["name"], [GoValue.str "a"], randomBean 1 "a"⟩, sampleState autoTable,
      "INSERT INTO `t` (`name`) VALUES (?)", [GoValue.str "a"]⟩
    ⟨(0, none), (0, none)⟩ (by decide) (by decide) (fun h => absurd rfl h)
    (Or.inl ⟨rfl, rfl⟩)
  have h2 := key_retrieval_failure keylessEngine (sampleState autoTable) (randomBean 1 "a")
    ⟨autoTable, ⟨["name"], [GoValue.str "a"], randomBean 1 "a"⟩, sampleState autoTable,
      "INSERT INTO `t` (`name`) VALUES (?)", [GoValue.str "a"]⟩
    ⟨(1, none), (0, some (Error.other 2))⟩ (by decide) (by decide) (fun h => absurd rfl h)
    (Or.inr (Or.inr ⟨by decide, by decide, rfl, Or.inl (by decide)⟩))
  ⟨⟨h1.1, (h1.2.2 _ (sample_hooks_keep _ _ _ _)
      (sample_no_version _ _ _ _ _ (by decide))).trans rfl⟩,
   ⟨h2.1, (h2.2.2 _ keyless_hooks_keep (keyless_no_version _ _ (by decide))).trans rfl⟩⟩

end KeyClaims
/-! ### Empty batches -/

section EmptyClaims
variable {σ : Type}

/-- C13, counterexample.  `InsertMulti` with an empty slice returns count 0
and no error, not the empty-batch error; `Insert` with the same slice returns
the empty-batch error. -/
theorem InsertMulti_empty_returns_no_error :
    InsertMulti (sampleEngine DBType.MYSQL true 0) (sampleState sampleTable) []
      = (.ret 0 none, sampleState sampleTable, []) ∧
    (InsertMulti (sampleEngine DBType.MYSQL true 0) (sampleState sampleTable) []).1
      ≠ .ret 0 (some Error.ErrNoElementsOnSlice) ∧
    (Insert (sampleEngine DBType.MYSQL true 0) (sampleState sampleTable) [.slice []]).1
      = .ret 0 (some Error.ErrNoElementsOnSlice) := by
  decide

/-- C13, amended.  `Insert` whose first argument is an empty slice of records
returns count 0 with the empty-batch error `ErrNoElementsOnSlice`; the state is
the entry state after the deferred statement reset (and the close of an
auto-closing session) only, the call record is unchanged (no statement was
issued), and the arguments are handed back untouched (no hook ran, no record
was changed).  `InsertMulti` with an empty slice returns count 0 and no error;
its state is the entry state, closed when the session is auto-closing, and the
call record is unchanged. -/
theorem empty_batch_returns_before_any_statement (E : Engine σ) (st : State σ)
    (rest : List InsertArg) :
    Insert E st (.slice [] :: rest)
      = (.ret 0 (some Error.ErrNoElementsOnSlice),
          endInsert E st.session.isAutoClose (beginInsert st), .slice [] :: rest) ∧
    (Insert E st (.slice [] :: rest)).2.1.log = st.log ∧
    InsertMulti E st []
      = (.ret 0 none,
          (if st.session.isAutoClose then
            { st with session := (E.Close st.session st.db).1, db := (E.Close st.session st.db).2 }
           else st), []) ∧
    (InsertMulti E st []).2.1.log = st.log := by
  have h1 : Insert E st (.slice [] :: rest)
      = (.ret 0 (some Error.ErrNoElementsOnSlice),
          endInsert E st.session.isAutoClose (beginInsert st), .slice [] :: rest) := by
    simp [Insert, insertArgs, insertArg]
  have h2 : InsertMulti E st []
      = (.ret 0 none,
          (if st.session.isAutoClose then
            { st with session := (E.Close st.session st.db).1, db := (E.Close st.session st.db).2 }
           else st), []) := by
    unfold InsertMulti
    by_cases hc : st.session.isAutoClose = true
    · simp [hc]
    · simp [hc]
  refine ⟨h1, ?_, h2, ?_⟩
  · rw [h1]
    exact endInsert_log E _ _
  · rw [h2]
    dsimp only
    split <;> rfl

end EmptyClaims
/-! ### Columns of a map insert -/

section MapLemmas
variable {σ : Type}

theorem string_le_trans (a b c : String) :
    decide (a ≤ b) = true → decide (b ≤ c) = true → decide (a ≤ c) = true := by
  intro h1 h2
  exact decide_eq_true (le_trans (of_decide_eq_true h1) (of_decide_eq_true h2))

theorem string_le_total (a b : String) : (decide (a ≤ b) || decide (b ≤ a)) = true := by
  rcases le_total a b with h | h
  · simp [h]
  · simp [h]

theorem mapColumns_perm (E : Engine σ) (exprs : exprParams) (keys : List String) :
    (mapColumns E exprs keys).Perm (keys.filter (fun k => !E.isColExist exprs k)) :=
  List.mergeSort_perm _ _

theorem mapColumns_mem (E : Engine σ) (exprs : exprParams) (keys : List String) (k : String) :
    k ∈ mapColumns E exprs keys ↔ k ∈ keys ∧ E.isColExist exprs k = false := by
  rw [(mapColumns_perm E exprs keys).mem_iff, List.mem_filter]
  simp

theorem mapColumns_le (E : Engine σ) (exprs : exprParams) (keys : List String) :
    (mapColumns E exprs keys).Pairwise (fun a b => a ≤ b) := by
  have h := List.sorted_mergeSort string_le_trans string_le_total
    (keys.filter (fun k => !E.isColExist exprs k))
  exact h.imp (fun hab => of_decide_eq_true hab)

theorem mapColumns_lt (E : Engine σ) (exprs : exprParams) (keys : List String)
    (hnd : keys.Nodup) : (mapColumns E exprs keys).Pairwise (fun a b => a < b) := by
  have hnd2 : (mapColumns E exprs keys).Nodup :=
    (mapColumns_perm E exprs keys).nodup_iff.2 (hnd.filter _)
  exact ((mapColumns_le E exprs keys).and hnd2).imp (fun h => lt_of_le_of_ne h.1 h.2)

/-- The sorted column list depends on the set of keys only, not on the order in
which the map yields them. -/
theorem mapColumns_of_perm (E : Engine σ) (exprs : exprParams) {keys keys' : List String}
    (hp : keys'.Perm keys) : mapColumns E exprs keys' = mapColumns E exprs keys := by
  have h1 : (mapColumns E exprs keys').Perm (mapColumns E exprs keys) :=
    ((mapColumns_perm E exprs keys').trans (hp.filter _)).trans
      (mapColumns_perm E exprs keys).symm
  exact List.eq_of_perm_of_sorted h1 (mapColumns_le E exprs keys') (mapColumns_le E exprs keys)

theorem lookup_of_mem {β : Type} (m : List (String × β)) (hnd : (m.map Prod.fst).Nodup)
    (k : String) (v : β) (h : (k, v) ∈ m) : m.lookup k = some v := by
  induction m with
  | nil => simp at h
  | cons p m ih =>
    obtain ⟨a, b⟩ := p
    rw [List.map_cons, List.nodup_cons] at hnd
    rcases List.mem_cons.1 h with heq | hin
    · cases heq
      rw [List.lookup_cons, beq_self_eq_true]
    · have hne : (k == a) = false := by
        simp only [beq_eq_false_iff_ne, ne_eq]
        intro hka
        apply hnd.1
        rw [← hka]
        exact List.mem_map.2 ⟨(k, v), hin, rfl⟩
      rw [List.lookup_cons, hne]
      exact ih hnd.2 hin

theorem mem_of_lookup {β : Type} (m : List (String × β)) (k : String) (v : β)
    (h : m.lookup k = some v) : (k, v) ∈ m := by
  induction m with
  | nil => simp at h
  | cons p m ih =>
    obtain ⟨a, b⟩ := p
    rw [List.lookup_cons] at h
    cases hka : (k == a) with
    | true =>
      rw [hka] at h
      have hk : k = a := by simpa using hka
      cases h
      rw [hk]
      exact List.mem_cons_self _ _
    | false =>
      rw [hka] at h
      exact List.mem_cons_of_mem _ (ih h)

theorem lookup_of_perm {β : Type} {m m' : List (String × β)} (hp : m'.Perm m)
    (hnd : (m.map Prod.fst).Nodup) (k : String) : m'.lookup k = m.lookup k := by
  have hnd' : (m'.map Prod.fst).Nodup := (hp.map Prod.fst).nodup_iff.2 hnd
  cases h : m.lookup k with
  | some v => exact lookup_of_mem m' hnd' k v (hp.mem_iff.2 (mem_of_lookup m k v h))
  | none =>
    cases h' : m'.lookup k with
    | none => rfl
    | some v =>
      have := lookup_of_mem m hnd k v (hp.mem_iff.1 (mem_of_lookup m' k v h'))
      rw [h] at this
      cases this

theorem lookup_of_key {β : Type} (m : List (String × β)) (k : String)
    (h : k ∈ m.map Prod.fst) : ∃ v, m.lookup k = some v ∧ (k, v) ∈ m := by
  cases hl : m.lookup k with
  | some v => exact ⟨v, rfl, mem_of_lookup m k v hl⟩
  | none =>
    rw [List.lookup_eq_none_iff] at hl
    obtain ⟨p, hp, hk⟩ := List.mem_map.1 h
    have := hl p hp
    simp [hk] at this

end MapLemmas
/-! ### Map inserts -/

section MapClaims
variable {σ : Type}

theorem insertMapInterface_of_perm (E : Engine σ) (st : State σ)
    {m m' : List (String × GoValue)} (hp : m'.Perm m) (hnd : (m.map Prod.fst).Nodup) :
    insertMapInterface E st m' = insertMapInterface E st m := by
  unfold insertMapInterface
  have hf : (fun colName => (m'.lookup colName).getD GoValue.nil)
      = (fun colName => (m.lookup colName).getD GoValue.nil) := by
    funext c
    rw [lookup_of_perm hp hnd]
  rw [hp.length_eq, mapColumns_of_perm E _ (hp.map Prod.fst), hf]

theorem insertMapString_of_perm (E : Engine σ) (st : State σ)
    {m m' : List (String × String)} (hp : m'.Perm m) (hnd : (m.map Prod.fst).Nodup) :
    insertMapString E st m' = insertMapString E st m := by
  unfold insertMapString
  have hf : (fun colName => GoValue.str ((m'.lookup colName).getD ""))
      = (fun colName => GoValue.str ((m.lookup colName).getD "")) := by
    funext c
    rw [lookup_of_perm hp hnd]
  rw [hp.length_eq, mapColumns_of_perm E _ (hp.map Prod.fst), hf]

/-- C14. Let `m` be a non-empty map with values of any type and `ms` a
non-empty map with string values, each given by its entries in iteration order
(keys distinct).  Unless the table name is empty, `insertMapInterface` calls
`insertMap` with columns `cols` and arguments `args` such that: `cols` holds
exactly the keys of the map that are not expression columns; `cols` is
strictly ascending in string order (sorted, no duplicates); `args` is parallel
to `cols`, each argument being the value the map binds to its column; and the
result is the same for every other iteration order of the map.  The same holds
for `insertMapString`, with every argument the string bound to its column. -/
theorem map_columns_sorted_parallel (E : Engine σ) (st : State σ)
    (m : List (String × GoValue)) (ms : List (String × String))
    (hm : m ≠ []) (hms : ms ≠ [])
    (hkeys : (m.map Prod.fst).Nodup) (hkeys2 : (ms.map Prod.fst).Nodup) :
    (∃ cols args,
      insertMapInterface E st m
        = (if E.TableName st.session.statement = "" then
            (.ret 0 (some Error.ErrTableNotFound), st)
           else insertMap E st cols args) ∧
      (∀ k, k ∈ cols ↔
        k ∈ m.map Prod.fst ∧ E.isColExist st.session.statement.exprColumns k = false) ∧
      cols.Pairwise (fun a b => a < b) ∧
      List.Forall₂ (fun c a => (c, a) ∈ m) cols args ∧
      ∀ m', m'.Perm m → insertMapInterface E st m' = insertMapInterface E st m) ∧
    (∃ cols args,
      insertMapString E st ms
        = (if E.TableName st.session.statement = "" then
            (.ret 0 (some Error.ErrTableNotFound), st)
           else insertMap E st cols args) ∧
      (∀ k, k ∈ cols ↔
        k ∈ ms.map Prod.fst ∧ E.isColExist st.session.statement.exprColumns k = false) ∧
      cols.Pairwise (fun a b => a < b) ∧
      List.Forall₂ (fun c a => ∃ v, (c, v) ∈ ms ∧ a = GoValue.str v) cols args ∧
      ∀ ms', ms'.Perm ms → insertMapString E st ms' = insertMapString E st ms) := by
  constructor
  · refine ⟨mapColumns E st.session.statement.exprColumns (m.map Prod.fst),
      (mapColumns E st.session.statement.exprColumns (m.map Prod.fst)).map
        (fun colName => (m.lookup colName).getD GoValue.nil), ?_, ?_, ?_, ?_, ?_⟩
    · unfold insertMapInterface
      have hlen : m.length ≠ 0 := fun h => hm (List.length_eq_zero.1 h)
      rw [if_neg hlen]
    · exact mapColumns_mem E _ _
    · exact mapColumns_lt E _ _ hkeys
    · rw [List.forall₂_map_right_iff, List.forall₂_same]
      intro c hc
      obtain ⟨v, hl, hv⟩ := lookup_of_key m c ((mapColumns_mem E _ _ c).1 hc).1
      rw [hl]
      exact hv
    · intro m' hp
      exact insertMapInterface_of_perm E st hp hkeys
  · refine ⟨mapColumns E st.session.statement.exprColumns (ms.map Prod.fst),
      (mapColumns E st.session.statement.exprColumns (ms.map Prod.fst)).map
        (fun colName => GoValue.str ((ms.lookup colName).getD "")), ?_, ?_, ?_, ?_, ?_⟩
    · unfold insertMapString
      have hlen : ms.length ≠ 0 := fun h => hms (List.length_eq_zero.1 h)
      rw [if_neg hlen]
    · exact mapColumns_mem E _ _
    · exact mapColumns_lt E _ _ hkeys2
    · rw [List.forall₂_map_right_iff, List.forall₂_same]
      intro c hc
      obtain ⟨v, hl, hv⟩ := lookup_of_key ms c ((mapColumns_mem E _ _ c).1 hc).1
      rw [hl]
      exact ⟨v, hv, rfl⟩
    · intro ms' hp
      exact insertMapString_of_perm E st hp hkeys2

/-- Witness for C14: the two-entry maps with keys b, a and y, x, yielded in
descending order, on the concrete engine. -/
theorem map_columns_sorted_parallel_witness :
    (∃ cols args,
      insertMapInterface (sampleEngine DBType.MYSQL false 0) (sampleState sampleTable) sampleMap
        = (if (sampleEngine DBType.MYSQL false 0).TableName
              (sampleState sampleTable).session.statement = "" then
            (.ret 0 (some Error.ErrTableNotFound), sampleState sampleTable)
           else insertMap (sampleEngine DBType.MYSQL false 0) (sampleState sampleTable) cols args) ∧
      (∀ k, k ∈ cols ↔
        k ∈ sampleMap.map Prod.fst ∧
          (sampleEngine DBType.MYSQL false 0).isColExist
            (sampleState sampleTable).session.statement.exprColumns k = false) ∧
      cols.Pairwise (fun a b => a < b) ∧
      List.Forall₂ (fun c a => (c, a) ∈ sampleMap) cols args ∧
      ∀ m', m'.Perm sampleMap →
        insertMapInterface (sampleEngine DBType.MYSQL false 0) (sampleState sampleTable) m'
          = insertMapInterface (sampleEngine DBType.MYSQL false 0) (sampleState sampleTable)
              sampleMap) ∧
    (∃ cols args,
      insertMapString (sampleEngine DBType.MYSQL false 0) (sampleState sampleTable)
          sampleStringMap
        = (if (sampleEngine DBType.MYSQL false 0).TableName
              (sampleState sampleTable).session.statement = "" then
            (.ret 0 (some Error.ErrTableNotFound), sampleState sampleTable)
           else insertMap (sampleEngine DBType.MYSQL false 0) (sampleState sampleTable) cols args) ∧
      (∀ k, k ∈ cols ↔
        k ∈ sampleStringMap.map Prod.fst ∧
          (sampleEngine DBType.MYSQL false 0).isColExist
            (sampleState sampleTable).session.statement.exprColumns k = false) ∧
      cols.Pairwise (fun a b => a < b) ∧
      List.Forall₂ (fun c a => ∃ v, (c, v) ∈ sampleStringMap ∧ a = GoValue.str v) cols args ∧
      ∀ ms', ms'.Perm sampleStringMap →
        insertMapString (sampleEngine DBType.MYSQL false 0) (sampleState sampleTable) ms'
          = insertMapString (sampleEngine DBType.MYSQL false 0) (sampleState sampleTable)
              sampleStringMap) :=
  map_columns_sorted_parallel (sampleEngine DBType.MYSQL false 0) (sampleState sampleTable)
    sampleMap sampleStringMap (by decide) (by decide) (by decide) (by decide)

end MapClaims
/-! ### The selection rule of the column loop -/

section SelectLemmas
variable {σ : Type}

/-- The selection rule in terms of the tests of the loop. -/
theorem selects_eq (E : Engine σ) (s : Statement) (bean : Bean) (col : Column) :
    selects E s bean col
      = (!col.IsDeleted && !excludedByStatement E s col
          && (match valueOf col bean with
              | .ok fieldValue =>
                !((col.IsAutoIncrement || col.IsRandomID) && isZeroOfKind fieldValue)
              | .error _ => false)) := by
  unfold selects excludedByStatement
  have hlen : decide (s.columnMap.length = 0) = !decide (s.columnMap.length > 0) := by
    by_cases h : s.columnMap.length = 0
    · simp [h]
    · have hp : s.columnMap.length > 0 := Nat.pos_of_ne_zero h
      simp [h, hp]
  rw [hlen]
  generalize (match valueOf col bean with
    | .ok fieldValue => !((col.IsAutoIncrement || col.IsRandomID) && isZeroOfKind fieldValue)
    | .error _ => false) = z
  generalize decide (s.columnMap.length > 0) = b
  cases col.IsDeleted <;> cases E.contain s.omitColumnMap col.Name <;> cases b <;>
    cases E.contain s.columnMap col.Name <;> cases E.isColExist s.incrColumns col.Name <;>
    cases E.isColExist s.decrColumns col.Name <;>
    cases E.isColExist s.exprColumns col.Name <;> rfl

/-- When field access and the conversion of the value to bind succeed on every
column, the loop returns without error and appends exactly the names of the
columns that the selection rule keeps, in order. -/
theorem genInsertColumnsLoop_selected (E : Engine σ) (s : Statement) (bean : Bean)
    (cols : List Column)
    (hfield : ∀ col ∈ cols, ∃ v, valueOf col bean = .ok v)
    (hconv : ∀ col ∈ cols, ∀ v, valueOf col bean = .ok v →
      ∃ arg, E.value2Interface col (nullableSubst E s col v) = .ok arg) :
    ∀ (names : List String) (args : List GoValue) (st : State σ), st.session.statement = s →
      (genInsertColumnsLoop E bean cols names args st).1.1
          = names ++ (cols.filter (selects E s bean)).map (fun col => col.Name) ∧
        (genInsertColumnsLoop E bean cols names args st).1.2.2 = none := by
  induction cols with
  | nil =>
    intro names args st _
    simp [genInsertColumnsLoop]
  | cons col cols ih =>
    intro names args st hs
    have ih' := ih (fun c hc => hfield c (List.mem_cons_of_mem _ hc))
      (fun c hc => hconv c (List.mem_cons_of_mem _ hc))
    obtain ⟨v, hv⟩ := hfield col (List.mem_cons_self _ _)
    obtain ⟨arg, harg⟩ := hconv col (List.mem_cons_self _ _) v hv
    have hsel := selects_eq E s bean col
    rw [hv] at hsel
    dsimp only at hsel
    unfold genInsertColumnsLoop
    rw [hs, hv]
    dsimp only
    by_cases hdel : col.IsDeleted = true
    · rw [if_pos hdel]
      have hf : selects E s bean col = false := by rw [hsel, hdel]; rfl
      rw [List.filter_cons_of_neg (by simp [hf])]
      exact ih' names args st hs
    · rw [if_neg hdel]
      have hdel' : col.IsDeleted = false := by simpa using hdel
      by_cases hex : excludedByStatement E s col = true
      · rw [if_pos hex]
        have hf : selects E s bean col = false := by rw [hsel, hex]; simp
        rw [List.filter_cons_of_neg (by simp [hf])]
        exact ih' names args st hs
      · rw [if_neg hex]
        have hex' : excludedByStatement E s col = false := by simpa using hex
        by_cases hz : ((col.IsAutoIncrement || col.IsRandomID) && isZeroOfKind v) = true
        · rw [if_pos hz]
          have hf : selects E s bean col = false := by rw [hsel, hz]; simp
          rw [List.filter_cons_of_neg (by simp [hf])]
          exact ih' names args st hs
        · rw [if_neg hz]
          have hz' : ((col.IsAutoIncrement || col.IsRandomID) && isZeroOfKind v) = false := by
            simpa using hz
          have ht : selects E s bean col = true := by rw [hsel, hdel', hex', hz']; rfl
          rw [List.filter_cons_of_pos ht, List.map_cons]
          have hstep : ∀ (a : List GoValue) (st' : State σ), st'.session.statement = s →
              (genInsertColumnsLoop E bean cols (names ++ [col.Name]) a st').1.1
                  = names ++ col.Name :: (cols.filter (selects E s bean)).map (fun c => c.Name) ∧
                (genInsertColumnsLoop E bean cols (names ++ [col.Name]) a st').1.2.2 = none := by
            intro a st' hs'
            have h := ih' (names ++ [col.Name]) a st' hs'
            rw [List.append_assoc] at h
            exact h
          split
          · exact hstep _ _ hs
          · split
            · exact hstep _ _ hs
            · rw [harg]
              exact hstep _ _ hs

end SelectLemmas

section SelectSample

theorem sample_conv_total (col : Column) (v : GoValue) :
    ∃ arg, sampleValue2Interface col v = .ok arg := by
  unfold sampleValue2Interface
  split <;> exact ⟨_, rfl⟩

end SelectSample
/-! ### Column selection -/

section SelectClaims
variable {σ : Type}

/-- C15, counterexample.  On the three-column table, field access succeeds on
every column of the record and the selection rule keeps all three columns, but
the conversion of the second field fails; `genInsertColumns` returns the error
together with the column names collected so far, the first column only. -/
theorem genInsertColumns_stops_at_conversion_error :
    (∀ col ∈ wideTable.columns, ∃ v, valueOf col wideBean = .ok v) ∧
    selectedNames strictEngine (sampleState wideTable).session.statement wideBean
      = ["name", "blob", "note"] ∧
    (genInsertColumns strictEngine (sampleState wideTable) wideBean).1
      = (["name"], [GoValue.str "a"], some (Error.msg "unsupported type")) := by
  refine ⟨?_, by decide, by decide⟩
  intro col hcol
  simp only [wideTable, List.mem_cons, List.mem_singleton, List.not_mem_nil, or_false] at hcol
  rcases hcol with h | h | h <;> subst h <;> exact ⟨_, rfl⟩

/-- C15, amended.  For every table, per-call option set and record on which
field access succeeds and the conversion of every value to bind succeeds,
`genInsertColumns` returns without error, and the column names it returns are
exactly the table's columns, in table-declaration order, that are not deleted,
not explicitly omitted, inside the include-set when one is active, not
targeted by increment, decrement or expression handling, and not an
auto-increment or random-ID column whose field holds the zero value. -/
theorem genInsertColumns_selects (E : Engine σ) (st : State σ) (bean : Bean)
    (hfield : ∀ col ∈ st.session.statement.RefTable.columns, ∃ v, valueOf col bean = .ok v)
    (hconv : ∀ col ∈ st.session.statement.RefTable.columns, ∀ v, valueOf col bean = .ok v →
      ∃ arg, E.value2Interface col (nullableSubst E st.session.statement col v) = .ok arg) :
    (genInsertColumns E st bean).1.1 = selectedNames E st.session.statement bean ∧
    (genInsertColumns E st bean).1.2.2 = none := by
  have h := genInsertColumnsLoop_selected E st.session.statement bean
    st.session.statement.RefTable.columns hfield hconv [] [] st rfl
  rw [List.nil_append] at h
  exact h

/-- Witness for C15: the three-column table and its record on the concrete
engine, whose conversion accepts every value; all three columns are returned,
in order. -/
theorem genInsertColumns_selects_witness :
    (genInsertColumns (sampleEngine DBType.MYSQL false 0) (sampleState wideTable) wideBean).1.1
      = ["name", "blob", "note"] ∧
    (genInsertColumns (sampleEngine DBType.MYSQL false 0) (sampleState wideTable) wideBean).1.2.2
      = none :=
  genInsertColumns_selects (sampleEngine DBType.MYSQL false 0) (sampleState wideTable) wideBean
    (by intro col hcol
        have hc : col = { Name := "name" } ∨ col = { Name := "blob" } ∨ col = { Name := "note" } := by
          simpa [sampleState, wideTable] using hcol
        rcases hc with h | h | h <;> subst h <;> exact ⟨_, rfl⟩)
    (fun col _ v _ => sample_conv_total col _)

end SelectClaims

/-! ### Defects of the execution and map paths -/

section DefectLemmas

theorem exprState_columns :
    mapColumns (sampleEngine DBType.MYSQL false 0) exprState.session.statement.exprColumns ["a"]
      = [] := by
  unfold mapColumns
  have hf : (["a"].filter (fun k => !(sampleEngine DBType.MYSQL false 0).isColExist
      exprState.session.statement.exprColumns k)) = [] := by decide
  rw [hf]
  exact List.mergeSort_nil

theorem exprState_insertMap (st : State Nat)
    (hs : st.session.statement = exprState.session.statement) :
    insertMap (sampleEngine DBType.MYSQL false 0) st [] []
      = (.panic "slice bounds out of range [:-1]", st) := by
  unfold insertMap
  rw [hs]
  rfl

theorem exprState_insertMapInterface (st : State Nat)
    (hs : st.session.statement = exprState.session.statement) :
    insertMapInterface (sampleEngine DBType.MYSQL false 0) st [("a", GoValue.int 1)]
      = insertMap (sampleEngine DBType.MYSQL false 0) st [] [] := by
  unfold insertMapInterface
  rw [hs, if_neg (by decide), if_neg (by decide)]
  show insertMap _ _ (mapColumns _ _ ["a"]) (List.map _ (mapColumns _ _ ["a"])) = _
  rw [exprState_columns]
  rfl

theorem exprState_insertMapString (st : State Nat)
    (hs : st.session.statement = exprState.session.statement) :
    insertMapString (sampleEngine DBType.MYSQL false 0) st [("a", "1")]
      = insertMap (sampleEngine DBType.MYSQL false 0) st [] [] := by
  unfold insertMapString
  rw [hs, if_neg (by decide), if_neg (by decide)]
  show insertMap _ _ (mapColumns _ _ ["a"]) (List.map _ (mapColumns _ _ ["a"])) = _
  rw [exprState_columns]
  rfl

end DefectLemmas

section DefectClaims

/-- C16, failing input.  On the concrete Oracle engine, a single-record insert
on the table with an auto-increment column passes mapping and identifier
assignment and builds its INSERT statement, but the only call the store
receives is the read of the current sequence value: the built statement is
submitted neither through `exec` nor as a query.  On the Postgres and MySQL
engines the same insert submits the built statement, once. -/
theorem oracle_insert_never_submitted :
    prepareInsert (sampleEngine DBType.ORACLE false 0) (sampleState autoTable) (randomBean 1 "a")
      = some ⟨autoTable, ⟨["name"], [GoValue.str "a"], randomBean 1 "a"⟩, sampleState autoTable,
          "INSERT INTO `t` (`name`) VALUES (?)", [GoValue.str "a"]⟩ ∧
    (innerInsert (sampleEngine DBType.ORACLE false 0) (sampleState autoTable)
        (randomBean 1 "a")).2.1.log
      = [Event.queryBytes "select seq_atable.currval from dual" [GoValue.str "a"]] ∧
    (innerInsert (sampleEngine DBType.POSTGRES false 0) (sampleState autoTable)
        (randomBean 1 "a")).2.1.log
      = [Event.queryBytes "INSERT INTO `t` (`name`) VALUES (?) RETURNING `id`"
          [GoValue.str "a"]] ∧
    (innerInsert (sampleEngine DBType.MYSQL false 0) (sampleState autoTable)
        (randomBean 1 "a")).2.1.log
      = [Event.exec "INSERT INTO `t` (`name`) VALUES (?)" [GoValue.str "a"]] := by
  decide

/-- C17, failing input.  With expression column `a` set on the statement and
no selection condition, the map with the single key `a` leaves no column after
the expression columns are taken out; `insertMap` is reached with the empty
column list and the slice `qm[:len(qm)-1]` of the empty placeholder text is out
of bounds, for both kinds of map and through `Insert`. -/
theorem insertMap_reached_with_no_columns :
    insertMapInterface (sampleEngine DBType.MYSQL false 0) exprState [("a", GoValue.int 1)]
      = insertMap (sampleEngine DBType.MYSQL false 0) exprState [] [] ∧
    insertMap (sampleEngine DBType.MYSQL false 0) exprState [] []
      = (.panic "slice bounds out of range [:-1]", exprState) ∧
    insertMapString (sampleEngine DBType.MYSQL false 0) exprState [("a", "1")]
      = (.panic "slice bounds out of range [:-1]", exprState) ∧
    (Insert (sampleEngine DBType.MYSQL false 0) exprState
        [.mapInterface [("a", GoValue.int 1)]]).1
      = .panic "slice bounds out of range [:-1]" := by
  refine ⟨exprState_insertMapInterface exprState rfl, exprState_insertMap exprState rfl,
    (exprState_insertMapString exprState rfl).trans (exprState_insertMap exprState rfl), ?_⟩
  simp only [Insert, insertArgs, insertArg,
    exprState_insertMapInterface (beginInsert exprState) rfl,
    exprState_insertMap (beginInsert exprState) rfl]

end DefectClaims
/-! ### The empty-row statement of `innerInsert` -/

section EmptyRowClaims
variable {σ : Type}

/-- C7. Let a single-record insert resolve its table, let `genInsertColumns`
return without error on the record as the before-insert step leaves it, and
let the plan after identifier assignment have no column.  Then the statement
`innerInsert` has built when it reaches the store is `INSERT INTO <quoted
table> VALUES ()` on MySQL and `INSERT INTO <quoted table> DEFAULT VALUES` on
every other dialect, followed only by the return clause of Postgres or Spanner
for an auto-increment column, with no argument; `innerInsert` is the execution
part run on exactly that statement, and the one call it issues to the store is
the call for that statement. -/
theorem innerInsert_empty_row_statement (E : Engine σ) (st : State σ) (bean : Bean)
    (s : Statement) (names : List String) (args : List GoValue) (st2 st3 : State σ)
    (plan : Plan)
    (hset : E.setRefBean st.session.statement bean = .ok s)
    (hname : E.TableName s ≠ "")
    (hgen : genInsertColumns E (beforeInsert E st s bean).1 (beforeInsert E st s bean).2
      = ((names, args, none), st2))
    (hassign : assignID E st2 s.RefTable (beforeInsert E st s bean).2 names args
      = (.inr plan, st3))
    (hempty : plan.colNames = []) :
    prepareInsert E st bean = some ⟨s.RefTable, plan, st3,
      "INSERT INTO " ++ E.Quote (E.TableName s)
        ++ (if E.DBType = DBType.MYSQL then " VALUES ()" else " DEFAULT VALUES")
        ++ (if s.RefTable.AutoIncrement ≠ "" ∧ E.DBType = DBType.POSTGRES then
              " RETURNING " ++ E.Quote s.RefTable.AutoIncrement else "")
        ++ (if s.RefTable.AutoIncrement ≠ "" ∧ E.DBType = DBType.spanner then
              " THEN RETURN " ++ E.Quote s.RefTable.AutoIncrement else ""), []⟩ ∧
    innerInsert E st bean = execInsert E st3 s.RefTable plan.bean
      ("INSERT INTO " ++ E.Quote (E.TableName s)
        ++ (if E.DBType = DBType.MYSQL then " VALUES ()" else " DEFAULT VALUES")
        ++ (if s.RefTable.AutoIncrement ≠ "" ∧ E.DBType = DBType.POSTGRES then
              " RETURNING " ++ E.Quote s.RefTable.AutoIncrement else "")
        ++ (if s.RefTable.AutoIncrement ≠ "" ∧ E.DBType = DBType.spanner then
              " THEN RETURN " ++ E.Quote s.RefTable.AutoIncrement else "")) [] ∧
    (innerInsert E st bean).2.1.log = st3.log ++ [storeCall E s.RefTable
      ("INSERT INTO " ++ E.Quote (E.TableName s)
        ++ (if E.DBType = DBType.MYSQL then " VALUES ()" else " DEFAULT VALUES")
        ++ (if s.RefTable.AutoIncrement ≠ "" ∧ E.DBType = DBType.POSTGRES then
              " RETURNING " ++ E.Quote s.RefTable.AutoIncrement else "")
        ++ (if s.RefTable.AutoIncrement ≠ "" ∧ E.DBType = DBType.spanner then
              " THEN RETURN " ++ E.Quote s.RefTable.AutoIncrement else "")) []] := by
  have hst2 : st2.session.statement = s :=
    (genInsertColumnsLoop_spec E _ _ _ _ _ _ _ _ hgen).1
  have hst3 : st3.session.statement = s := by
    have h := assignID_session E st2 s.RefTable (beforeInsert E st s bean).2 names args
    rw [hassign] at h
    have h2 : st3.session = st2.session := h
    rw [h2]
    exact hst2
  have hbuild := buildInsert_empty_columns E st3.session.statement s.RefTable plan.args
  rw [← hempty, hst3] at hbuild
  have hprep := prepareInsert_of_steps E st bean s names args st2 st3 plan _ _ hset hname hgen
    hassign (by rw [hst3]; exact hbuild)
  have hinner := innerInsert_of_prepared E st bean _ hprep
  refine ⟨hprep, hinner, ?_⟩
  rw [hinner, execInsert_log]

/-- Witness for C7: the record with a zero identifier of the table whose only
column is the auto-increment column, on the concrete MySQL engine and on the
concrete Postgres engine; the store receives the empty-row statement of the
dialect. -/
theorem innerInsert_empty_row_statement_witness :
    (innerInsert (sampleEngine DBType.MYSQL false 0) (sampleState idOnlyTable) idOnlyBean).2.1.log
      = [Event.exec "INSERT INTO `t` VALUES ()" []] ∧
    (innerInsert (sampleEngine DBType.POSTGRES false 0) (sampleState idOnlyTable)
        idOnlyBean).2.1.log
      = [Event.queryBytes "INSERT INTO `t` DEFAULT VALUES RETURNING `id`" []] :=
  ⟨(innerInsert_empty_row_statement (sampleEngine DBType.MYSQL false 0)
      (sampleState idOnlyTable) idOnlyBean (sampleState idOnlyTable).session.statement [] []
      (sampleState idOnlyTable) (sampleState idOnlyTable) ⟨[], [], idOnlyBean⟩
      rfl (by decide) (by decide) (by decide) rfl).2.2.trans (by decide),
   (innerInsert_empty_row_statement (sampleEngine DBType.POSTGRES false 0)
      (sampleState idOnlyTable) idOnlyBean (sampleState idOnlyTable).session.statement [] []
      (sampleState idOnlyTable) (sampleState idOnlyTable) ⟨[], [], idOnlyBean⟩
      rfl (by decide) (by decide) (by decide) rfl).2.2.trans (by decide)⟩

end EmptyRowClaims
/-! ### Row by row through both paths -/

section AgreeRows
variable {σ : Type}

theorem multiRowArgs_before (E : Engine σ) (vv : Bean) (cols : List Column) :
    ∀ (args : List GoValue) (places : List String) (st : State σ),
      (multiRowArgs E vv cols args places st).2.session.beforeClosures
        = st.session.beforeClosures := by
  induction cols with
  | nil => intro args places st; rfl
  | cons col cols ih =>
    intro args places st
    unfold multiRowArgs
    split
    · rfl
    · dsimp only
      split
      · rw [ih]
      · split
        · rw [ih]
        · split
          · rfl
          · exact ih _ _ _

theorem handleAfter_statement (E : Engine σ) (st : State σ) (bean : Bean) :
    (handleAfterInsertProcessorFunc E st bean).1.session.statement = st.session.statement := by
  unfold handleAfterInsertProcessorFunc
  dsimp only
  split
  · rfl
  · exact recordAfterInsert_statement E _ _

theorem deferred_session (E : Engine σ) (st : State σ) (r : Outcome × Bean) :
    (deferred E st r).2.1.session.statement = st.session.statement ∧
      (deferred E st r).2.1.session.beforeClosures = st.session.beforeClosures := by
  unfold deferred
  exact ⟨handleAfter_statement E st r.2, (handleAfter_session E st r.2).1⟩

theorem afterQuery_session (E : Engine σ) (st : State σ) (table : Table) (bean : Bean)
    (res : List (List (String × String))) (noRows : String) :
    (afterQuery E st table bean res noRows).2.1.session.statement = st.session.statement ∧
      (afterQuery E st table bean res noRows).2.1.session.beforeClosures
        = st.session.beforeClosures := by
  unfold afterQuery
  split
  · exact deferred_session E st _
  · split
    · exact deferred_session E st _
    · dsimp only
      split
      · exact deferred_session E st _
      · split <;> exact deferred_session E st _

theorem afterExec_session (E : Engine σ) (st : State σ) (table : Table) (bean : Bean)
    (res : Result) :
    (afterExec E st table bean res).2.1.session.statement = st.session.statement ∧
      (afterExec E st table bean res).2.1.session.beforeClosures
        = st.session.beforeClosures := by
  unfold afterExec
  split
  · exact deferred_session E st _
  · split
    · exact deferred_session E st _
    · split
      · exact deferred_session E st _
      · split
        · exact deferred_session E st _
        · split <;> exact deferred_session E st _

/-- The execution part keeps the statement and the before-closure queue. -/
theorem execInsert_session (E : Engine σ) (st : State σ) (table : Table) (bean : Bean)
    (sqlStr : String) (args : List GoValue) :
    (execInsert E st table bean sqlStr args).2.1.session.statement = st.session.statement ∧
      (execInsert E st table bean sqlStr args).2.1.session.beforeClosures
        = st.session.beforeClosures := by
  unfold execInsert
  split
  · dsimp only
    split
    · exact ⟨rfl, rfl⟩
    · exact afterQuery_session E _ _ _ _ _
  · split
    · dsimp only
      split
      · exact ⟨rfl, rfl⟩
      · exact afterQuery_session E _ _ _ _ _
    · dsimp only
      split
      · exact ⟨rfl, rfl⟩
      · exact afterExec_session E _ _ _ _

end AgreeRows
/-! ### Both paths over a whole batch -/

section AgreeBatch
variable {σ : Type}

/-- The single-record insert, given the results of its steps up to identifier
assignment: it builds the statement for the plan and, unless a writer helper
fails, runs the execution part on it. -/
theorem innerInsert_of_steps (E : Engine σ) (st : State σ) (bean : Bean) (s : Statement)
    (names : List String) (args : List GoValue) (st2 st3 : State σ) (plan : Plan)
    (hset : E.setRefBean st.session.statement bean = .ok s)
    (hname : E.TableName s ≠ "")
    (hgen : genInsertColumns E (beforeInsert E st s bean).1 (beforeInsert E st s bean).2
      = ((names, args, none), st2))
    (hassign : assignID E st2 s.RefTable (beforeInsert E st s bean).2 names args
      = (.inr plan, st3)) :
    innerInsert E st bean =
      match buildInsert E st3.session.statement s.RefTable plan.colNames plan.args with
      | .error err => (.ret 0 (some err), st3, plan.bean)
      | .ok (sqlStr, args) => execInsert E st3 s.RefTable plan.bean sqlStr args := by
  unfold innerInsert
  rw [hset]
  dsimp only
  rw [if_neg hname]
  have hgen2 := hgen
  unfold beforeInsert at hgen2
  dsimp only at hgen2
  rw [hgen2]
  dsimp only
  have hassign2 := hassign
  unfold beforeInsert at hassign2
  dsimp only at hassign2
  rw [hassign2]

/-- A record that both loops bind with `cols` and `bound`, inserted on its own
with success from a state without before-closures: the statement submitted is
the one built for the names of `cols` and `bound`, and the statement options
and the empty before-closure queue are handed on. -/
theorem innerInsert_bound (E : Engine σ) (s : Statement) (cols : List Column)
    (hset : ∀ b, E.setRefBean s b = .ok s)
    (hname : E.TableName s ≠ "")
    (hseq : s.RefTable.AutoIncrement = "" ∨ E.sequenceGenerator = none ∨
      (cols.map (fun c => c.Name)).contains s.RefTable.AutoIncrement = true)
    (hrand : s.RefTable.RandomID = "" ∨
      (cols.map (fun c => c.Name)).contains s.RefTable.RandomID = true)
    (st : State σ) (r : Bean) (bound : List GoValue) (cnt : Int) (st' : State σ) (r' : Bean)
    (hs : st.session.statement = s) (hb : st.session.beforeClosures = [])
    (hbind : RowBinding E s cols (callBeforeInsert E r) bound)
    (hok : innerInsert E st r = (.ret cnt none, st', r')) :
    ∃ q, buildInsert E s s.RefTable (cols.map (fun c => c.Name)) bound = .ok q ∧
      st'.log = st.log ++ [storeCall E s.RefTable q.1 q.2] ∧
      st'.session.statement = s ∧ st'.session.beforeClosures = [] := by
  have hbean : (beforeInsert E st s r).2 = callBeforeInsert E r := by
    unfold beforeInsert
    rw [hb]
    rfl
  obtain ⟨st2, hg, hs2, hl2⟩ := hbind.1 (beforeInsert E st s r).1 [] [] rfl
  have hb2 : st2.session.beforeClosures = [] := by
    have h := genInsertColumnsLoop_before E (callBeforeInsert E r) s.RefTable.columns [] []
      (beforeInsert E st s r).1
    rw [hg] at h
    exact h
  have hgen : genInsertColumns E (beforeInsert E st s r).1 (beforeInsert E st s r).2
      = ((cols.map (fun c => c.Name), bound, none), st2) := by
    unfold genInsertColumns
    rw [hbean]
    simpa using hg
  have hassign : assignID E st2 s.RefTable (beforeInsert E st s r).2
      (cols.map (fun c => c.Name)) bound
      = (.inr ⟨cols.map (fun c => c.Name), bound, (beforeInsert E st s r).2⟩, st2) :=
    assignID_noop E st2 s.RefTable _ _ _ hseq hrand
  have hinner := innerInsert_of_steps E st r s _ _ st2 st2 _ (by rw [hs]; exact hset r) hname
    hgen hassign
  rw [hs2] at hinner
  cases hbuild : buildInsert E s s.RefTable (cols.map (fun c => c.Name)) bound with
  | error err =>
    rw [hbuild] at hinner
    rw [hinner] at hok
    cases hok
  | ok q =>
    obtain ⟨sqlStr, args2⟩ := q
    rw [hbuild] at hinner
    dsimp only at hinner
    rw [hinner] at hok
    have hlog := execInsert_log E st2 s.RefTable (beforeInsert E st s r).2 sqlStr args2
    have hsess := execInsert_session E st2 s.RefTable (beforeInsert E st s r).2 sqlStr args2
    rw [hok] at hlog hsess
    refine ⟨(sqlStr, args2), rfl, ?_, ?_, ?_⟩
    · have hl : st'.log = st2.log ++ [storeCall E s.RefTable sqlStr args2] := hlog
      rw [hl, hl2]
      rfl
    · exact hsess.1.trans hs2
    · exact hsess.2.trans hb2

end AgreeBatch
section AgreeBatch2
variable {σ : Type}

/-- Every record of a batch that meets the row conditions is bound by both
loops with the columns selected on the first element. -/
theorem rows_bound (E : Engine σ) (s : Statement) (first : Bean) (db0 : σ)
    (cols : List Column)
    (hclock : ∀ (db db' : σ) (col : Column), (E.nowTime db col).1.1 = (E.nowTime db' col).1.1)
    (hfirst : ∀ col ∈ s.RefTable.columns, ∃ w, valueOf col first = .ok w)
    (hexpr : ∀ col ∈ s.RefTable.columns, E.isColExist s.incrColumns col.Name = false ∧
      E.isColExist s.decrColumns col.Name = false ∧ E.isColExist s.exprColumns col.Name = false)
    (hcols : multiColumns E s first s.RefTable.columns [] = .ok cols) :
    ∀ rows : List Bean,
      (∀ r ∈ rows, ∀ col ∈ s.RefTable.columns,
        (∃ v, valueOf col (callBeforeInsert E r) = .ok v) ∧
        (∀ v w, valueOf col (callBeforeInsert E r) = .ok v → valueOf col first = .ok w →
          ((col.IsAutoIncrement || col.IsRandomID) && isZeroOfKind v)
            = (col.IsAutoIncrement && E.isZero w)) ∧
        (∀ v, valueOf col (callBeforeInsert E r) = .ok v →
          nullableSubst E s col v = v ∧ ∃ arg, E.value2Interface col v = .ok arg)) →
      ∃ argss : List (List GoValue),
        List.Forall₂ (fun r a => RowBinding E s cols (callBeforeInsert E r) a) rows argss := by
  intro rows
  induction rows with
  | nil => intro _; exact ⟨[], List.Forall₂.nil⟩
  | cons r rows ih =>
    intro h
    obtain ⟨argss, hrest⟩ := ih (fun x hx => h x (List.mem_cons_of_mem _ hx))
    have hr := h r (by simp)
    obtain ⟨sel, bound, hmc, hgen, hmr⟩ :=
      plans_agree_loop E s first (callBeforeInsert E r) db0 hclock s.RefTable.columns hfirst
        (fun col hcol => (hr col hcol).1) hexpr (fun col hcol => (hr col hcol).2.1)
        (fun col hcol v hv => ((hr col hcol).2.2 v hv).1)
        (fun col hcol v hv => ((hr col hcol).2.2 v hv).2)
    have hsel : sel = cols := by
      have h1 := hmc []
      rw [hcols] at h1
      simpa using h1.symm
    subst hsel
    exact ⟨bound :: argss, List.Forall₂.cons ⟨hgen, hmr⟩ hrest⟩

/-- The row loop of the multi-row path over records that are bound with
`cols`: it appends the arguments of every row in order and one group of
placeholders per row, runs the before-insert capability of each record, and
issues no call. -/
theorem multiRows_bound (E : Engine σ) (s : Statement) (cols : List Column)
    {rows : List Bean} {argss : List (List GoValue)}
    (hall : List.Forall₂ (fun r a => RowBinding E s cols (callBeforeInsert E r) a) rows argss) :
    ∀ (args : List GoValue) (places : List String) (st : State σ),
      st.session.statement = s → st.session.beforeClosures = [] →
      ∃ st', multiRows E cols rows args places st
          = (.ok (args ++ argss.flatten,
                places ++ argss.map (fun _ => ", ".intercalate (List.replicate cols.length "?"))),
              st', rows.map (callBeforeInsert E)) ∧
        st'.session.statement = s ∧ st'.log = st.log ∧ st'.session.beforeClosures = [] := by
  induction hall with
  | nil =>
    intro args places st hs hb
    exact ⟨st, by simp [multiRows], hs, rfl, hb⟩
  | @cons r a rows argss hra _ ih =>
    intro args places st hs hb
    obtain ⟨st1, h1, hs1, hl1⟩ := hra.2 st args [] hs
    have hb1 : st1.session.beforeClosures = [] := by
      have h := multiRowArgs_before E (callBeforeInsert E r) cols args [] st
      rw [h1] at h
      exact h.trans hb
    obtain ⟨st2, h2, hs2, hl2, hb2⟩ :=
      ih (args ++ a) (places ++ [", ".intercalate (List.replicate cols.length "?")]) st1 hs1 hb1
    refine ⟨st2, ?_, hs2, hl2.trans hl1, hb2⟩
    unfold multiRows
    rw [hb]
    have hrun : runClosures E [] r = r := rfl
    rw [hrun]
    dsimp only
    rw [h1]
    dsimp only
    rw [List.nil_append, h2]
    simp

end AgreeBatch2
section AgreeBatch3
variable {σ : Type}

/-- The multi-row path over a batch whose records are bound with the columns
selected on its first element: the one call it issues is the multi-row
statement over those columns with one group of placeholders per record and the
arguments of the records in order. -/
theorem innerInsertMulti_bound (E : Engine σ) (s : Statement) (cols : List Column)
    (first : Bean) (rest : List Bean) (argss : List (List GoValue)) (st : State σ)
    (hset : ∀ b, E.setRefBean s b = .ok s)
    (hname : E.TableName s ≠ "")
    (hs : st.session.statement = s) (hb : st.session.beforeClosures = [])
    (hcols : multiColumns E s first s.RefTable.columns [] = .ok cols)
    (hall : List.Forall₂ (fun r a => RowBinding E s cols (callBeforeInsert E r) a)
      (first :: rest) argss) :
    (innerInsertMulti E st (first :: rest)).2.1.log
      = st.log ++ [Event.exec
          (multiSQL E (E.TableName s) (cols.map (fun c => c.Name))
            (argss.map (fun _ => ", ".intercalate (List.replicate cols.length "?"))))
          argss.flatten] := by
  obtain ⟨st1, h1, _, hl1, _⟩ := multiRows_bound E s cols hall [] []
    (⟨{ st.session with statement := s }, st.db, st.log⟩ : State σ) rfl hb
  unfold innerInsertMulti
  dsimp only
  rw [hs, hset]
  dsimp only
  rw [if_neg hname, hcols]
  dsimp only
  have h2 : multiRows E cols (first :: rest) [] []
      { st with session := { st.session with statement := s } }
      = (.ok (argss.flatten,
            argss.map (fun _ => ", ".intercalate (List.replicate cols.length "?"))),
          st1, (first :: rest).map (callBeforeInsert E)) := by
    simpa using h1
  rw [h2]
  dsimp only
  split
  · simp [State.exec, hl1]
  · simp [State.exec, hl1]

/-- The per-row runs of a batch whose records are bound with `cols`: each
record is submitted with the statement built for the names of `cols` and its
own arguments, in order. -/
theorem Inserted_bound (E : Engine σ) (s : Statement) (cols : List Column)
    (hset : ∀ b, E.setRefBean s b = .ok s)
    (hname : E.TableName s ≠ "")
    (hseq : s.RefTable.AutoIncrement = "" ∨ E.sequenceGenerator = none ∨
      (cols.map (fun c => c.Name)).contains s.RefTable.AutoIncrement = true)
    (hrand : s.RefTable.RandomID = "" ∨
      (cols.map (fun c => c.Name)).contains s.RefTable.RandomID = true)
    {st st' : State σ} {rows rows' : List Bean} {counts : List Int}
    (hrun : Inserted E st rows counts st' rows') :
    ∀ argss : List (List GoValue),
      List.Forall₂ (fun r a => RowBinding E s cols (callBeforeInsert E r) a) rows argss →
      st.session.statement = s → st.session.beforeClosures = [] →
      ∃ stmts : List (String × List GoValue),
        List.Forall₂ (fun a q => buildInsert E s s.RefTable (cols.map (fun c => c.Name)) a = .ok q)
          argss stmts ∧
        st'.log = st.log ++ stmts.map (fun q => storeCall E s.RefTable q.1 q.2) := by
  induction hrun with
  | nil st0 =>
    intro argss hall _ _
    cases hall
    exact ⟨[], List.Forall₂.nil, by simp⟩
  | @cons st0 st1 st2 bean bean' cnt rest rest' counts hok _ ih =>
    intro argss hall hs hb
    cases hall with
    | @cons _ a _ argss hra hrest =>
      obtain ⟨q, hq, hl, hs1, hb1⟩ :=
        innerInsert_bound E s cols hset hname hseq hrand st0 bean a cnt st1 bean' hs hb hra hok
      obtain ⟨stmts, hstmts, hl2⟩ := ih argss hrest hs1 hb1
      refine ⟨q :: stmts, List.Forall₂.cons hq hstmts, ?_⟩
      rw [hl2, hl]
      simp

end AgreeBatch3

section AgreeBatch4
variable {σ : Type}

/-- A record bound with `cols` has one argument per column. -/
theorem rowBinding_lengths (E : Engine σ) (s : Statement) (cols : List Column) (st : State σ)
    (hs : st.session.statement = s) {rows : List Bean} {argss : List (List GoValue)}
    (hall : List.Forall₂ (fun r a => RowBinding E s cols (callBeforeInsert E r) a) rows argss) :
    argss.length = rows.length ∧ ∀ a ∈ argss, a.length = cols.length := by
  induction hall with
  | nil => exact ⟨rfl, by simp⟩
  | @cons r a rows argss hra _ ih =>
    obtain ⟨st', hg, _, _⟩ := hra.1 st [] [] hs
    have hlen := genInsertColumnsLoop_lengths E (callBeforeInsert E r) s.RefTable.columns [] [] st
      rfl
    rw [hg] at hlen
    have ha : a.length = cols.length := by simpa using hlen.symm
    refine ⟨by simp [ih.1], ?_⟩
    intro x hx
    rcases List.mem_cons.1 hx with h | h
    · rw [h]; exact ha
    · exact ih.2 x h

end AgreeBatch4
/-! ### The multi-row path against the per-row path, over a batch -/

section AgreeBatchClaims
variable {σ : Type}

/-- C5, amended.  Take a non-empty batch `first :: rest` of distinct records
under one statement `s` (same table metadata, same per-call options), inserted
from the same state `st` once by the multi-row path and once record by record.
Assume no before-closure is registered, and for every record as its
before-insert capability leaves it: the field reads and conversions succeed,
the skip decision agrees with the one taken on the first element and no
nullable substitution applies; assume also that no increment, decrement or
expression column is set, the clock reads the same in both runs, and no
identifier has to be generated (no sequence or random-ID column is configured,
or that column is among the selected ones).  When the store accepts the batch
in full (the multi-row statement reports one row per element and every
per-row insert reports one row), there are selected columns `cols` and, per
record in order, arguments `argss` (one per column) such that the multi-row
path submits the single statement over `cols` with the arguments of all records
in order, the per-row path submits for each record the statement built for the
names of `cols` and the arguments of that record, and the per-row loop returns
the same total count as the multi-row insert. -/
theorem multi_and_iterative_agree (E : Engine σ) (s : Statement) (first : Bean)
    (rest : List Bean) (st stMulti stEach : State σ) (rowsM rowsE : List Bean) (n : Int)
    (counts : List Int)
    (hs : st.session.statement = s)
    (hset : ∀ b, E.setRefBean s b = .ok s)
    (hbefore : st.session.beforeClosures = [])
    (_hdistinct : ((first :: rest).map (fun b => b.addr)).Nodup)
    (hclock : ∀ (db db' : σ) (col : Column), (E.nowTime db col).1.1 = (E.nowTime db' col).1.1)
    (hfirst : ∀ col ∈ s.RefTable.columns, ∃ w, valueOf col first = .ok w)
    (hexpr : ∀ col ∈ s.RefTable.columns, E.isColExist s.incrColumns col.Name = false ∧
      E.isColExist s.decrColumns col.Name = false ∧ E.isColExist s.exprColumns col.Name = false)
    (hrows : ∀ r ∈ first :: rest, ∀ col ∈ s.RefTable.columns,
      (∃ v, valueOf col (callBeforeInsert E r) = .ok v) ∧
      (∀ v w, valueOf col (callBeforeInsert E r) = .ok v → valueOf col first = .ok w →
        ((col.IsAutoIncrement || col.IsRandomID) && isZeroOfKind v)
          = (col.IsAutoIncrement && E.isZero w)) ∧
      (∀ v, valueOf col (callBeforeInsert E r) = .ok v →
        nullableSubst E s col v = v ∧ ∃ arg, E.value2Interface col v = .ok arg))
    (hseq : s.RefTable.AutoIncrement = "" ∨ E.sequenceGenerator = none ∨
      ∀ cols, multiColumns E s first s.RefTable.columns [] = .ok cols →
        (cols.map (fun c => c.Name)).contains s.RefTable.AutoIncrement = true)
    (hrand : s.RefTable.RandomID = "" ∨
      ∀ cols, multiColumns E s first s.RefTable.columns [] = .ok cols →
        (cols.map (fun c => c.Name)).contains s.RefTable.RandomID = true)
    (hmulti : innerInsertMulti E st (first :: rest) = (.ret n none, stMulti, rowsM))
    (heach : Inserted E st (first :: rest) counts stEach rowsE)
    (hfull : n = (first :: rest).length ∧ ∀ c ∈ counts, c = 1)
    (hfit : ((first :: rest).length : Int) < 2 ^ 63) :
    ∃ (cols : List Column) (argss : List (List GoValue)) (stmts : List (String × List GoValue)),
      multiColumns E s first s.RefTable.columns [] = .ok cols ∧
      argss.length = (first :: rest).length ∧ (∀ a ∈ argss, a.length = cols.length) ∧
      stMulti.log = st.log ++ [Event.exec
        (multiSQL E (E.TableName s) (cols.map (fun c => c.Name))
          (argss.map (fun _ => ", ".intercalate (List.replicate cols.length "?"))))
        argss.flatten] ∧
      List.Forall₂
        (fun a q => buildInsert E s s.RefTable (cols.map (fun c => c.Name)) a = .ok q)
        argss stmts ∧
      stEach.log = st.log ++ stmts.map (fun q => storeCall E s.RefTable q.1 q.2) ∧
      insertEach E st 0 (first :: rest) = (.ret n none, stEach, rowsE) ∧
      (insertEach E st 0 (first :: rest)).1 = (innerInsertMulti E st (first :: rest)).1 := by
  have hname : E.TableName s ≠ "" := by
    intro h
    unfold innerInsertMulti at hmulti
    simp [hs, hset, h] at hmulti
  have hcolsEx : ∃ cols, multiColumns E s first s.RefTable.columns [] = .ok cols := by
    cases hc : multiColumns E s first s.RefTable.columns [] with
    | error err =>
      unfold innerInsertMulti at hmulti
      simp [hs, hset, hname, hc] at hmulti
    | ok cols => exact ⟨cols, rfl⟩
  obtain ⟨cols, hcols⟩ := hcolsEx
  obtain ⟨argss, hall⟩ := rows_bound E s first st.db cols hclock hfirst hexpr hcols
    (first :: rest) hrows
  have hseq2 : s.RefTable.AutoIncrement = "" ∨ E.sequenceGenerator = none ∨
      (cols.map (fun c => c.Name)).contains s.RefTable.AutoIncrement = true := by
    rcases hseq with h | h | h
    · exact Or.inl h
    · exact Or.inr (Or.inl h)
    · exact Or.inr (Or.inr (h cols hcols))
  have hrand2 : s.RefTable.RandomID = "" ∨
      (cols.map (fun c => c.Name)).contains s.RefTable.RandomID = true := by
    rcases hrand with h | h
    · exact Or.inl h
    · exact Or.inr (h cols hcols)
  have hlens := rowBinding_lengths E s cols st hs hall
  have hmlog := innerInsertMulti_bound E s cols first rest argss st hset hname hs hbefore hcols
    hall
  rw [hmulti] at hmlog
  obtain ⟨stmts, hstmts, helog⟩ :=
    Inserted_bound E s cols hset hname hseq2 hrand2 heach argss hall hs hbefore
  have hloop : insertEach E st 0 (first :: rest) = (.ret n none, stEach, rowsE) := by
    have h := insertEach_append E heach 0 []
    have hlen := Inserted_length E heach
    have hones := sum_of_ones counts hfull.2
    have hsum : counts.foldl (fun a c => wrap64 (a + c)) 0 = n := by
      have h64 := sum64_eq_sum counts (fun c hc => by rw [hfull.2 c hc]; decide)
        (by rw [hones, hlen]; exact_mod_cast hfit)
      unfold sum64 at h64
      rw [h64, hones, hlen, hfull.1]
    simpa [insertEach, hsum] using h
  exact ⟨cols, argss, stmts, hcols, hlens.1, hlens.2, hmlog, hstmts, helog, hloop,
    by rw [hloop, hmulti]⟩

/-- Witness for C5: the batch of the two records a and b of the one-column
table on the concrete engine.  The multi-row path submits one statement over
the selected columns with the arguments of both records, the per-row path one
statement per record with the arguments of that record, and both return
count 2. -/
theorem multi_and_iterative_agree_witness :
    ∃ (cols : List Column) (argss : List (List GoValue)) (stmts : List (String × List GoValue)),
      multiColumns (sampleEngine DBType.MYSQL true 0) (sampleRun []).session.statement
          (sampleBean 1 "a") (sampleRun []).session.statement.RefTable.columns [] = .ok cols ∧
      argss.length = [sampleBean 1 "a", sampleBean 2 "b"].length ∧
      (∀ a ∈ argss, a.length = cols.length) ∧
      (sampleMultiRun ["a", "b"]).log = (sampleRun []).log ++ [Event.exec
        (multiSQL (sampleEngine DBType.MYSQL true 0)
          ((sampleEngine DBType.MYSQL true 0).TableName (sampleRun []).session.statement)
          (cols.map (fun c => c.Name))
          (argss.map (fun _ => ", ".intercalate (List.replicate cols.length "?"))))
        argss.flatten] ∧
      List.Forall₂
        (fun a q => buildInsert (sampleEngine DBType.MYSQL true 0)
          (sampleRun []).session.statement (sampleRun []).session.statement.RefTable
          (cols.map (fun c => c.Name)) a = .ok q)
        argss stmts ∧
      (sampleRun ["a", "b"]).log = (sampleRun []).log ++ stmts.map (fun q =>
        storeCall (sampleEngine DBType.MYSQL true 0)
          (sampleRun []).session.statement.RefTable q.1 q.2) ∧
      insertEach (sampleEngine DBType.MYSQL true 0) (sampleRun []) 0
          [sampleBean 1 "a", sampleBean 2 "b"]
        = (.ret 2 none, sampleRun ["a", "b"], [sampleBean 1 "a", sampleBean 2 "b"]) ∧
      (insertEach (sampleEngine DBType.MYSQL true 0) (sampleRun []) 0
          [sampleBean 1 "a", sampleBean 2 "b"]).1
        = (innerInsertMulti (sampleEngine DBType.MYSQL true 0) (sampleRun [])
            [sampleBean 1 "a", sampleBean 2 "b"]).1 :=
  multi_and_iterative_agree (sampleEngine DBType.MYSQL true 0) (sampleRun []).session.statement
    (sampleBean 1 "a") [sampleBean 2 "b"] (sampleRun []) (sampleMultiRun ["a", "b"])
    (sampleRun ["a", "b"]) [sampleBean 1 "a", sampleBean 2 "b"]
    [sampleBean 1 "a", sampleBean 2 "b"] 2 [1, 1]
    rfl (fun _ => rfl) rfl (by decide) (fun _ _ _ => rfl)
    (by intro col hcol
        have hc : col = { Name := "name" } := by simpa [sampleRun, sampleTable] using hcol
        subst hc
        exact ⟨_, rfl⟩)
    (by decide)
    (by intro r hr col hcol
        have hc : col = { Name := "name" } := by simpa [sampleRun, sampleTable] using hcol
        subst hc
        have hrr : r = sampleBean 1 "a" ∨ r = sampleBean 2 "b" := by simpa using hr
        rcases hrr with h | h
        · subst h
          refine ⟨⟨_, rfl⟩, fun _ _ _ _ => rfl, fun v hv => ?_⟩
          have hv2 : v = GoValue.str "a" := by
            have hval : valueOf { Name := "name" }
                (callBeforeInsert (sampleEngine DBType.MYSQL true 0) (sampleBean 1 "a"))
                = .ok (GoValue.str "a") := rfl
            rw [hval] at hv
            cases hv
            rfl
          subst hv2
          exact ⟨rfl, _, rfl⟩
        · subst h
          refine ⟨⟨_, rfl⟩, fun _ _ _ _ => rfl, fun v hv => ?_⟩
          have hv2 : v = GoValue.str "b" := by
            have hval : valueOf { Name := "name" }
                (callBeforeInsert (sampleEngine DBType.MYSQL true 0) (sampleBean 2 "b"))
                = .ok (GoValue.str "b") := rfl
            rw [hval] at hv
            cases hv
            rfl
          subst hv2
          exact ⟨rfl, _, rfl⟩)
    (Or.inl rfl) (Or.inl rfl) (by decide)
    (@Inserted.cons Nat _ _ (sampleRun ["a"]) _ _ _ _ _ _ _ (by decide)
      (Inserted.cons (by decide) (Inserted.nil _)))
    ⟨rfl, by decide⟩ (by decide)

end AgreeBatchClaims
end Xorm
